import Mathlib

/-!
# SQLite page cache: LRU and LRU-2 replacement

A shallow embedding of `page_cache_lru.cpp` and `page_cache_lru_2.cpp`.

* A page object lives on the C++ heap and is named by its address.  The heap
  is a list of slots indexed by address; a slot is `none` once the page has
  been deleted.  `new` takes the next slot, so an address is never handed out
  twice.
* `cachedPages` (a `std::unordered_map` from page id to page pointer) is the
  list of its `(key, address)` entries in iteration order.  The C++ standard
  leaves that order open; the embedding puts a newly inserted entry first.
* Every operation returns an `Option`.  `none` stands for undefined behaviour
  of the C++ program: a dereference of a deleted page, `erase(end())`,
  `front()` of an empty queue, the use of a pointer that was never assigned,
  the use of an iterator that `erase` has invalidated, and signed overflow of
  the global stamp counter.
* `unsigned` values are naturals below `2 ^ 32`, `int` values are integers,
  conversions between the two are written out (`toUnsigned`, `toInt`).  The
  `unsigned long long` counters wrap modulo `2 ^ 64`.  `getNumPages` casts the
  map size to `int`; pages are only created while the size is below
  `maxNumPages_`, an `int`, so the size stays within `int` and the cast is
  modelled as exact.
-/

namespace PageCache

/-! ## Machine integers -/

/-- Largest value of `unsigned`. -/
def UINT_MAX : Nat := 4294967295

/-- Largest value of `int`. -/
def INT_MAX : Int := 2147483647

/-- Conversion of an integer value to `unsigned`: the value modulo `2 ^ 32`. -/
def toUnsigned (i : Int) : Nat := (i % 4294967296).toNat

/-- Conversion of an integer value to `int`: the representative of the value
modulo `2 ^ 32` in the range of `int`. -/
def toInt (i : Int) : Int := Int.bmod i 4294967296

/-- The increment of an `unsigned long long` counter. -/
def incr64 (n : Nat) : Nat := (n + 1) % 18446744073709551616

/-! ## The heap of page objects -/

/-- Read the object at address `a`; `none` when no live object is there. -/
def deref {α : Type} (heap : List (Option α)) (a : Nat) : Option α :=
  heap.getD a none

/-- Overwrite the object at address `a`. -/
def store {α : Type} (heap : List (Option α)) (a : Nat) (p : α) : List (Option α) :=
  heap.set a (some p)

/-- The effect of `delete` on the object at address `a`. -/
def free {α : Type} (heap : List (Option α)) (a : Nat) : List (Option α) :=
  heap.set a none

/-! ## The directory `std::unordered_map<unsigned, Page*>` -/

/-- The map `cachedPages`: its entries `(key, address)` in iteration order. -/
abbrev Directory := List (Nat × Nat)

/-- The call `cachedPages.find(k)`: the mapped pointer, or `none` for `end()`. -/
def find (m : Directory) (k : Nat) : Option Nat :=
  match m with
  | [] => none
  | e :: rest => if e.1 = k then some e.2 else find rest k

/-- The call `cachedPages.erase(k)` by key, and `erase(it)` for an iterator
that `find(k)` returned. -/
def eraseKey (m : Directory) (k : Nat) : Directory :=
  match m with
  | [] => []
  | e :: rest => if e.1 = k then rest else e :: eraseKey rest k

/-- The call `cachedPages.emplace(k, v)`: nothing is inserted when the key is
already present. -/
def emplace (m : Directory) (k : Nat) (v : Nat) : Directory :=
  match find m k with
  | some _ => m
  | none => (k, v) :: m

/-! ## The operations of the host, for traces -/

/-- A call of the host on a cache; a page argument is the address of the page. -/
inductive Op where
  | setMaxNumPages (maxNumPages : Int)
  | fetchPage (pageId : Nat) (allocate : Bool)
  | unpinPage (page : Nat) (discard : Bool)
  | changePageId (page : Nat) (newPageId : Nat)
  | discardPages (pageIdLimit : Nat)
deriving DecidableEq

/-! ## `LRUReplacementPageCache` -/

/-- The fields that `LRUReplacementPage` adds to `Page`. -/
structure LRUReplacementPage where
  pageId : Nat
  pinned : Bool
  sequenceNumber : Nat
deriving DecidableEq

/-- The constructor of `LRUReplacementPage`; its last parameter is an `int`
that initialises the `unsigned` field `sequenceNumber`. -/
def LRUReplacementPage.new (argPageId : Nat) (argPinned : Bool)
    (argSequenceNumber : Int) : LRUReplacementPage :=
  { pageId := argPageId, pinned := argPinned,
    sequenceNumber := toUnsigned argSequenceNumber }

/-- An `LRUReplacementPageCache` together with the global `usedOrder` and the
heap of its page objects. -/
structure LRUState where
  maxNumPages_ : Int
  pageSize_ : Int
  extraSize_ : Int
  numFetches_ : Nat
  numHits_ : Nat
  usedOrder : Int
  cachedPages : Directory
  heap : List (Option LRUReplacementPage)
deriving DecidableEq

namespace LRUState

/-- The constructor `LRUReplacementPageCache(pageSize, extraSize)`, in a
process whose global `usedOrder` has the value `order`. -/
def init (pageSize extraSize order : Int) : LRUState :=
  { maxNumPages_ := 0, pageSize_ := pageSize, extraSize_ := extraSize,
    numFetches_ := 0, numHits_ := 0, usedOrder := order,
    cachedPages := [], heap := [] }

/-- The method `getNumPages`. -/
def getNumPages (s : LRUState) : Int := (s.cachedPages.length : Int)

/-- The loop of `setMaxNumPages`: `kept` holds, last first, the entries the
iterator has passed, `rest` the entries from the iterator on. -/
def setMaxLoop (maxNumPages : Int) (heap : List (Option LRUReplacementPage)) :
    (rest kept : Directory) → Option (Directory × List (Option LRUReplacementPage))
  | [], kept => some (kept.reverse, heap)
  | e :: rest, kept =>
    if ((kept.length + (rest.length + 1) : Nat) : Int) ≤ maxNumPages then
      some (kept.reverse ++ e :: rest, heap)
    else
      match deref heap e.2 with
      | none => none
      | some p =>
        if !p.pinned then setMaxLoop maxNumPages (free heap e.2) rest kept
        else setMaxLoop maxNumPages heap rest (e :: kept)

/-- The method `setMaxNumPages`. -/
def setMaxNumPages (s : LRUState) (maxNumPages : Int) : Option LRUState :=
  match setMaxLoop maxNumPages s.heap s.cachedPages [] with
  | none => none
  | some (m, heap) =>
    some { s with maxNumPages_ := maxNumPages, cachedPages := m, heap := heap }

/-- The victim search of `fetchPage`: the loop over `cachedPages` with its
locals `min`, `unpinnedFound` and `replacement` (`none` while unassigned). -/
def scan (heap : List (Option LRUReplacementPage)) :
    Directory → Nat → Bool → Option Nat → Option (Nat × Bool × Option Nat)
  | [], min, unpinnedFound, replacement => some (min, unpinnedFound, replacement)
  | e :: rest, min, unpinnedFound, replacement =>
    match deref heap e.2 with
    | none => none
    | some p =>
      if !p.pinned then
        if p.sequenceNumber ≤ min then scan heap rest p.sequenceNumber true (some e.2)
        else scan heap rest min true replacement
      else scan heap rest min unpinnedFound replacement

/-- The method `fetchPage`; the result is the returned pointer (`none` for the
null pointer) and the state after the call. -/
def fetchPage (s : LRUState) (pageId : Nat) (allocate : Bool) :
    Option (Option Nat × LRUState) :=
  let s1 := { s with numFetches_ := incr64 s.numFetches_ }
  match find s1.cachedPages pageId with
  | some a =>
    match deref s1.heap a with
    | none => none
    | some p =>
      some (some a, { s1 with heap := store s1.heap a { p with pinned := true },
                              numHits_ := incr64 s1.numHits_ })
  | none =>
    if allocate then
      if s1.getNumPages < s1.maxNumPages_ then
        let newPage := LRUReplacementPage.new pageId true (toInt UINT_MAX)
        some (some s1.heap.length,
          { s1 with heap := s1.heap ++ [some newPage],
                    cachedPages := emplace s1.cachedPages pageId s1.heap.length })
      else
        match scan s1.heap s1.cachedPages (toUnsigned s1.usedOrder) false none with
        | none => none
        | some (_, unpinnedFound, replacement) =>
          if unpinnedFound then
            match replacement with
            | none => none
            | some r =>
              match deref s1.heap r with
              | none => none
              | some p =>
                match find s1.cachedPages p.pageId with
                | none => none
                | some _ =>
                  some (some r,
                    { s1 with heap := store s1.heap r { p with pinned := true },
                              cachedPages :=
                                emplace (eraseKey s1.cachedPages p.pageId) pageId r })
          else some (none, s1)
    else some (none, s1)

/-- The method `unpinPage`. -/
def unpinPage (s : LRUState) (page : Nat) (discard : Bool) : Option LRUState :=
  match deref s.heap page with
  | none => none
  | some thisPage =>
    if discard || s.getNumPages > s.maxNumPages_ then
      some { s with cachedPages := eraseKey s.cachedPages thisPage.pageId,
                    heap := free s.heap page }
    else
      if s.usedOrder = INT_MAX then none
      else
        some { s with
          heap := store s.heap page
            { thisPage with pinned := false, sequenceNumber := toUnsigned s.usedOrder },
          usedOrder := s.usedOrder + 1 }

/-- The method `changePageId`.  When `newPageId` is in the directory the
source runs `cachedPages.erase(newPageId)` and then reads
`searchedPage->second` through the iterator that this `erase` has just
invalidated: undefined behaviour. -/
def changePageId (s : LRUState) (page : Nat) (newPageId : Nat) : Option LRUState :=
  match find s.cachedPages newPageId with
  | some _ => none
  | none =>
    match deref s.heap page with
    | none => none
    | some thisPage =>
      some { s with
        cachedPages := emplace (eraseKey s.cachedPages thisPage.pageId) newPageId page,
        heap := store s.heap page { thisPage with pageId := newPageId } }

/-- The loop of `discardPages` from the iterator on: the entries that stay and
the heap after the deletions. -/
def discardLoop (pageIdLimit : Nat) :
    Directory → List (Option LRUReplacementPage) → Option (Directory × List (Option LRUReplacementPage))
  | [], heap => some ([], heap)
  | e :: rest, heap =>
    match deref heap e.2 with
    | none => none
    | some p =>
      if p.pageId ≥ pageIdLimit then discardLoop pageIdLimit rest (free heap e.2)
      else
        match discardLoop pageIdLimit rest heap with
        | none => none
        | some (m, heap1) => some (e :: m, heap1)

/-- The method `discardPages`. -/
def discardPages (s : LRUState) (pageIdLimit : Nat) : Option LRUState :=
  match discardLoop pageIdLimit s.cachedPages s.heap with
  | none => none
  | some (m, heap) => some { s with cachedPages := m, heap := heap }

/-- One call of the host. -/
def step (s : LRUState) : Op → Option LRUState
  | Op.setMaxNumPages n => s.setMaxNumPages n
  | Op.fetchPage pageId allocate => (s.fetchPage pageId allocate).map Prod.snd
  | Op.unpinPage page discard => s.unpinPage page discard
  | Op.changePageId page newPageId => s.changePageId page newPageId
  | Op.discardPages pageIdLimit => s.discardPages pageIdLimit

/-- A sequence of calls of the host, in order. -/
def run (s : LRUState) : List Op → Option LRUState
  | [] => some s
  | op :: ops =>
    match s.step op with
    | none => none
    | some s1 => run s1 ops

end LRUState

/-! ## `LRU2ReplacementPageCache` -/

/-- The fields that `LRU2ReplacementPage` adds to `Page`; the queue
`sequenceNums` is listed front first. -/
structure LRU2ReplacementPage where
  pageId : Nat
  pinned : Bool
  sequenceNums : List Nat
deriving DecidableEq

/-- The constructor of `LRU2ReplacementPage`: the queue starts empty. -/
def LRU2ReplacementPage.new (argPageId : Nat) (argPinned : Bool) : LRU2ReplacementPage :=
  { pageId := argPageId, pinned := argPinned, sequenceNums := [] }

/-- An `LRU2ReplacementPageCache` together with the global `sequenceNumber`
and the heap of its page objects. -/
structure LRU2State where
  maxNumPages_ : Int
  pageSize_ : Int
  extraSize_ : Int
  numFetches_ : Nat
  numHits_ : Nat
  sequenceNumber : Int
  cachedPages : Directory
  heap : List (Option LRU2ReplacementPage)
deriving DecidableEq

namespace LRU2State

/-- The constructor `LRU2ReplacementPageCache(pageSize, extraSize)`, in a
process whose global `sequenceNumber` has the value `order`. -/
def init (pageSize extraSize order : Int) : LRU2State :=
  { maxNumPages_ := 0, pageSize_ := pageSize, extraSize_ := extraSize,
    numFetches_ := 0, numHits_ := 0, sequenceNumber := order,
    cachedPages := [], heap := [] }

/-- The method `getNumPages`. -/
def getNumPages (s : LRU2State) : Int := (s.cachedPages.length : Int)

/-- The loop of `setMaxNumPages`: `kept` holds, last first, the entries the
iterator has passed, `rest` the entries from the iterator on. -/
def setMaxLoop (maxNumPages : Int) (heap : List (Option LRU2ReplacementPage)) :
    (rest kept : Directory) → Option (Directory × List (Option LRU2ReplacementPage))
  | [], kept => some (kept.reverse, heap)
  | e :: rest, kept =>
    if ((kept.length + (rest.length + 1) : Nat) : Int) ≤ maxNumPages then
      some (kept.reverse ++ e :: rest, heap)
    else
      match deref heap e.2 with
      | none => none
      | some p =>
        if !p.pinned then setMaxLoop maxNumPages (free heap e.2) rest kept
        else setMaxLoop maxNumPages heap rest (e :: kept)

/-- The method `setMaxNumPages`. -/
def setMaxNumPages (s : LRU2State) (maxNumPages : Int) : Option LRU2State :=
  match setMaxLoop maxNumPages s.heap s.cachedPages [] with
  | none => none
  | some (m, heap) =>
    some { s with maxNumPages_ := maxNumPages, cachedPages := m, heap := heap }

/-- The first loop of the victim search of `fetchPage`: the counters
`numUnpinned` and `numOneAccess`. -/
def count (heap : List (Option LRU2ReplacementPage)) :
    Directory → Nat → Nat → Option (Nat × Nat)
  | [], numUnpinned, numOneAccess => some (numUnpinned, numOneAccess)
  | e :: rest, numUnpinned, numOneAccess =>
    match deref heap e.2 with
    | none => none
    | some p =>
      if !p.pinned then
        if p.sequenceNums.length < 2 then count heap rest (numUnpinned + 1) (numOneAccess + 1)
        else count heap rest (numUnpinned + 1) numOneAccess
      else count heap rest numUnpinned numOneAccess

/-- The loop of the branch `numOneAccess == 1`: the first unpinned page with
fewer than two stamps, and the directory without its entry (`erase(iterator)`).
The inner `none` means that the loop ran to the end. -/
def takeOneAccess (heap : List (Option LRU2ReplacementPage)) :
    Directory → Option (Option (Nat × Directory))
  | [] => some none
  | e :: rest =>
    match deref heap e.2 with
    | none => none
    | some p =>
      if !p.pinned && decide (p.sequenceNums.length < 2) then some (some (e.2, rest))
      else
        match takeOneAccess heap rest with
        | none => none
        | some none => some none
        | some (some (a, m)) => some (some (a, e :: m))

/-- The loop of the branch `numOneAccess >= 1`, with its locals `min` and
`replacement` (`none` while unassigned). -/
def scanOneAccess (heap : List (Option LRU2ReplacementPage)) :
    Directory → Nat → Option Nat → Option (Nat × Option Nat)
  | [], min, replacement => some (min, replacement)
  | e :: rest, min, replacement =>
    match deref heap e.2 with
    | none => none
    | some p =>
      if !p.pinned && decide (p.sequenceNums.length < 2) then
        match p.sequenceNums.head? with
        | none => none
        | some front =>
          if front ≤ min then scanOneAccess heap rest front (some e.2)
          else scanOneAccess heap rest min replacement
      else scanOneAccess heap rest min replacement

/-- The loop of the last branch (`All pages >= two accesses`), with its locals
`min` and `replacement`. -/
def scanAll (heap : List (Option LRU2ReplacementPage)) :
    Directory → Nat → Option Nat → Option (Nat × Option Nat)
  | [], min, replacement => some (min, replacement)
  | e :: rest, min, replacement =>
    match deref heap e.2 with
    | none => none
    | some p =>
      match p.sequenceNums.head? with
      | none => none
      | some front =>
        if front ≤ min then scanAll heap rest front (some e.2)
        else scanAll heap rest min replacement

/-- The common tail of the last two branches of `fetchPage`: pin
`replacement`, erase the entry that `find(replacement->pageId)` returns and
insert the page under `pageId`. -/
def reuse (s : LRU2State) (pageId : Nat) (replacement : Option Nat) :
    Option (Option Nat × LRU2State) :=
  match replacement with
  | none => none
  | some r =>
    match deref s.heap r with
    | none => none
    | some p =>
      match find s.cachedPages p.pageId with
      | none => none
      | some _ =>
        some (some r,
          { s with heap := store s.heap r { p with pinned := true },
                   cachedPages := emplace (eraseKey s.cachedPages p.pageId) pageId r })

/-- The method `fetchPage`; the result is the returned pointer (`none` for the
null pointer) and the state after the call.  The outer `none` also covers the
`throw` after the last branch. -/
def fetchPage (s : LRU2State) (pageId : Nat) (allocate : Bool) :
    Option (Option Nat × LRU2State) :=
  let s1 := { s with numFetches_ := incr64 s.numFetches_ }
  match find s1.cachedPages pageId with
  | some a =>
    match deref s1.heap a with
    | none => none
    | some p =>
      some (some a, { s1 with heap := store s1.heap a { p with pinned := true },
                              numHits_ := incr64 s1.numHits_ })
  | none =>
    if allocate then
      if s1.getNumPages < s1.maxNumPages_ then
        let newPage := LRU2ReplacementPage.new pageId true
        some (some s1.heap.length,
          { s1 with heap := s1.heap ++ [some newPage],
                    cachedPages := emplace s1.cachedPages pageId s1.heap.length })
      else
        match count s1.heap s1.cachedPages 0 0 with
        | none => none
        | some (numUnpinned, numOneAccess) =>
          if numUnpinned = 0 then some (none, s1)
          else if numOneAccess = 1 then
            match takeOneAccess s1.heap s1.cachedPages with
            | none => none
            | some none => none
            | some (some (r, m)) =>
              match deref s1.heap r with
              | none => none
              | some p =>
                some (some r,
                  { s1 with heap := store s1.heap r { p with pinned := true },
                            cachedPages := emplace m pageId r })
          else if numOneAccess ≥ 1 then
            match scanOneAccess s1.heap s1.cachedPages (toUnsigned s1.sequenceNumber) none with
            | none => none
            | some (_, replacement) => reuse s1 pageId replacement
          else
            match scanAll s1.heap s1.cachedPages (toUnsigned s1.sequenceNumber) none with
            | none => none
            | some (_, replacement) => reuse s1 pageId replacement
    else some (none, s1)

/-- The method `unpinPage`. -/
def unpinPage (s : LRU2State) (page : Nat) (discard : Bool) : Option LRU2State :=
  match deref s.heap page with
  | none => none
  | some thisPage =>
    if discard || s.getNumPages > s.maxNumPages_ then
      some { s with cachedPages := eraseKey s.cachedPages thisPage.pageId,
                    heap := free s.heap page }
    else
      if s.sequenceNumber = INT_MAX then none
      else
        let pushed := thisPage.sequenceNums ++ [toUnsigned s.sequenceNumber]
        some { s with
          heap := store s.heap page
            { thisPage with pinned := false,
                            sequenceNums := if pushed.length > 2 then pushed.tail else pushed },
          sequenceNumber := s.sequenceNumber + 1 }

/-- The method `changePageId`.  When `newPageId` is in the directory the
source runs `cachedPages.erase(newPageId)` and then reads
`searchedPage->second` through the iterator that this `erase` has just
invalidated: undefined behaviour. -/
def changePageId (s : LRU2State) (page : Nat) (newPageId : Nat) : Option LRU2State :=
  match find s.cachedPages newPageId with
  | some _ => none
  | none =>
    match deref s.heap page with
    | none => none
    | some thisPage =>
      some { s with
        cachedPages := emplace (eraseKey s.cachedPages thisPage.pageId) newPageId page,
        heap := store s.heap page { thisPage with pageId := newPageId } }

/-- The loop of `discardPages` from the iterator on: the entries that stay and
the heap after the deletions. -/
def discardLoop (pageIdLimit : Nat) :
    Directory → List (Option LRU2ReplacementPage) → Option (Directory × List (Option LRU2ReplacementPage))
  | [], heap => some ([], heap)
  | e :: rest, heap =>
    match deref heap e.2 with
    | none => none
    | some p =>
      if p.pageId ≥ pageIdLimit then discardLoop pageIdLimit rest (free heap e.2)
      else
        match discardLoop pageIdLimit rest heap with
        | none => none
        | some (m, heap1) => some (e :: m, heap1)

/-- The method `discardPages`. -/
def discardPages (s : LRU2State) (pageIdLimit : Nat) : Option LRU2State :=
  match discardLoop pageIdLimit s.cachedPages s.heap with
  | none => none
  | some (m, heap) => some { s with cachedPages := m, heap := heap }

/-- One call of the host. -/
def step (s : LRU2State) : Op → Option LRU2State
  | Op.setMaxNumPages n => s.setMaxNumPages n
  | Op.fetchPage pageId allocate => (s.fetchPage pageId allocate).map Prod.snd
  | Op.unpinPage page discard => s.unpinPage page discard
  | Op.changePageId page newPageId => s.changePageId page newPageId
  | Op.discardPages pageIdLimit => s.discardPages pageIdLimit

/-- A sequence of calls of the host, in order. -/
def run (s : LRU2State) : List Op → Option LRU2State
  | [] => some s
  | op :: ops =>
    match s.step op with
    | none => none
    | some s1 => run s1 ops

end LRU2State

/-! ## The directory invariant of the specification -/

/-- Every entry of the directory holds a live page whose `pageId` is the key
of the entry. -/
def LRUState.keyedByPageId (s : LRUState) : Bool :=
  s.cachedPages.all fun e =>
    match deref s.heap e.2 with
    | some p => p.pageId == e.1
    | none => false

/-- The `pageId` fields of the pages in the directory, in iteration order
(`none` for an entry whose page has been deleted). -/
def LRUState.residentPageIds (s : LRUState) : List (Option Nat) :=
  s.cachedPages.map fun e => (deref s.heap e.2).map LRUReplacementPage.pageId

/-- Every entry of the directory holds a live page whose `pageId` is the key
of the entry. -/
def LRU2State.keyedByPageId (s : LRU2State) : Bool :=
  s.cachedPages.all fun e =>
    match deref s.heap e.2 with
    | some p => p.pageId == e.1
    | none => false

/-- The `pageId` fields of the pages in the directory, in iteration order
(`none` for an entry whose page has been deleted). -/
def LRU2State.residentPageIds (s : LRU2State) : List (Option Nat) :=
  s.cachedPages.map fun e => (deref s.heap e.2).map LRU2ReplacementPage.pageId

/-! ## States after hits, for the statements on repeated fetches -/

/-- The state of the LRU cache after `k` hits on the live page `p` at address
`a`: both counters have been incremented `k` times and the page is pinned;
nothing else differs from `s`. -/
def LRUState.afterHits (s : LRUState) (a : Nat) (p : LRUReplacementPage) (k : Nat) :
    LRUState :=
  { s with numFetches_ := incr64^[k] s.numFetches_,
           numHits_ := incr64^[k] s.numHits_,
           heap := store s.heap a { p with pinned := true } }

/-- The state of the LRU-2 cache after `k` hits on the live page `p` at address
`a`: both counters have been incremented `k` times and the page is pinned;
nothing else differs from `s`. -/
def LRU2State.afterHits (s : LRU2State) (a : Nat) (p : LRU2ReplacementPage) (k : Nat) :
    LRU2State :=
  { s with numFetches_ := incr64^[k] s.numFetches_,
           numHits_ := incr64^[k] s.numHits_,
           heap := store s.heap a { p with pinned := true } }

/-- The queue of an LRU-2 page after `push(stamp)` and the `pop()` that keeps
it at two entries, as `unpinPage` performs them. -/
def pushStamp (sequenceNums : List Nat) (stamp : Nat) : List Nat :=
  if (sequenceNums ++ [stamp]).length > 2 then (sequenceNums ++ [stamp]).tail
  else sequenceNums ++ [stamp]

/-! ## Sample states -/

/-- An LRU cache with capacity 2 that holds page 5, pinned and never unpinned,
at address 0. -/
def lruSample : LRUState :=
  { maxNumPages_ := 2, pageSize_ := 4096, extraSize_ := 0, numFetches_ := 1,
    numHits_ := 0, usedOrder := 4, cachedPages := [(5, 0)],
    heap := [some { pageId := 5, pinned := true, sequenceNumber := 4294967295 }] }

/-- An LRU-2 cache with capacity 2 that holds page 5, pinned and unpinned once
before, at address 0. -/
def lru2Sample : LRU2State :=
  { maxNumPages_ := 2, pageSize_ := 4096, extraSize_ := 0, numFetches_ := 1,
    numHits_ := 0, sequenceNumber := 4, cachedPages := [(5, 0)],
    heap := [some { pageId := 5, pinned := true, sequenceNums := [3] }] }

/-! ## States that satisfy the directory invariant -/

/-- A state of the LRU cache in which the directory invariant holds: every
entry holds a live page whose `pageId` is the key, and the stamp of every
unpinned page is at most the value of the global counter. -/
def LRUState.Healthy (s : LRUState) : Prop :=
  ∀ e ∈ s.cachedPages, ∃ p, deref s.heap e.2 = some p ∧ p.pageId = e.1
    ∧ (p.pinned = false → p.sequenceNumber ≤ toUnsigned s.usedOrder)

/-- A state of the LRU-2 cache in which the directory invariant holds: every
entry holds a live page whose `pageId` is the key, and every unpinned page has
a front stamp, which is at most the value of the global counter. -/
def LRU2State.Healthy (s : LRU2State) : Prop :=
  ∀ e ∈ s.cachedPages, ∃ p, deref s.heap e.2 = some p ∧ p.pageId = e.1
    ∧ (p.pinned = false →
        ∃ front, p.sequenceNums.head? = some front ∧ front ≤ toUnsigned s.sequenceNumber)

/-- The entry holds a live unpinned page. -/
def isUnpinned (heap : List (Option LRU2ReplacementPage)) (e : Nat × Nat) : Bool :=
  match deref heap e.2 with
  | some p => !p.pinned
  | none => false

/-- The entry holds a live unpinned page with fewer than two stamps. -/
def isOneAccess (heap : List (Option LRU2ReplacementPage)) (e : Nat × Nat) : Bool :=
  match deref heap e.2 with
  | some p => !p.pinned && decide (p.sequenceNums.length < 2)
  | none => false

/-- The LRU cache of scenario 1 of the specification before `fetchPage(4, true)`:
capacity 3 and pages 1, 2, 3 unpinned in that order. -/
def lruFull : LRUState :=
  { maxNumPages_ := 3, pageSize_ := 4096, extraSize_ := 0, numFetches_ := 3,
    numHits_ := 0, usedOrder := 3, cachedPages := [(3, 2), (2, 1), (1, 0)],
    heap := [some { pageId := 1, pinned := false, sequenceNumber := 0 },
             some { pageId := 2, pinned := false, sequenceNumber := 1 },
             some { pageId := 3, pinned := false, sequenceNumber := 2 }] }

/-- The LRU-2 cache of scenario 4 of the specification before
`fetchPage(4, true)`: capacity 3, page 1 unpinned twice, pages 2 and 3 once. -/
def lru2Full : LRU2State :=
  { maxNumPages_ := 3, pageSize_ := 4096, extraSize_ := 0, numFetches_ := 4,
    numHits_ := 1, sequenceNumber := 4, cachedPages := [(3, 2), (2, 1), (1, 0)],
    heap := [some { pageId := 1, pinned := false, sequenceNums := [0, 1] },
             some { pageId := 2, pinned := false, sequenceNums := [2] },
             some { pageId := 3, pinned := false, sequenceNums := [3] }] }

/-! ## The constructor of `Page` -/

/-- The mask `~(uintptr_t)0x3` on a 64-bit `uintptr_t`. -/
def alignMask : Nat := 18446744073709551615 - 3

/-- The pointer `pBuf` that the constructor of `Page` computes from the
address `pBufInner` that `calloc(pageSize + 7, 1)` returned:
`((uintptr_t)pBufInner_ + 7) & ~(uintptr_t)0x3`, on a 64-bit `uintptr_t`. -/
def Page.pBuf (pBufInner : Nat) : Nat :=
  ((pBufInner + 7) % 18446744073709551616) &&& alignMask

/-! ## Reachable states and traces -/

/-- The states of the LRU cache that a host can reach: the results of the
traces that start at a freshly constructed cache, in a process whose global
`usedOrder` has not overflowed. -/
def LRUState.Reachable (s : LRUState) : Prop :=
  ∃ (pageSize extraSize order : Int) (ops : List Op),
    0 ≤ order ∧ order ≤ INT_MAX ∧ (LRUState.init pageSize extraSize order).run ops = some s

/-- The states of the LRU-2 cache that a host can reach: the results of the
traces that start at a freshly constructed cache, in a process whose global
`sequenceNumber` has not overflowed. -/
def LRU2State.Reachable (s : LRU2State) : Prop :=
  ∃ (pageSize extraSize order : Int) (ops : List Op),
    0 ≤ order ∧ order ≤ INT_MAX ∧ (LRU2State.init pageSize extraSize order).run ops = some s

/-- The stamps of the LRU cache are below the global counter: the counter is
within `int`, and the `sequenceNumber` of every live page is the value
`UINT_MAX` given at creation or smaller than the counter. -/
def LRUState.Stamped (s : LRUState) : Prop :=
  0 ≤ s.usedOrder ∧ s.usedOrder ≤ INT_MAX
    ∧ ∀ a p, deref s.heap a = some p →
        p.sequenceNumber = UINT_MAX ∨ p.sequenceNumber < toUnsigned s.usedOrder

/-- The stamps of the LRU-2 cache are below the global counter: the counter
is within `int`, and the queue of every live page holds at most two stamps,
each smaller than the counter. -/
def LRU2State.Stamped (s : LRU2State) : Prop :=
  0 ≤ s.sequenceNumber ∧ s.sequenceNumber ≤ INT_MAX
    ∧ ∀ a p, deref s.heap a = some p →
        p.sequenceNums.length ≤ 2 ∧ ∀ x ∈ p.sequenceNums, x < toUnsigned s.sequenceNumber

/-- Whether a call is a `fetchPage`. -/
def Op.isFetch : Op → Bool
  | Op.fetchPage _ _ => true
  | _ => false

/-- Whether a call is a `fetchPage` of an id that `find` locates in the
directory `m`. -/
def Op.hits (m : Directory) : Op → Bool
  | Op.fetchPage pageId _ => (find m pageId).isSome
  | _ => false

/-- The LRU cache after `setMaxNumPages(1)`, `fetchPage(1, true)` and
`fetchPage(9, false)` on a freshly constructed cache. -/
def lruCounted : LRUState :=
  { maxNumPages_ := 1, pageSize_ := 4096, extraSize_ := 0, numFetches_ := 2,
    numHits_ := 0, usedOrder := 0, cachedPages := [(1, 0)],
    heap := [some { pageId := 1, pinned := true, sequenceNumber := 4294967295 }] }

/-- The state `lruCounted` after a further `fetchPage(1, false)`. -/
def lruCountedNext : LRUState :=
  { maxNumPages_ := 1, pageSize_ := 4096, extraSize_ := 0, numFetches_ := 3,
    numHits_ := 1, usedOrder := 0, cachedPages := [(1, 0)],
    heap := [some { pageId := 1, pinned := true, sequenceNumber := 4294967295 }] }

/-- The LRU-2 cache after `setMaxNumPages(1)`, `fetchPage(1, true)` and
`fetchPage(9, false)` on a freshly constructed cache. -/
def lru2Counted : LRU2State :=
  { maxNumPages_ := 1, pageSize_ := 4096, extraSize_ := 0, numFetches_ := 2,
    numHits_ := 0, sequenceNumber := 0, cachedPages := [(1, 0)],
    heap := [some { pageId := 1, pinned := true, sequenceNums := [] }] }

/-- The state `lru2Counted` after a further `fetchPage(1, false)`. -/
def lru2CountedNext : LRU2State :=
  { maxNumPages_ := 1, pageSize_ := 4096, extraSize_ := 0, numFetches_ := 3,
    numHits_ := 1, sequenceNumber := 0, cachedPages := [(1, 0)],
    heap := [some { pageId := 1, pinned := true, sequenceNums := [] }] }

/-- The LRU cache of scenario 1 of the specification after a further
`fetchPage(3, false)`: page 3, at address 2, is pinned. -/
def lruFetched : LRUState :=
  { maxNumPages_ := 3, pageSize_ := 4096, extraSize_ := 0, numFetches_ := 4,
    numHits_ := 1, usedOrder := 3, cachedPages := [(3, 2), (2, 1), (1, 0)],
    heap := [some { pageId := 1, pinned := false, sequenceNumber := 0 },
             some { pageId := 2, pinned := false, sequenceNumber := 1 },
             some { pageId := 3, pinned := true, sequenceNumber := 2 }] }

/-- The LRU-2 cache of scenario 4 of the specification after a further
`fetchPage(3, false)`: page 3, at address 2, is pinned. -/
def lru2Fetched : LRU2State :=
  { maxNumPages_ := 3, pageSize_ := 4096, extraSize_ := 0, numFetches_ := 5,
    numHits_ := 2, sequenceNumber := 4, cachedPages := [(3, 2), (2, 1), (1, 0)],
    heap := [some { pageId := 1, pinned := false, sequenceNums := [0, 1] },
             some { pageId := 2, pinned := false, sequenceNums := [2] },
             some { pageId := 3, pinned := true, sequenceNums := [3] }] }

/-! ## Eviction in iteration order -/

/-- The entry holds a live unpinned page of the LRU cache. -/
def lruIsUnpinned (heap : List (Option LRUReplacementPage)) (e : Nat × Nat) : Bool :=
  match deref heap e.2 with
  | some p => !p.pinned
  | none => false

/-- The directory without its first `k` entries that satisfy `unpinned`, in
iteration order (without all of them when there are fewer than `k`). -/
def evictInOrder (unpinned : Nat × Nat → Bool) : Nat → Directory → Directory
  | 0, m => m
  | _ + 1, [] => []
  | k + 1, e :: rest =>
    if unpinned e then evictInOrder unpinned k rest
    else e :: evictInOrder unpinned (k + 1) rest

/-! ## Unpinned pages have been stamped -/

/-- Every live unpinned page of the LRU cache has a `sequenceNumber` smaller
than the value of the global counter. -/
def LRUState.UnpinnedStamped (s : LRUState) : Prop :=
  ∀ a p, deref s.heap a = some p → p.pinned = false →
    p.sequenceNumber < toUnsigned s.usedOrder

/-- The trace that leads to `lruFull`. -/
def lruFullTrace : List Op :=
  [Op.setMaxNumPages 3, Op.fetchPage 1 true, Op.fetchPage 2 true, Op.fetchPage 3 true,
   Op.unpinPage 0 false, Op.unpinPage 1 false, Op.unpinPage 2 false]

/-- Every live unpinned page of the LRU-2 cache has a stamp in its queue. -/
def LRU2State.UnpinnedSeen (s : LRU2State) : Prop :=
  ∀ a p, deref s.heap a = some p → p.pinned = false → p.sequenceNums ≠ []

/-- The LRU-2 cache after `setMaxNumPages(1)`, `fetchPage(1, true)` and
`unpinPage` of that page: capacity 1, page 1 unpinned once. -/
def lru2Single : LRU2State :=
  { maxNumPages_ := 1, pageSize_ := 4096, extraSize_ := 0, numFetches_ := 1,
    numHits_ := 0, sequenceNumber := 1, cachedPages := [(1, 0)],
    heap := [some { pageId := 1, pinned := false, sequenceNums := [0] }] }

/-- The state `lru2Single` after `fetchPage(2, true)`, which reuses the page
at address 0. -/
def lru2SingleReused : LRU2State :=
  { maxNumPages_ := 1, pageSize_ := 4096, extraSize_ := 0, numFetches_ := 2,
    numHits_ := 0, sequenceNumber := 1, cachedPages := [(2, 0)],
    heap := [some { pageId := 1, pinned := true, sequenceNums := [0] }] }

/-- The LRU-2 cache of capacity 2 after `fetchPage(1, true)`, and
`fetchPage(2, true)` followed by `unpinPage`, twice: page 1 is pinned and has
never been unpinned, page 2 is unpinned with two stamps. -/
def lru2Unseen : LRU2State :=
  { maxNumPages_ := 2, pageSize_ := 4096, extraSize_ := 0, numFetches_ := 3,
    numHits_ := 1, sequenceNumber := 2, cachedPages := [(2, 1), (1, 0)],
    heap := [some { pageId := 1, pinned := true, sequenceNums := [] },
             some { pageId := 2, pinned := false, sequenceNums := [0, 1] }] }

/-- The LRU-2 cache of capacity 2 after `fetchPage(1, true)`, its `unpinPage`,
`fetchPage(2, true)`, `fetchPage(3, true)`, which reuses the page at address
0, and the `unpinPage` of the page at address 0 and then of the page at
address 1. -/
def lru2Retained : LRU2State :=
  { maxNumPages_ := 2, pageSize_ := 4096, extraSize_ := 0, numFetches_ := 3,
    numHits_ := 0, sequenceNumber := 3, cachedPages := [(3, 0), (2, 1)],
    heap := [some { pageId := 1, pinned := false, sequenceNums := [0, 1] },
             some { pageId := 2, pinned := false, sequenceNums := [2] }] }

/-- The state `lru2Retained` with the queue of the page at address 0 holding
only the stamp of the one `unpinPage` since its reuse. -/
def lru2RetainedWithOneStamp : LRU2State :=
  { lru2Retained with
    heap := [some { pageId := 1, pinned := false, sequenceNums := [1] },
             some { pageId := 2, pinned := false, sequenceNums := [2] }] }

/-! ## Lemmas on the heap -/

theorem deref_lt {α : Type} {heap : List (Option α)} {a : Nat} {p : α}
    (h : deref heap a = some p) : a < heap.length := by
  by_contra hlt
  have hle : heap.length ≤ a := Nat.le_of_not_lt hlt
  simp [deref, List.getD_eq_getElem?_getD, List.getElem?_eq_none hle] at h

theorem deref_length {α : Type} (heap : List (Option α)) :
    deref heap heap.length = none := by
  simp [deref, List.getD_eq_getElem?_getD]

theorem deref_store_same {α : Type} {heap : List (Option α)} {a : Nat} (p : α)
    (h : a < heap.length) : deref (store heap a p) a = some p := by
  simp [deref, store, List.getD_eq_getElem?_getD, List.getElem?_set, h]

theorem deref_store_other {α : Type} (heap : List (Option α)) {a b : Nat} (p : α)
    (h : a ≠ b) : deref (store heap a p) b = deref heap b := by
  simp [deref, store, List.getD_eq_getElem?_getD, List.getElem?_set, h]

theorem store_store {α : Type} (heap : List (Option α)) (a : Nat) (p q : α) :
    store (store heap a p) a q = store heap a q := by
  simp [store, List.set_set]

theorem deref_append {α : Type} {heap : List (Option α)} {a : Nat} {p : α}
    (x : Option α) (h : deref heap a = some p) : deref (heap ++ [x]) a = some p := by
  have hlt := deref_lt h
  simp only [deref, List.getD_eq_getElem?_getD] at h ⊢
  rw [List.getElem?_append_left hlt]
  exact h

theorem deref_append_length {α : Type} (heap : List (Option α)) (x : Option α) :
    deref (heap ++ [x]) heap.length = x := by
  simp [deref, List.getD_eq_getElem?_getD]

/-! ## Hits -/

theorem lru_fetchPage_hit (s : LRUState) (pageId a : Nat) (p : LRUReplacementPage)
    (allocate : Bool) (hfind : find s.cachedPages pageId = some a)
    (hlive : deref s.heap a = some p) :
    s.fetchPage pageId allocate = some (some a, s.afterHits a p 1) := by
  simp [LRUState.fetchPage, LRUState.afterHits, hfind, hlive]

theorem lru_afterHits_live (s : LRUState) (a : Nat) (p : LRUReplacementPage) (k : Nat)
    (hlive : deref s.heap a = some p) :
    deref (s.afterHits a p k).heap a = some { p with pinned := true } :=
  deref_store_same _ (deref_lt hlive)

theorem lru_afterHits_afterHits (s : LRUState) (a : Nat) (p : LRUReplacementPage)
    (j k : Nat) :
    (s.afterHits a p j).afterHits a { p with pinned := true } k = s.afterHits a p (k + j) := by
  simp [LRUState.afterHits, store_store, Function.iterate_add_apply]

theorem lru_run_hits (s : LRUState) (pageId a : Nat) (p : LRUReplacementPage)
    (hfind : find s.cachedPages pageId = some a) (hlive : deref s.heap a = some p)
    (flags : List Bool) (hne : flags ≠ []) :
    s.run (flags.map (Op.fetchPage pageId)) = some (s.afterHits a p flags.length) := by
  induction flags generalizing s p with
  | nil => exact absurd rfl hne
  | cons f rest ih =>
    have h1 := lru_fetchPage_hit s pageId a p f hfind hlive
    have hlive1 := lru_afterHits_live s a p 1 hlive
    by_cases hr : rest = []
    · subst hr
      simp [LRUState.run, LRUState.step, h1]
    · have h2 := ih (s.afterHits a p 1) { p with pinned := true } hfind hlive1 hr
      simp only [List.map_cons, LRUState.run, LRUState.step, h1, Option.map_some']
      rw [h2, lru_afterHits_afterHits]
      rfl

theorem lru_unpin_afterHits (s : LRUState) (a : Nat) (p : LRUReplacementPage) (k : Nat)
    (hlive : deref s.heap a = some p) (hcap : s.getNumPages ≤ s.maxNumPages_)
    (hord : s.usedOrder ≠ INT_MAX) :
    (s.afterHits a p k).unpinPage a false
      = some { s.afterHits a p k with
          heap := store s.heap a
            { p with pinned := false, sequenceNumber := toUnsigned s.usedOrder },
          usedOrder := s.usedOrder + 1 } := by
  have hl := lru_afterHits_live s a p k hlive
  have hcap1 : ¬ (s.afterHits a p k).getNumPages > (s.afterHits a p k).maxNumPages_ :=
    not_lt.mpr hcap
  have hord1 : (s.afterHits a p k).usedOrder ≠ INT_MAX := hord
  simp only [LRUState.unpinPage, hl, hcap1, hord1, Bool.false_or, decide_False,
    if_false, Bool.false_eq_true]
  simp [LRUState.afterHits, store_store]

theorem lru2_fetchPage_hit (s : LRU2State) (pageId a : Nat) (p : LRU2ReplacementPage)
    (allocate : Bool) (hfind : find s.cachedPages pageId = some a)
    (hlive : deref s.heap a = some p) :
    s.fetchPage pageId allocate = some (some a, s.afterHits a p 1) := by
  simp [LRU2State.fetchPage, LRU2State.afterHits, hfind, hlive]

theorem lru2_afterHits_live (s : LRU2State) (a : Nat) (p : LRU2ReplacementPage)
    (k : Nat) (hlive : deref s.heap a = some p) :
    deref (s.afterHits a p k).heap a = some { p with pinned := true } :=
  deref_store_same _ (deref_lt hlive)

theorem lru2_afterHits_afterHits (s : LRU2State) (a : Nat) (p : LRU2ReplacementPage)
    (j k : Nat) :
    (s.afterHits a p j).afterHits a { p with pinned := true } k = s.afterHits a p (k + j) := by
  simp [LRU2State.afterHits, store_store, Function.iterate_add_apply]

theorem lru2_run_hits (s : LRU2State) (pageId a : Nat) (p : LRU2ReplacementPage)
    (hfind : find s.cachedPages pageId = some a) (hlive : deref s.heap a = some p)
    (flags : List Bool) (hne : flags ≠ []) :
    s.run (flags.map (Op.fetchPage pageId)) = some (s.afterHits a p flags.length) := by
  induction flags generalizing s p with
  | nil => exact absurd rfl hne
  | cons f rest ih =>
    have h1 := lru2_fetchPage_hit s pageId a p f hfind hlive
    have hlive1 := lru2_afterHits_live s a p 1 hlive
    by_cases hr : rest = []
    · subst hr
      simp [LRU2State.run, LRU2State.step, h1]
    · have h2 := ih (s.afterHits a p 1) { p with pinned := true } hfind hlive1 hr
      simp only [List.map_cons, LRU2State.run, LRU2State.step, h1, Option.map_some']
      rw [h2, lru2_afterHits_afterHits]
      rfl

theorem lru2_unpin_afterHits (s : LRU2State) (a : Nat) (p : LRU2ReplacementPage)
    (k : Nat) (hlive : deref s.heap a = some p) (hcap : s.getNumPages ≤ s.maxNumPages_)
    (hord : s.sequenceNumber ≠ INT_MAX) :
    (s.afterHits a p k).unpinPage a false
      = some { s.afterHits a p k with
          heap := store s.heap a
            { p with pinned := false,
                     sequenceNums := pushStamp p.sequenceNums (toUnsigned s.sequenceNumber) },
          sequenceNumber := s.sequenceNumber + 1 } := by
  have hl := lru2_afterHits_live s a p k hlive
  have hcap1 : ¬ (s.afterHits a p k).getNumPages > (s.afterHits a p k).maxNumPages_ :=
    not_lt.mpr hcap
  have hord1 : (s.afterHits a p k).sequenceNumber ≠ INT_MAX := hord
  simp only [LRU2State.unpinPage, hl, hcap1, hord1, Bool.false_or, decide_False,
    if_false, Bool.false_eq_true]
  simp [LRU2State.afterHits, store_store, pushStamp]

/-! ## Creation of a page -/

theorem sentinel_eq : toUnsigned (toInt UINT_MAX) = UINT_MAX := by
  decide

theorem find_cons (m : Directory) (k v j : Nat) :
    find ((k, v) :: m) j = if j = k then some v else find m j := by
  by_cases h : k = j
  · simp [find, h]
  · have h2 : ¬ j = k := fun e => h e.symm
    simp [find, h, h2]

theorem lru_fetchPage_create (s : LRUState) (pageId : Nat)
    (hmiss : find s.cachedPages pageId = none) (hcap : s.getNumPages < s.maxNumPages_) :
    s.fetchPage pageId true
      = some (some s.heap.length,
          { s with numFetches_ := incr64 s.numFetches_,
                   cachedPages := (pageId, s.heap.length) :: s.cachedPages,
                   heap := s.heap ++
                     [some { pageId := pageId, pinned := true, sequenceNumber := UINT_MAX }] }) := by
  have hcap1 : (s.cachedPages.length : Int) < s.maxNumPages_ := hcap
  simp [LRUState.fetchPage, LRUState.getNumPages, hmiss, hcap1, emplace,
    LRUReplacementPage.new, sentinel_eq]

theorem lru2_fetchPage_create (s : LRU2State) (pageId : Nat)
    (hmiss : find s.cachedPages pageId = none) (hcap : s.getNumPages < s.maxNumPages_) :
    s.fetchPage pageId true
      = some (some s.heap.length,
          { s with numFetches_ := incr64 s.numFetches_,
                   cachedPages := (pageId, s.heap.length) :: s.cachedPages,
                   heap := s.heap ++
                     [some { pageId := pageId, pinned := true, sequenceNums := [] }] }) := by
  have hcap1 : (s.cachedPages.length : Int) < s.maxNumPages_ := hcap
  simp [LRU2State.fetchPage, LRU2State.getNumPages, hmiss, hcap1, emplace,
    LRU2ReplacementPage.new]

/-! ## Victim selection on states that satisfy the directory invariant -/

theorem find_isSome_of_mem (m : Directory) (e : Nat × Nat) (h : e ∈ m) :
    ∃ a, find m e.1 = some a := by
  induction m with
  | nil => cases h
  | cons x rest ih =>
    by_cases hx : x.1 = e.1
    · exact ⟨x.2, by simp [find, hx]⟩
    · rcases List.mem_cons.mp h with h1 | h1
      · exact absurd (by rw [h1]) hx
      · obtain ⟨a, ha⟩ := ih h1
        exact ⟨a, by simp [find, hx, ha]⟩

/-- The victim search of the LRU cache over entries that all hold live pages:
the flag records whether an unpinned page was seen, the result bounds the
stamps of the unpinned pages from below, and it is either the initial pair,
when no unpinned page has a stamp at most `min`, or an unpinned page of the
list together with its stamp. -/
theorem lru_scan_spec (heap : List (Option LRUReplacementPage)) (m : Directory)
    (hlive : ∀ e ∈ m, ∃ p, deref heap e.2 = some p)
    (min : Nat) (uf : Bool) (r : Option Nat) :
    ∃ min1 uf1 r1, LRUState.scan heap m min uf r = some (min1, uf1, r1)
      ∧ min1 ≤ min
      ∧ (∀ e ∈ m, ∀ p, deref heap e.2 = some p → p.pinned = false → min1 ≤ p.sequenceNumber)
      ∧ (uf1 = true ↔ (uf = true ∨ ∃ e ∈ m, ∃ p, deref heap e.2 = some p ∧ p.pinned = false))
      ∧ ((min1 = min ∧ r1 = r
            ∧ ∀ e ∈ m, ∀ p, deref heap e.2 = some p → p.pinned = false → min < p.sequenceNumber)
          ∨ ∃ e ∈ m, ∃ p, r1 = some e.2 ∧ deref heap e.2 = some p ∧ p.pinned = false
              ∧ p.sequenceNumber = min1) := by
  induction m generalizing min uf r with
  | nil =>
    exact ⟨min, uf, r, rfl, le_refl _, by simp, by simp, Or.inl ⟨rfl, rfl, by simp⟩⟩
  | cons x rest ih =>
    obtain ⟨p, hp⟩ := hlive x (List.mem_cons_self _ _)
    have hrest : ∀ e ∈ rest, ∃ p, deref heap e.2 = some p :=
      fun e he => hlive e (List.mem_cons_of_mem _ he)
    cases hpin : p.pinned with
    | true =>
      obtain ⟨min1, uf1, r1, hs, hle, hlow, huf, hcase⟩ := ih hrest min uf r
      refine ⟨min1, uf1, r1, by simp [LRUState.scan, hp, hpin, hs], hle, ?_, ?_, ?_⟩
      · intro e he q hq hqp
        rcases List.mem_cons.mp he with h1 | h1
        · subst h1
          rw [hp] at hq
          cases hq
          rw [hpin] at hqp
          cases hqp
        · exact hlow e h1 q hq hqp
      · rw [huf]
        constructor
        · rintro (h | ⟨e, he, q, hq, hqp⟩)
          · exact Or.inl h
          · exact Or.inr ⟨e, List.mem_cons_of_mem _ he, q, hq, hqp⟩
        · rintro (h | ⟨e, he, q, hq, hqp⟩)
          · exact Or.inl h
          · rcases List.mem_cons.mp he with h1 | h1
            · subst h1
              rw [hp] at hq
              cases hq
              rw [hpin] at hqp
              cases hqp
            · exact Or.inr ⟨e, h1, q, hq, hqp⟩
      · rcases hcase with ⟨h1, h2, h3⟩ | ⟨e, he, q, h1, h2, h3, h4⟩
        · refine Or.inl ⟨h1, h2, ?_⟩
          intro e he q hq hqp
          rcases List.mem_cons.mp he with h5 | h5
          · subst h5
            rw [hp] at hq
            cases hq
            rw [hpin] at hqp
            cases hqp
          · exact h3 e h5 q hq hqp
        · exact Or.inr ⟨e, List.mem_cons_of_mem _ he, q, h1, h2, h3, h4⟩
    | false =>
      by_cases hle0 : p.sequenceNumber ≤ min
      · obtain ⟨min1, uf1, r1, hs, hle, hlow, huf, hcase⟩ :=
          ih hrest p.sequenceNumber true (some x.2)
        refine ⟨min1, uf1, r1, by simp [LRUState.scan, hp, hpin, hle0, hs],
          le_trans hle hle0, ?_, ?_, ?_⟩
        · intro e he q hq hqp
          rcases List.mem_cons.mp he with h1 | h1
          · subst h1
            rw [hp] at hq
            cases hq
            exact hle
          · exact hlow e h1 q hq hqp
        · have h1 : uf1 = true := huf.mpr (Or.inl rfl)
          simp only [h1, true_iff]
          exact Or.inr ⟨x, List.mem_cons_self _ _, p, hp, hpin⟩
        · rcases hcase with ⟨h1, h2, _⟩ | ⟨e, he, q, h1, h2, h3, h4⟩
          · exact Or.inr ⟨x, List.mem_cons_self _ _, p, h2, hp, hpin, h1.symm⟩
          · exact Or.inr ⟨e, List.mem_cons_of_mem _ he, q, h1, h2, h3, h4⟩
      · obtain ⟨min1, uf1, r1, hs, hle, hlow, huf, hcase⟩ := ih hrest min true r
        refine ⟨min1, uf1, r1, by simp [LRUState.scan, hp, hpin, hle0, hs], hle, ?_, ?_, ?_⟩
        · intro e he q hq hqp
          rcases List.mem_cons.mp he with h1 | h1
          · subst h1
            rw [hp] at hq
            cases hq
            exact le_trans hle (le_of_lt (Nat.lt_of_not_le hle0))
          · exact hlow e h1 q hq hqp
        · have h1 : uf1 = true := huf.mpr (Or.inl rfl)
          simp only [h1, true_iff]
          exact Or.inr ⟨x, List.mem_cons_self _ _, p, hp, hpin⟩
        · rcases hcase with ⟨h1, h2, h3⟩ | ⟨e, he, q, h1, h2, h3, h4⟩
          · refine Or.inl ⟨h1, h2, ?_⟩
            intro e he q hq hqp
            rcases List.mem_cons.mp he with h5 | h5
            · subst h5
              rw [hp] at hq
              cases hq
              exact Nat.lt_of_not_le hle0
            · exact h3 e h5 q hq hqp
          · exact Or.inr ⟨e, List.mem_cons_of_mem _ he, q, h1, h2, h3, h4⟩

/-- On a state of the LRU cache in which the directory invariant holds, a miss
at capacity with an unpinned page in the directory returns an unpinned page
of the directory whose stamp is the smallest among the unpinned pages; the
page is pinned and its entry is moved to the new key, and its `pageId`
field keeps its value. -/
theorem lru_fetchPage_reuse_of_healthy (s : LRUState) (pageId : Nat)
    (hh : s.Healthy) (hmiss : find s.cachedPages pageId = none)
    (hfull : ¬ s.getNumPages < s.maxNumPages_)
    (hex : ∃ e ∈ s.cachedPages, ∃ p, deref s.heap e.2 = some p ∧ p.pinned = false) :
    ∃ e ∈ s.cachedPages, ∃ p, deref s.heap e.2 = some p ∧ p.pinned = false
      ∧ (∀ e1 ∈ s.cachedPages, ∀ p1, deref s.heap e1.2 = some p1 → p1.pinned = false →
          p.sequenceNumber ≤ p1.sequenceNumber)
      ∧ s.fetchPage pageId true
        = some (some e.2,
            { s with numFetches_ := incr64 s.numFetches_,
                     heap := store s.heap e.2 { p with pinned := true },
                     cachedPages := emplace (eraseKey s.cachedPages e.1) pageId e.2 }) := by
  have hlive : ∀ e ∈ s.cachedPages, ∃ p, deref s.heap e.2 = some p := by
    intro e he
    obtain ⟨p, hp, -⟩ := hh e he
    exact ⟨p, hp⟩
  obtain ⟨min1, uf1, r1, hs, -, hlow, huf, hcase⟩ :=
    lru_scan_spec s.heap s.cachedPages hlive (toUnsigned s.usedOrder) false none
  have huf1 : uf1 = true := huf.mpr (Or.inr hex)
  rcases hcase with ⟨-, -, h3⟩ | ⟨e, he, p, h1, h2, h3, h4⟩
  · exfalso
    obtain ⟨e, he, p, hp, hpin⟩ := hex
    obtain ⟨q, hq, -, hb⟩ := hh e he
    rw [hp] at hq
    cases hq
    exact absurd (hb hpin) (Nat.not_le_of_lt (h3 e he p hp hpin))
  · refine ⟨e, he, p, h2, h3, ?_, ?_⟩
    · intro e1 he1 p1 hp1 hpin1
      rw [h4]
      exact hlow e1 he1 p1 hp1 hpin1
    · obtain ⟨q, hq, hkey, -⟩ := hh e he
      rw [h2] at hq
      cases hq
      obtain ⟨a, ha⟩ := find_isSome_of_mem s.cachedPages e he
      have hfull1 : ¬ (s.cachedPages.length : Int) < s.maxNumPages_ := hfull
      simp [LRUState.fetchPage, LRUState.getNumPages, hmiss, hfull1, hs, huf1, h1, h2, hkey, ha]

/-- On a state of the LRU cache in which the directory invariant holds,
`fetchPage` returns the null pointer exactly when the id is not in the
directory and either `allocate` is false or the cache is at capacity with no
unpinned page; the state after a null return differs from the state before
only in `numFetches_`. -/
theorem lru_fetchPage_null_iff_of_healthy (s : LRUState) (pageId : Nat) (allocate : Bool)
    (hh : s.Healthy) :
    ((∃ s1, s.fetchPage pageId allocate = some (none, s1))
      ↔ (find s.cachedPages pageId = none
          ∧ (allocate = false
              ∨ (¬ s.getNumPages < s.maxNumPages_
                  ∧ ∀ e ∈ s.cachedPages, ∀ p, deref s.heap e.2 = some p → p.pinned = true))))
    ∧ (∀ s1, s.fetchPage pageId allocate = some (none, s1) →
        s1 = { s with numFetches_ := incr64 s.numFetches_ }) := by
  have hlive : ∀ e ∈ s.cachedPages, ∃ p, deref s.heap e.2 = some p := by
    intro e he
    obtain ⟨p, hp, -⟩ := hh e he
    exact ⟨p, hp⟩
  cases hf : find s.cachedPages pageId with
  | some a =>
    have hno : ∀ s1, s.fetchPage pageId allocate ≠ some (none, s1) := by
      intro s1
      cases hd : deref s.heap a with
      | none => simp [LRUState.fetchPage, hf, hd]
      | some p => simp [LRUState.fetchPage, hf, hd]
    refine ⟨⟨fun ⟨s1, h⟩ => absurd h (hno s1), fun h => by simp at h⟩,
      fun s1 h => absurd h (hno s1)⟩
  | none =>
    cases allocate with
    | false =>
      have hr : s.fetchPage pageId false
          = some (none, { s with numFetches_ := incr64 s.numFetches_ }) := by
        simp [LRUState.fetchPage, hf]
      refine ⟨⟨fun _ => ⟨rfl, Or.inl rfl⟩, fun _ => ⟨_, hr⟩⟩, ?_⟩
      intro s1 h
      rw [hr] at h
      simp only [Option.some.injEq, Prod.mk.injEq, true_and] at h
      exact h.symm
    | true =>
      by_cases hcap : s.getNumPages < s.maxNumPages_
      · have hr := lru_fetchPage_create s pageId hf hcap
        refine ⟨⟨?_, ?_⟩, ?_⟩
        · rintro ⟨s1, h⟩
          rw [hr] at h
          simp at h
        · rintro ⟨-, h | ⟨h, -⟩⟩
          · cases h
          · exact absurd hcap h
        · intro s1 h
          rw [hr] at h
          simp at h
      · by_cases hex : ∃ e ∈ s.cachedPages, ∃ p, deref s.heap e.2 = some p ∧ p.pinned = false
        · obtain ⟨e, -, p, -, -, -, hr⟩ := lru_fetchPage_reuse_of_healthy s pageId hh hf hcap hex
          refine ⟨⟨?_, ?_⟩, ?_⟩
          · rintro ⟨s1, h⟩
            rw [hr] at h
            simp at h
          · rintro ⟨-, h | ⟨-, h⟩⟩
            · cases h
            · obtain ⟨e1, he1, p1, hp1, hpin1⟩ := hex
              have := h e1 he1 p1 hp1
              rw [hpin1] at this
              cases this
          · intro s1 h
            rw [hr] at h
            simp at h
        · obtain ⟨min1, uf1, r1, hs, -, -, huf, -⟩ :=
            lru_scan_spec s.heap s.cachedPages hlive (toUnsigned s.usedOrder) false none
          have huf1 : uf1 = false := by
            cases h : uf1 with
            | false => rfl
            | true =>
              rcases huf.mp h with h1 | h1
              · cases h1
              · exact absurd h1 hex
          have hcap1 : ¬ (s.cachedPages.length : Int) < s.maxNumPages_ := hcap
          have hr : s.fetchPage pageId true
              = some (none, { s with numFetches_ := incr64 s.numFetches_ }) := by
            simp [LRUState.fetchPage, LRUState.getNumPages, hf, hcap1, hs, huf1]
          refine ⟨⟨fun _ => ⟨rfl, Or.inr ⟨hcap, ?_⟩⟩, fun _ => ⟨_, hr⟩⟩, ?_⟩
          · intro e he p hp
            cases hpin : p.pinned with
            | true => rfl
            | false => exact absurd ⟨e, he, p, hp, hpin⟩ hex
          · intro s1 h
            rw [hr] at h
            simp only [Option.some.injEq, Prod.mk.injEq, true_and] at h
            exact h.symm

theorem lru2_count_spec (heap : List (Option LRU2ReplacementPage)) (m : Directory)
    (hlive : ∀ e ∈ m, ∃ p, deref heap e.2 = some p) (u o : Nat) :
    LRU2State.count heap m u o
      = some (u + m.countP (isUnpinned heap), o + m.countP (isOneAccess heap)) := by
  induction m generalizing u o with
  | nil => simp [LRU2State.count]
  | cons x rest ih =>
    obtain ⟨p, hp⟩ := hlive x (List.mem_cons_self _ _)
    have hrest : ∀ e ∈ rest, ∃ p, deref heap e.2 = some p :=
      fun e he => hlive e (List.mem_cons_of_mem _ he)
    cases hpin : p.pinned with
    | true =>
      have h1 : isUnpinned heap x = false := by simp [isUnpinned, hp, hpin]
      have h2 : isOneAccess heap x = false := by simp [isOneAccess, hp, hpin]
      simp [LRU2State.count, hp, hpin, ih hrest, List.countP_cons, h1, h2]
    | false =>
      have h1 : isUnpinned heap x = true := by simp [isUnpinned, hp, hpin]
      by_cases hlen : p.sequenceNums.length < 2
      · have h2 : isOneAccess heap x = true := by simp [isOneAccess, hp, hpin, hlen]
        simp [LRU2State.count, hp, hpin, hlen, ih hrest, List.countP_cons, h1, h2]
        omega
      · have h2 : isOneAccess heap x = false := by simp [isOneAccess, hp, hpin, hlen]
        simp [LRU2State.count, hp, hpin, hlen, ih hrest, List.countP_cons, h1, h2]
        omega

theorem lru2_takeOneAccess_spec (heap : List (Option LRU2ReplacementPage)) (m : Directory)
    (hlive : ∀ e ∈ m, ∃ p, deref heap e.2 = some p)
    (hex : ∃ e ∈ m, isOneAccess heap e = true) :
    ∃ e ∈ m, ∃ m1, isOneAccess heap e = true
      ∧ LRU2State.takeOneAccess heap m = some (some (e.2, m1)) := by
  induction m with
  | nil =>
    obtain ⟨e, he, -⟩ := hex
    cases he
  | cons x rest ih =>
    obtain ⟨p, hp⟩ := hlive x (List.mem_cons_self _ _)
    have hrest : ∀ e ∈ rest, ∃ p, deref heap e.2 = some p :=
      fun e he => hlive e (List.mem_cons_of_mem _ he)
    cases hx : isOneAccess heap x with
    | true =>
      refine ⟨x, List.mem_cons_self _ _, rest, hx, ?_⟩
      have hc : (!p.pinned && decide (p.sequenceNums.length < 2)) = true := by
        simpa [isOneAccess, hp] using hx
      simp only [LRU2State.takeOneAccess, hp, hc, if_true]
    | false =>
      have hc : (!p.pinned && decide (p.sequenceNums.length < 2)) = false := by
        simpa [isOneAccess, hp] using hx
      have hex1 : ∃ e ∈ rest, isOneAccess heap e = true := by
        obtain ⟨e, he, h⟩ := hex
        rcases List.mem_cons.mp he with h1 | h1
        · subst h1
          rw [hx] at h
          cases h
        · exact ⟨e, h1, h⟩
      obtain ⟨e, he, m1, h1, h2⟩ := ih hrest hex1
      refine ⟨e, List.mem_cons_of_mem _ he, x :: m1, h1, ?_⟩
      simp [LRU2State.takeOneAccess, hp, hc, h2]

/-- The search of the branch `numOneAccess >= 1` over entries that all hold
live pages, where every page with fewer than two stamps that is unpinned has
a front stamp. -/
theorem lru2_scanOneAccess_spec (heap : List (Option LRU2ReplacementPage)) (m : Directory)
    (hlive : ∀ e ∈ m, ∃ p, deref heap e.2 = some p)
    (hfront : ∀ e ∈ m, ∀ p, deref heap e.2 = some p → isOneAccess heap e = true →
      ∃ front, p.sequenceNums.head? = some front)
    (min : Nat) (r : Option Nat) :
    ∃ min1 r1, LRU2State.scanOneAccess heap m min r = some (min1, r1)
      ∧ min1 ≤ min
      ∧ (∀ e ∈ m, ∀ p front, deref heap e.2 = some p → isOneAccess heap e = true →
          p.sequenceNums.head? = some front → min1 ≤ front)
      ∧ ((min1 = min ∧ r1 = r
            ∧ ∀ e ∈ m, ∀ p front, deref heap e.2 = some p → isOneAccess heap e = true →
                p.sequenceNums.head? = some front → min < front)
          ∨ ∃ e ∈ m, ∃ p, r1 = some e.2 ∧ deref heap e.2 = some p
              ∧ isOneAccess heap e = true ∧ p.sequenceNums.head? = some min1) := by
  induction m generalizing min r with
  | nil => exact ⟨min, r, rfl, le_refl _, by simp, Or.inl ⟨rfl, rfl, by simp⟩⟩
  | cons x rest ih =>
    obtain ⟨p, hp⟩ := hlive x (List.mem_cons_self _ _)
    have hrest : ∀ e ∈ rest, ∃ p, deref heap e.2 = some p :=
      fun e he => hlive e (List.mem_cons_of_mem _ he)
    have hfrest : ∀ e ∈ rest, ∀ p, deref heap e.2 = some p → isOneAccess heap e = true →
        ∃ front, p.sequenceNums.head? = some front :=
      fun e he => hfront e (List.mem_cons_of_mem _ he)
    cases hx : isOneAccess heap x with
    | false =>
      have hc : (!p.pinned && decide (p.sequenceNums.length < 2)) = false := by
        simpa [isOneAccess, hp] using hx
      obtain ⟨min1, r1, hs, hle, hlow, hcase⟩ := ih hrest hfrest min r
      refine ⟨min1, r1, by simp [LRU2State.scanOneAccess, hp, hc, hs], hle, ?_, ?_⟩
      · intro e he q f hq hc1 hf
        rcases List.mem_cons.mp he with h1 | h1
        · subst h1
          rw [hx] at hc1
          cases hc1
        · exact hlow e h1 q f hq hc1 hf
      · rcases hcase with ⟨h1, h2, h3⟩ | ⟨e, he, q, h1, h2, h3, h4⟩
        · refine Or.inl ⟨h1, h2, ?_⟩
          intro e he q f hq hc1 hf
          rcases List.mem_cons.mp he with h5 | h5
          · subst h5
            rw [hx] at hc1
            cases hc1
          · exact h3 e h5 q f hq hc1 hf
        · exact Or.inr ⟨e, List.mem_cons_of_mem _ he, q, h1, h2, h3, h4⟩
    | true =>
      have hc : (!p.pinned && decide (p.sequenceNums.length < 2)) = true := by
        simpa [isOneAccess, hp] using hx
      obtain ⟨front, hfr⟩ := hfront x (List.mem_cons_self _ _) p hp hx
      by_cases hle0 : front ≤ min
      · obtain ⟨min1, r1, hs, hle, hlow, hcase⟩ := ih hrest hfrest front (some x.2)
        refine ⟨min1, r1, by simp [LRU2State.scanOneAccess, hp, hc, hfr, hle0, hs],
          le_trans hle hle0, ?_, ?_⟩
        · intro e he q f hq hc1 hf
          rcases List.mem_cons.mp he with h1 | h1
          · subst h1
            rw [hp] at hq
            cases hq
            rw [hfr] at hf
            cases hf
            exact hle
          · exact hlow e h1 q f hq hc1 hf
        · rcases hcase with ⟨h1, h2, _⟩ | ⟨e, he, q, h1, h2, h3, h4⟩
          · exact Or.inr ⟨x, List.mem_cons_self _ _, p, h2, hp, hx, by rw [h1]; exact hfr⟩
          · exact Or.inr ⟨e, List.mem_cons_of_mem _ he, q, h1, h2, h3, h4⟩
      · obtain ⟨min1, r1, hs, hle, hlow, hcase⟩ := ih hrest hfrest min r
        refine ⟨min1, r1, by simp [LRU2State.scanOneAccess, hp, hc, hfr, hle0, hs], hle, ?_, ?_⟩
        · intro e he q f hq hc1 hf
          rcases List.mem_cons.mp he with h1 | h1
          · subst h1
            rw [hp] at hq
            cases hq
            rw [hfr] at hf
            cases hf
            exact le_trans hle (le_of_lt (Nat.lt_of_not_le hle0))
          · exact hlow e h1 q f hq hc1 hf
        · rcases hcase with ⟨h1, h2, h3⟩ | ⟨e, he, q, h1, h2, h3, h4⟩
          · refine Or.inl ⟨h1, h2, ?_⟩
            intro e he q f hq hc1 hf
            rcases List.mem_cons.mp he with h5 | h5
            · subst h5
              rw [hp] at hq
              cases hq
              rw [hfr] at hf
              cases hf
              exact Nat.lt_of_not_le hle0
            · exact h3 e h5 q f hq hc1 hf
          · exact Or.inr ⟨e, List.mem_cons_of_mem _ he, q, h1, h2, h3, h4⟩

theorem isOneAccess_iff (heap : List (Option LRU2ReplacementPage)) (e : Nat × Nat)
    (p : LRU2ReplacementPage) (hp : deref heap e.2 = some p) :
    isOneAccess heap e = true ↔ (p.pinned = false ∧ p.sequenceNums.length < 2) := by
  simp [isOneAccess, hp]

theorem isUnpinned_iff (heap : List (Option LRU2ReplacementPage)) (e : Nat × Nat)
    (p : LRU2ReplacementPage) (hp : deref heap e.2 = some p) :
    isUnpinned heap e = true ↔ p.pinned = false := by
  simp [isUnpinned, hp]

theorem lru2_reuse_not_null (s : LRU2State) (pageId : Nat) (r : Option Nat) (s1 : LRU2State) :
    LRU2State.reuse s pageId r ≠ some (none, s1) := by
  cases r with
  | none => simp [LRU2State.reuse]
  | some a =>
    cases hd : deref s.heap a with
    | none => simp [LRU2State.reuse, hd]
    | some p =>
      cases hf : find s.cachedPages p.pageId with
      | none => simp [LRU2State.reuse, hd, hf]
      | some b => simp [LRU2State.reuse, hd, hf]

/-- On a state of the LRU-2 cache in which the directory invariant holds, a
miss at capacity with an unpinned page of fewer than two stamps in the
directory returns such a page; unless it is the only one, its front stamp is
the smallest among the front stamps of such pages.  The page is pinned and
nothing else in the heap changes. -/
theorem lru2_fetchPage_one_access_of_healthy (s : LRU2State) (pageId : Nat)
    (hh : s.Healthy) (hmiss : find s.cachedPages pageId = none)
    (hfull : ¬ s.getNumPages < s.maxNumPages_)
    (hex : ∃ e ∈ s.cachedPages, isOneAccess s.heap e = true) :
    ∃ e ∈ s.cachedPages, ∃ p s1, deref s.heap e.2 = some p ∧ p.pinned = false
      ∧ p.sequenceNums.length < 2
      ∧ (s.cachedPages.countP (isOneAccess s.heap) = 1
          ∨ ∃ front, p.sequenceNums.head? = some front
              ∧ ∀ e1 ∈ s.cachedPages, ∀ p1 front1, deref s.heap e1.2 = some p1 →
                  isOneAccess s.heap e1 = true → p1.sequenceNums.head? = some front1 →
                  front ≤ front1)
      ∧ s.fetchPage pageId true = some (some e.2, s1)
      ∧ s1.heap = store s.heap e.2 { p with pinned := true } := by
  have hlive : ∀ e ∈ s.cachedPages, ∃ p, deref s.heap e.2 = some p := by
    intro e he
    obtain ⟨p, hp, -⟩ := hh e he
    exact ⟨p, hp⟩
  have hfront : ∀ e ∈ s.cachedPages, ∀ p, deref s.heap e.2 = some p →
      isOneAccess s.heap e = true → ∃ front, p.sequenceNums.head? = some front := by
    intro e he p hp hc
    obtain ⟨q, hq, -, hb⟩ := hh e he
    rw [hp] at hq
    cases hq
    obtain ⟨f, hf, -⟩ := hb ((isOneAccess_iff s.heap e p hp).mp hc).1
    exact ⟨f, hf⟩
  have hcount := lru2_count_spec s.heap s.cachedPages hlive 0 0
  simp only [Nat.zero_add] at hcount
  have hone : 0 < s.cachedPages.countP (isOneAccess s.heap) := List.countP_pos_iff.mpr hex
  have hunp : s.cachedPages.countP (isUnpinned s.heap) ≠ 0 := by
    obtain ⟨e, he, hc⟩ := hex
    obtain ⟨p, hp⟩ := hlive e he
    have : isUnpinned s.heap e = true :=
      (isUnpinned_iff s.heap e p hp).mpr ((isOneAccess_iff s.heap e p hp).mp hc).1
    exact Nat.pos_iff_ne_zero.mp (List.countP_pos_iff.mpr ⟨e, he, this⟩)
  have hfull1 : ¬ (s.cachedPages.length : Int) < s.maxNumPages_ := hfull
  by_cases h1 : s.cachedPages.countP (isOneAccess s.heap) = 1
  · obtain ⟨e, he, m1, hc, ht⟩ := lru2_takeOneAccess_spec s.heap s.cachedPages hlive hex
    obtain ⟨p, hp⟩ := hlive e he
    have hc1 := (isOneAccess_iff s.heap e p hp).mp hc
    refine ⟨e, he, p,
      { s with numFetches_ := incr64 s.numFetches_,
               heap := store s.heap e.2 { p with pinned := true },
               cachedPages := emplace m1 pageId e.2 },
      hp, hc1.1, hc1.2, Or.inl h1, ?_, rfl⟩
    simp [LRU2State.fetchPage, LRU2State.getNumPages, hmiss, hfull1, hcount, hunp, h1, ht, hp]
  · obtain ⟨min1, r1, hs, -, hlow, hcase⟩ :=
      lru2_scanOneAccess_spec s.heap s.cachedPages hlive hfront
        (toUnsigned s.sequenceNumber) none
    have hge : s.cachedPages.countP (isOneAccess s.heap) ≥ 1 := hone
    rcases hcase with ⟨-, -, h3⟩ | ⟨e, he, p, hr, hp, hc, hhead⟩
    · exfalso
      obtain ⟨e, he, hc⟩ := hex
      obtain ⟨p, hp, -, hb⟩ := hh e he
      obtain ⟨f, hf, hfle⟩ := hb ((isOneAccess_iff s.heap e p hp).mp hc).1
      exact absurd hfle (Nat.not_le_of_lt (h3 e he p f hp hc hf))
    · have hc1 := (isOneAccess_iff s.heap e p hp).mp hc
      obtain ⟨q, hq, hkey, -⟩ := hh e he
      rw [hp] at hq
      cases hq
      obtain ⟨a, ha⟩ := find_isSome_of_mem s.cachedPages e he
      refine ⟨e, he, p,
        { s with numFetches_ := incr64 s.numFetches_,
                 heap := store s.heap e.2 { p with pinned := true },
                 cachedPages := emplace (eraseKey s.cachedPages e.1) pageId e.2 },
        hp, hc1.1, hc1.2, Or.inr ⟨min1, hhead, ?_⟩, ?_, rfl⟩
      · intro e1 he1 p1 f1 hp1 hc2 hf1
        exact hlow e1 he1 p1 f1 hp1 hc2 hf1
      · simp [LRU2State.fetchPage, LRU2State.getNumPages, hmiss, hfull1, hcount, hunp, h1,
          hge, hs, hr, LRU2State.reuse, hp, hkey, ha]

/-- On a state of the LRU-2 cache in which the directory invariant holds,
`fetchPage` returns the null pointer exactly when the id is not in the
directory and either `allocate` is false or the cache is at capacity with no
unpinned page; the state after a null return differs from the state before
only in `numFetches_`. -/
theorem lru2_fetchPage_null_iff_of_healthy (s : LRU2State) (pageId : Nat) (allocate : Bool)
    (hh : s.Healthy) :
    ((∃ s1, s.fetchPage pageId allocate = some (none, s1))
      ↔ (find s.cachedPages pageId = none
          ∧ (allocate = false
              ∨ (¬ s.getNumPages < s.maxNumPages_
                  ∧ ∀ e ∈ s.cachedPages, ∀ p, deref s.heap e.2 = some p → p.pinned = true))))
    ∧ (∀ s1, s.fetchPage pageId allocate = some (none, s1) →
        s1 = { s with numFetches_ := incr64 s.numFetches_ }) := by
  have hlive : ∀ e ∈ s.cachedPages, ∃ p, deref s.heap e.2 = some p := by
    intro e he
    obtain ⟨p, hp, -⟩ := hh e he
    exact ⟨p, hp⟩
  cases hf : find s.cachedPages pageId with
  | some a =>
    have hno : ∀ s1, s.fetchPage pageId allocate ≠ some (none, s1) := by
      intro s1
      cases hd : deref s.heap a with
      | none => simp [LRU2State.fetchPage, hf, hd]
      | some p => simp [LRU2State.fetchPage, hf, hd]
    refine ⟨⟨fun ⟨s1, h⟩ => absurd h (hno s1), fun h => by simp at h⟩,
      fun s1 h => absurd h (hno s1)⟩
  | none =>
    cases allocate with
    | false =>
      have hr : s.fetchPage pageId false
          = some (none, { s with numFetches_ := incr64 s.numFetches_ }) := by
        simp [LRU2State.fetchPage, hf]
      refine ⟨⟨fun _ => ⟨rfl, Or.inl rfl⟩, fun _ => ⟨_, hr⟩⟩, ?_⟩
      intro s1 h
      rw [hr] at h
      simp only [Option.some.injEq, Prod.mk.injEq, true_and] at h
      exact h.symm
    | true =>
      by_cases hcap : s.getNumPages < s.maxNumPages_
      · have hr := lru2_fetchPage_create s pageId hf hcap
        refine ⟨⟨?_, ?_⟩, ?_⟩
        · rintro ⟨s1, h⟩
          rw [hr] at h
          simp at h
        · rintro ⟨-, h | ⟨h, -⟩⟩
          · cases h
          · exact absurd hcap h
        · intro s1 h
          rw [hr] at h
          simp at h
      · have hcount := lru2_count_spec s.heap s.cachedPages hlive 0 0
        simp only [Nat.zero_add] at hcount
        have hcap1 : ¬ (s.cachedPages.length : Int) < s.maxNumPages_ := hcap
        by_cases hu : s.cachedPages.countP (isUnpinned s.heap) = 0
        · have hr : s.fetchPage pageId true
              = some (none, { s with numFetches_ := incr64 s.numFetches_ }) := by
            simp [LRU2State.fetchPage, LRU2State.getNumPages, hf, hcap1, hcount, hu]
          refine ⟨⟨fun _ => ⟨rfl, Or.inr ⟨hcap, ?_⟩⟩, fun _ => ⟨_, hr⟩⟩, ?_⟩
          · intro e he p hp
            cases hpin : p.pinned with
            | true => rfl
            | false =>
              have : isUnpinned s.heap e = true := (isUnpinned_iff s.heap e p hp).mpr hpin
              have hpos := List.countP_pos_iff.mpr ⟨e, he, this⟩
              omega
          · intro s1 h
            rw [hr] at h
            simp only [Option.some.injEq, Prod.mk.injEq, true_and] at h
            exact h.symm
        · have hno : ∀ s1, s.fetchPage pageId true ≠ some (none, s1) := by
            intro s1
            simp only [LRU2State.fetchPage, LRU2State.getNumPages, hf, hcap1, hcount, hu,
              if_true, if_false]
            split
            · split
              · simp
              · simp
              · split
                · simp
                · simp
            · split
              · split
                · simp
                · exact lru2_reuse_not_null _ _ _ _
              · split
                · simp
                · exact lru2_reuse_not_null _ _ _ _
          refine ⟨⟨fun ⟨s1, h⟩ => absurd h (hno s1), ?_⟩, fun s1 h => absurd h (hno s1)⟩
          rintro ⟨-, h | ⟨-, h⟩⟩
          · cases h
          · exfalso
            obtain ⟨e, he, hc⟩ := List.countP_pos_iff.mp (Nat.pos_of_ne_zero hu)
            obtain ⟨p, hp⟩ := hlive e he
            have h1 := (isUnpinned_iff s.heap e p hp).mp hc
            have h2 := h e he p hp
            rw [h1] at h2
            cases h2

theorem lruFull_healthy : lruFull.Healthy := by
  intro e he
  simp only [lruFull, List.mem_cons, List.mem_singleton, List.not_mem_nil, or_false] at he
  rcases he with rfl | rfl | rfl
  · exact ⟨_, rfl, rfl, fun _ => by decide⟩
  · exact ⟨_, rfl, rfl, fun _ => by decide⟩
  · exact ⟨_, rfl, rfl, fun _ => by decide⟩

theorem lru2Full_healthy : lru2Full.Healthy := by
  intro e he
  simp only [lru2Full, List.mem_cons, List.mem_singleton, List.not_mem_nil, or_false] at he
  rcases he with rfl | rfl | rfl
  · exact ⟨_, rfl, rfl, fun _ => ⟨3, rfl, by decide⟩⟩
  · exact ⟨_, rfl, rfl, fun _ => ⟨2, rfl, by decide⟩⟩
  · exact ⟨_, rfl, rfl, fun _ => ⟨0, rfl, by decide⟩⟩

/-! ## Victim selection of LRU-2 and pinned pages -/

/-- C1 (the code diverges). In the LRU-2 cache the last branch of the victim
search of `fetchPage` (every unpinned page has two stamps) inspects every
entry of the directory without looking at `pinned`.  With capacity 2, page 1
(address 0) unpinned twice and fetched again, so pinned with stamps 0 and 1,
and page 2 (address 1) unpinned twice with stamps 2 and 3, `fetchPage(3, true)`
returns the pinned page at address 0: id 1 is no longer resident and the page
the host still holds as page 1 is stored under id 3, while the unpinned page
at address 1 stays where it was.  The third part is the same call with the
two entries of the directory in the other iteration order. -/
theorem C1_lru2_fetch_reidentifies_pinned_page :
    (LRU2State.init 4096 0 0).run
        [Op.setMaxNumPages 2,
         Op.fetchPage 1 true, Op.unpinPage 0 false,
         Op.fetchPage 1 true, Op.unpinPage 0 false,
         Op.fetchPage 1 true,
         Op.fetchPage 2 true, Op.unpinPage 1 false,
         Op.fetchPage 2 true, Op.unpinPage 1 false]
      = some
        { maxNumPages_ := 2, pageSize_ := 4096, extraSize_ := 0,
          numFetches_ := 5, numHits_ := 3, sequenceNumber := 4,
          cachedPages := [(2, 1), (1, 0)],
          heap := [some { pageId := 1, pinned := true, sequenceNums := [0, 1] },
                   some { pageId := 2, pinned := false, sequenceNums := [2, 3] }] }
    ∧ LRU2State.fetchPage
        { maxNumPages_ := 2, pageSize_ := 4096, extraSize_ := 0,
          numFetches_ := 5, numHits_ := 3, sequenceNumber := 4,
          cachedPages := [(2, 1), (1, 0)],
          heap := [some { pageId := 1, pinned := true, sequenceNums := [0, 1] },
                   some { pageId := 2, pinned := false, sequenceNums := [2, 3] }] }
        3 true
      = some (some 0,
        { maxNumPages_ := 2, pageSize_ := 4096, extraSize_ := 0,
          numFetches_ := 6, numHits_ := 3, sequenceNumber := 4,
          cachedPages := [(3, 0), (2, 1)],
          heap := [some { pageId := 1, pinned := true, sequenceNums := [0, 1] },
                   some { pageId := 2, pinned := false, sequenceNums := [2, 3] }] })
    ∧ LRU2State.fetchPage
        { maxNumPages_ := 2, pageSize_ := 4096, extraSize_ := 0,
          numFetches_ := 5, numHits_ := 3, sequenceNumber := 4,
          cachedPages := [(1, 0), (2, 1)],
          heap := [some { pageId := 1, pinned := true, sequenceNums := [0, 1] },
                   some { pageId := 2, pinned := false, sequenceNums := [2, 3] }] }
        3 true
      = some (some 0,
        { maxNumPages_ := 2, pageSize_ := 4096, extraSize_ := 0,
          numFetches_ := 6, numHits_ := 3, sequenceNumber := 4,
          cachedPages := [(3, 0), (2, 1)],
          heap := [some { pageId := 1, pinned := true, sequenceNums := [0, 1] },
                   some { pageId := 2, pinned := false, sequenceNums := [2, 3] }] }) := by
  decide

/-! ## Victim reuse and the `pageId` field -/

/-- C2 (the code diverges). After one victim reuse the directory is no longer
keyed by the `pageId` of its pages.  In both caches, with capacity 1, the
calls `fetchPage(1, true)`, `unpinPage(p, false)`, `fetchPage(2, true)` leave
the single page under key 2 with `pageId` 1.  In the LRU cache, with capacity
2, a page reused for id 3 keeps `pageId` 1, and a later `fetchPage(1, true)`
creates a second resident page with `pageId` 1. -/
theorem C2_directory_not_keyed_by_pageId_after_reuse :
    ((LRUState.init 4096 0 0).run
        [Op.setMaxNumPages 1, Op.fetchPage 1 true, Op.unpinPage 0 false,
         Op.fetchPage 2 true]
      = some
        { maxNumPages_ := 1, pageSize_ := 4096, extraSize_ := 0,
          numFetches_ := 2, numHits_ := 0, usedOrder := 1,
          cachedPages := [(2, 0)],
          heap := [some { pageId := 1, pinned := true, sequenceNumber := 0 }] }
      ∧ LRUState.keyedByPageId
        { maxNumPages_ := 1, pageSize_ := 4096, extraSize_ := 0,
          numFetches_ := 2, numHits_ := 0, usedOrder := 1,
          cachedPages := [(2, 0)],
          heap := [some { pageId := 1, pinned := true, sequenceNumber := 0 }] }
        = false)
    ∧ ((LRU2State.init 4096 0 0).run
        [Op.setMaxNumPages 1, Op.fetchPage 1 true, Op.unpinPage 0 false,
         Op.fetchPage 2 true]
      = some
        { maxNumPages_ := 1, pageSize_ := 4096, extraSize_ := 0,
          numFetches_ := 2, numHits_ := 0, sequenceNumber := 1,
          cachedPages := [(2, 0)],
          heap := [some { pageId := 1, pinned := true, sequenceNums := [0] }] }
      ∧ LRU2State.keyedByPageId
        { maxNumPages_ := 1, pageSize_ := 4096, extraSize_ := 0,
          numFetches_ := 2, numHits_ := 0, sequenceNumber := 1,
          cachedPages := [(2, 0)],
          heap := [some { pageId := 1, pinned := true, sequenceNums := [0] }] }
        = false)
    ∧ ((LRUState.init 4096 0 0).run
        [Op.setMaxNumPages 2, Op.fetchPage 1 true, Op.unpinPage 0 false,
         Op.fetchPage 2 true, Op.fetchPage 3 true, Op.unpinPage 1 true,
         Op.fetchPage 1 true]
      = some
        { maxNumPages_ := 2, pageSize_ := 4096, extraSize_ := 0,
          numFetches_ := 4, numHits_ := 0, usedOrder := 1,
          cachedPages := [(1, 2), (3, 0)],
          heap := [some { pageId := 1, pinned := true, sequenceNumber := 0 },
                   none,
                   some { pageId := 1, pinned := true, sequenceNumber := 4294967295 }] }
      ∧ LRUState.residentPageIds
        { maxNumPages_ := 2, pageSize_ := 4096, extraSize_ := 0,
          numFetches_ := 4, numHits_ := 0, usedOrder := 1,
          cachedPages := [(1, 2), (3, 0)],
          heap := [some { pageId := 1, pinned := true, sequenceNumber := 0 },
                   none,
                   some { pageId := 1, pinned := true, sequenceNumber := 4294967295 }] }
        = [some 1, some 1]) := by
  decide

/-- C3 (the code diverges). Victim reuse moves the directory key and pins the
page but does not write the `pageId` field.  In both caches, in the state
reached with capacity 1 by `fetchPage(1, true)`, `unpinPage(p, false)`, the
call `fetchPage(2, true)` misses at capacity with one unpinned page and
returns that page (address 0) stored under key 2, pinned, with the number of
pages unchanged, and with `pageId` still 1. -/
theorem C3_victim_reuse_keeps_old_pageId :
    ((LRUState.init 4096 0 0).run
        [Op.setMaxNumPages 1, Op.fetchPage 1 true, Op.unpinPage 0 false]
      = some
        { maxNumPages_ := 1, pageSize_ := 4096, extraSize_ := 0,
          numFetches_ := 1, numHits_ := 0, usedOrder := 1,
          cachedPages := [(1, 0)],
          heap := [some { pageId := 1, pinned := false, sequenceNumber := 0 }] }
      ∧ LRUState.fetchPage
        { maxNumPages_ := 1, pageSize_ := 4096, extraSize_ := 0,
          numFetches_ := 1, numHits_ := 0, usedOrder := 1,
          cachedPages := [(1, 0)],
          heap := [some { pageId := 1, pinned := false, sequenceNumber := 0 }] }
        2 true
      = some (some 0,
        { maxNumPages_ := 1, pageSize_ := 4096, extraSize_ := 0,
          numFetches_ := 2, numHits_ := 0, usedOrder := 1,
          cachedPages := [(2, 0)],
          heap := [some { pageId := 1, pinned := true, sequenceNumber := 0 }] }))
    ∧ ((LRU2State.init 4096 0 0).run
        [Op.setMaxNumPages 1, Op.fetchPage 1 true, Op.unpinPage 0 false]
      = some
        { maxNumPages_ := 1, pageSize_ := 4096, extraSize_ := 0,
          numFetches_ := 1, numHits_ := 0, sequenceNumber := 1,
          cachedPages := [(1, 0)],
          heap := [some { pageId := 1, pinned := false, sequenceNums := [0] }] }
      ∧ LRU2State.fetchPage
        { maxNumPages_ := 1, pageSize_ := 4096, extraSize_ := 0,
          numFetches_ := 1, numHits_ := 0, sequenceNumber := 1,
          cachedPages := [(1, 0)],
          heap := [some { pageId := 1, pinned := false, sequenceNums := [0] }] }
        2 true
      = some (some 0,
        { maxNumPages_ := 1, pageSize_ := 4096, extraSize_ := 0,
          numFetches_ := 2, numHits_ := 0, sequenceNumber := 1,
          cachedPages := [(2, 0)],
          heap := [some { pageId := 1, pinned := true, sequenceNums := [0] }] })) := by
  decide

/-- C4 (the code diverges). In the LRU cache a page that has been reused once
cannot be reused again: `fetchPage` looks its directory entry up by the stale
`pageId`.  With capacity 1, after `fetchPage(1, true)`, `unpinPage(p, false)`,
`fetchPage(2, true)` (reuse of `p`), `unpinPage(p, false)`, the cache is full
and its only page is unpinned; in `fetchPage(3, true)` the victim search
nominates that page, `find(1)` returns `end()`, and `erase(end())` is
undefined: the call has no defined result. -/
theorem C4_lru_second_reuse_undefined :
    (LRUState.init 4096 0 0).run
        [Op.setMaxNumPages 1, Op.fetchPage 1 true, Op.unpinPage 0 false,
         Op.fetchPage 2 true, Op.unpinPage 0 false]
      = some
        { maxNumPages_ := 1, pageSize_ := 4096, extraSize_ := 0,
          numFetches_ := 2, numHits_ := 0, usedOrder := 2,
          cachedPages := [(2, 0)],
          heap := [some { pageId := 1, pinned := false, sequenceNumber := 1 }] }
    ∧ LRUState.scan [some { pageId := 1, pinned := false, sequenceNumber := 1 }]
        [(2, 0)] (toUnsigned 2) false none = some (1, true, some 0)
    ∧ find [(2, 0)] 1 = none
    ∧ LRUState.fetchPage
        { maxNumPages_ := 1, pageSize_ := 4096, extraSize_ := 0,
          numFetches_ := 2, numHits_ := 0, usedOrder := 2,
          cachedPages := [(2, 0)],
          heap := [some { pageId := 1, pinned := false, sequenceNumber := 1 }] }
        3 true
      = none := by
  decide

/-- C5 (the code diverges). In the LRU-2 cache, discarding a reused page leaves
its directory entry behind, and the next victim search reads the deleted page.
With capacity 2: `fetchPage(1, true)`, `unpinPage(p, false)`,
`fetchPage(2, true)` (page `q`), `fetchPage(3, true)` (reuse of `p`, whose
`pageId` stays 1), `unpinPage(p, true)` (erases key 1, which is absent, and
deletes `p`), `unpinPage(q, false)`.  The cache is full, `q` is unpinned with
one stamp, and `fetchPage(4, true)` dereferences the deleted `p` in its first
loop: the call has no defined result. -/
theorem C5_lru2_search_reads_deleted_page :
    (LRU2State.init 4096 0 0).run
        [Op.setMaxNumPages 2, Op.fetchPage 1 true, Op.unpinPage 0 false,
         Op.fetchPage 2 true, Op.fetchPage 3 true, Op.unpinPage 0 true,
         Op.unpinPage 1 false]
      = some
        { maxNumPages_ := 2, pageSize_ := 4096, extraSize_ := 0,
          numFetches_ := 3, numHits_ := 0, sequenceNumber := 2,
          cachedPages := [(3, 0), (2, 1)],
          heap := [none, some { pageId := 2, pinned := false, sequenceNums := [1] }] }
    ∧ LRU2State.fetchPage
        { maxNumPages_ := 2, pageSize_ := 4096, extraSize_ := 0,
          numFetches_ := 3, numHits_ := 0, sequenceNumber := 2,
          cachedPages := [(3, 0), (2, 1)],
          heap := [none, some { pageId := 2, pinned := false, sequenceNums := [1] }] }
        4 true
      = none := by
  decide

/-- C6 (the code diverges). In the LRU-2 cache, when every unpinned page has
two stamps, the victim is the page with the smallest front stamp among all
pages, pinned ones included.  With capacity 3 and pages 1, 2, 3 (addresses
0, 1, 2) each unpinned twice, page 1 fetched again and so pinned,
`fetchPage(4, true)` returns the pinned page at address 0 (front stamp 0)
and not the unpinned page with the smallest front stamp, the one at address 1
(front stamp 2). -/
theorem C6_lru2_two_stamp_search_picks_pinned_page :
    (LRU2State.init 4096 0 0).run
        [Op.setMaxNumPages 3,
         Op.fetchPage 1 true, Op.unpinPage 0 false,
         Op.fetchPage 1 true, Op.unpinPage 0 false,
         Op.fetchPage 2 true, Op.unpinPage 1 false,
         Op.fetchPage 2 true, Op.unpinPage 1 false,
         Op.fetchPage 3 true, Op.unpinPage 2 false,
         Op.fetchPage 3 true, Op.unpinPage 2 false,
         Op.fetchPage 1 false]
      = some
        { maxNumPages_ := 3, pageSize_ := 4096, extraSize_ := 0,
          numFetches_ := 7, numHits_ := 4, sequenceNumber := 6,
          cachedPages := [(3, 2), (2, 1), (1, 0)],
          heap := [some { pageId := 1, pinned := true, sequenceNums := [0, 1] },
                   some { pageId := 2, pinned := false, sequenceNums := [2, 3] },
                   some { pageId := 3, pinned := false, sequenceNums := [4, 5] }] }
    ∧ LRU2State.fetchPage
        { maxNumPages_ := 3, pageSize_ := 4096, extraSize_ := 0,
          numFetches_ := 7, numHits_ := 4, sequenceNumber := 6,
          cachedPages := [(3, 2), (2, 1), (1, 0)],
          heap := [some { pageId := 1, pinned := true, sequenceNums := [0, 1] },
                   some { pageId := 2, pinned := false, sequenceNums := [2, 3] },
                   some { pageId := 3, pinned := false, sequenceNums := [4, 5] }] }
        4 true
      = some (some 0,
        { maxNumPages_ := 3, pageSize_ := 4096, extraSize_ := 0,
          numFetches_ := 8, numHits_ := 4, sequenceNumber := 6,
          cachedPages := [(4, 0), (3, 2), (2, 1)],
          heap := [some { pageId := 1, pinned := true, sequenceNums := [0, 1] },
                   some { pageId := 2, pinned := false, sequenceNums := [2, 3] },
                   some { pageId := 3, pinned := false, sequenceNums := [4, 5] }] }) := by
  decide

/-- C7 (the code diverges). In both caches, with capacity 1, after
`fetchPage(1, true)`, `unpinPage(p, false)`, `fetchPage(2, true)` (reuse of
`p`) and `unpinPage(p, true)`, the page is deleted but the directory still
holds its pointer under key 2.  `fetchPage(3, true)` then misses at capacity
and its victim search dereferences the deleted page, and `fetchPage(2, false)`
writes `pinned` into the deleted page: neither call has a defined result. -/
theorem C7_fetch_after_discard_of_reused_page_undefined :
    ((LRUState.init 4096 0 0).run
        [Op.setMaxNumPages 1, Op.fetchPage 1 true, Op.unpinPage 0 false,
         Op.fetchPage 2 true, Op.unpinPage 0 true]
      = some
        { maxNumPages_ := 1, pageSize_ := 4096, extraSize_ := 0,
          numFetches_ := 2, numHits_ := 0, usedOrder := 1,
          cachedPages := [(2, 0)], heap := [none] }
      ∧ LRUState.fetchPage
        { maxNumPages_ := 1, pageSize_ := 4096, extraSize_ := 0,
          numFetches_ := 2, numHits_ := 0, usedOrder := 1,
          cachedPages := [(2, 0)], heap := [none] } 3 true = none
      ∧ LRUState.fetchPage
        { maxNumPages_ := 1, pageSize_ := 4096, extraSize_ := 0,
          numFetches_ := 2, numHits_ := 0, usedOrder := 1,
          cachedPages := [(2, 0)], heap := [none] } 2 false = none)
    ∧ ((LRU2State.init 4096 0 0).run
        [Op.setMaxNumPages 1, Op.fetchPage 1 true, Op.unpinPage 0 false,
         Op.fetchPage 2 true, Op.unpinPage 0 true]
      = some
        { maxNumPages_ := 1, pageSize_ := 4096, extraSize_ := 0,
          numFetches_ := 2, numHits_ := 0, sequenceNumber := 1,
          cachedPages := [(2, 0)], heap := [none] }
      ∧ LRU2State.fetchPage
        { maxNumPages_ := 1, pageSize_ := 4096, extraSize_ := 0,
          numFetches_ := 2, numHits_ := 0, sequenceNumber := 1,
          cachedPages := [(2, 0)], heap := [none] } 3 true = none
      ∧ LRU2State.fetchPage
        { maxNumPages_ := 1, pageSize_ := 4096, extraSize_ := 0,
          numFetches_ := 2, numHits_ := 0, sequenceNumber := 1,
          cachedPages := [(2, 0)], heap := [none] } 2 false = none) := by
  decide

/-! ## Hits pin without counting -/

/-- C8. In both caches a fetch of an id whose directory entry holds a live
page returns the address stored under the id, for either value of `allocate`,
and changes nothing but the two counters and the `pinned` flag of that page,
which becomes true.  Any non-empty sequence of such fetches, with any flags,
ends in the state of a single fetch apart from the counters, a further fetch
still returns the same address, and one `unpinPage(p, false)` after it, with
the number of pages at most `maxNumPages_` and the global stamp counter below
`INT_MAX`, leaves the page unpinned. -/
theorem C8_fetch_hit_pins_without_counting
    (s : LRUState) (t : LRU2State) (pageId a b : Nat)
    (p : LRUReplacementPage) (q : LRU2ReplacementPage)
    (hs : find s.cachedPages pageId = some a) (hp : deref s.heap a = some p)
    (ht : find t.cachedPages pageId = some b) (hq : deref t.heap b = some q) :
    ((∀ allocate, s.fetchPage pageId allocate = some (some a, s.afterHits a p 1))
      ∧ (∀ k, (s.afterHits a p k).cachedPages = s.cachedPages
          ∧ (s.afterHits a p k).maxNumPages_ = s.maxNumPages_
          ∧ (s.afterHits a p k).usedOrder = s.usedOrder
          ∧ (s.afterHits a p k).heap = (s.afterHits a p 1).heap
          ∧ deref (s.afterHits a p k).heap a = some { p with pinned := true }
          ∧ ∀ c, c ≠ a → deref (s.afterHits a p k).heap c = deref s.heap c)
      ∧ (∀ flags : List Bool, flags ≠ [] →
          s.run (flags.map (Op.fetchPage pageId)) = some (s.afterHits a p flags.length)
          ∧ (∀ allocate, (s.afterHits a p flags.length).fetchPage pageId allocate
              = some (some a, s.afterHits a p (flags.length + 1)))
          ∧ (s.getNumPages ≤ s.maxNumPages_ → s.usedOrder ≠ INT_MAX →
              (s.afterHits a p flags.length).unpinPage a false
                = some { s.afterHits a p flags.length with
                    heap := store s.heap a
                      { p with pinned := false, sequenceNumber := toUnsigned s.usedOrder },
                    usedOrder := s.usedOrder + 1 }
              ∧ deref (store s.heap a
                    { p with pinned := false, sequenceNumber := toUnsigned s.usedOrder }) a
                = some { p with pinned := false, sequenceNumber := toUnsigned s.usedOrder })))
    ∧ ((∀ allocate, t.fetchPage pageId allocate = some (some b, t.afterHits b q 1))
      ∧ (∀ k, (t.afterHits b q k).cachedPages = t.cachedPages
          ∧ (t.afterHits b q k).maxNumPages_ = t.maxNumPages_
          ∧ (t.afterHits b q k).sequenceNumber = t.sequenceNumber
          ∧ (t.afterHits b q k).heap = (t.afterHits b q 1).heap
          ∧ deref (t.afterHits b q k).heap b = some { q with pinned := true }
          ∧ ∀ c, c ≠ b → deref (t.afterHits b q k).heap c = deref t.heap c)
      ∧ (∀ flags : List Bool, flags ≠ [] →
          t.run (flags.map (Op.fetchPage pageId)) = some (t.afterHits b q flags.length)
          ∧ (∀ allocate, (t.afterHits b q flags.length).fetchPage pageId allocate
              = some (some b, t.afterHits b q (flags.length + 1)))
          ∧ (t.getNumPages ≤ t.maxNumPages_ → t.sequenceNumber ≠ INT_MAX →
              (t.afterHits b q flags.length).unpinPage b false
                = some { t.afterHits b q flags.length with
                    heap := store t.heap b
                      { q with pinned := false,
                               sequenceNums :=
                                 pushStamp q.sequenceNums (toUnsigned t.sequenceNumber) },
                    sequenceNumber := t.sequenceNumber + 1 }
              ∧ deref (store t.heap b
                    { q with pinned := false,
                             sequenceNums :=
                               pushStamp q.sequenceNums (toUnsigned t.sequenceNumber) }) b
                = some { q with pinned := false,
                                sequenceNums :=
                                  pushStamp q.sequenceNums (toUnsigned t.sequenceNumber) }))) := by
  refine ⟨⟨fun allocate => lru_fetchPage_hit s pageId a p allocate hs hp, ?_, ?_⟩,
    ⟨fun allocate => lru2_fetchPage_hit t pageId b q allocate ht hq, ?_, ?_⟩⟩
  · intro k
    refine ⟨rfl, rfl, rfl, rfl, lru_afterHits_live s a p k hp, ?_⟩
    intro c hc
    exact deref_store_other s.heap _ (fun e => hc e.symm)
  · intro flags hne
    refine ⟨lru_run_hits s pageId a p hs hp flags hne, ?_, ?_⟩
    · intro allocate
      have h := lru_fetchPage_hit (s.afterHits a p flags.length) pageId a
        { p with pinned := true } allocate hs (lru_afterHits_live s a p _ hp)
      rw [h, lru_afterHits_afterHits, Nat.add_comm]
    · intro hcap hord
      exact ⟨lru_unpin_afterHits s a p flags.length hp hcap hord,
        deref_store_same _ (deref_lt hp)⟩
  · intro k
    refine ⟨rfl, rfl, rfl, rfl, lru2_afterHits_live t b q k hq, ?_⟩
    intro c hc
    exact deref_store_other t.heap _ (fun e => hc e.symm)
  · intro flags hne
    refine ⟨lru2_run_hits t pageId b q ht hq flags hne, ?_, ?_⟩
    · intro allocate
      have h := lru2_fetchPage_hit (t.afterHits b q flags.length) pageId b
        { q with pinned := true } allocate ht (lru2_afterHits_live t b q _ hq)
      rw [h, lru2_afterHits_afterHits, Nat.add_comm]
    · intro hcap hord
      exact ⟨lru2_unpin_afterHits t b q flags.length hq hcap hord,
        deref_store_same _ (deref_lt hq)⟩

/-- C8 at a concrete input: capacity 2, page 5 resident at address 0 and
already pinned, in both caches; three fetches with the flags true, false,
true, then one `unpinPage`. -/
theorem C8_fetch_hit_pins_without_counting_witness :
    (find lruSample.cachedPages 5 = some 0
      ∧ deref lruSample.heap 0
          = some { pageId := 5, pinned := true, sequenceNumber := 4294967295 }
      ∧ find lru2Sample.cachedPages 5 = some 0
      ∧ deref lru2Sample.heap 0 = some { pageId := 5, pinned := true, sequenceNums := [3] }
      ∧ lruSample.getNumPages ≤ lruSample.maxNumPages_
      ∧ lruSample.usedOrder ≠ INT_MAX
      ∧ lru2Sample.getNumPages ≤ lru2Sample.maxNumPages_
      ∧ lru2Sample.sequenceNumber ≠ INT_MAX)
    ∧ (lruSample.run [Op.fetchPage 5 true, Op.fetchPage 5 false, Op.fetchPage 5 true]
        = some (lruSample.afterHits 0
            { pageId := 5, pinned := true, sequenceNumber := 4294967295 } 3)
      ∧ (lruSample.afterHits 0
            { pageId := 5, pinned := true, sequenceNumber := 4294967295 } 3).unpinPage 0 false
        = some
          { maxNumPages_ := 2, pageSize_ := 4096, extraSize_ := 0, numFetches_ := 4,
            numHits_ := 3, usedOrder := 5, cachedPages := [(5, 0)],
            heap := [some { pageId := 5, pinned := false, sequenceNumber := 4 }] })
    ∧ (lru2Sample.run [Op.fetchPage 5 true, Op.fetchPage 5 false, Op.fetchPage 5 true]
        = some (lru2Sample.afterHits 0
            { pageId := 5, pinned := true, sequenceNums := [3] } 3)
      ∧ (lru2Sample.afterHits 0
            { pageId := 5, pinned := true, sequenceNums := [3] } 3).unpinPage 0 false
        = some
          { maxNumPages_ := 2, pageSize_ := 4096, extraSize_ := 0, numFetches_ := 4,
            numHits_ := 3, sequenceNumber := 5, cachedPages := [(5, 0)],
            heap := [some { pageId := 5, pinned := false, sequenceNums := [3, 4] }] }) := by
  have h := C8_fetch_hit_pins_without_counting lruSample lru2Sample 5 0 0
    { pageId := 5, pinned := true, sequenceNumber := 4294967295 }
    { pageId := 5, pinned := true, sequenceNums := [3] }
    (by decide) (by decide) (by decide) (by decide)
  have h1 := h.1.2.2 [true, false, true] (by decide)
  have h2 := h.2.2.2 [true, false, true] (by decide)
  exact ⟨by decide, ⟨h1.1, (h1.2.2 (by decide) (by decide)).1⟩,
    ⟨h2.1, (h2.2.2 (by decide) (by decide)).1⟩⟩

/-! ## A miss under capacity creates a page -/

/-- C9. In both caches, when `find(pageId)` misses and the number of pages is
below `maxNumPages_`, `fetchPage(pageId, true)` returns a page at an address
that held no live object before, with `pageId` as given, `pinned` true and no
stamp (LRU: `sequenceNumber` is `UINT_MAX`; LRU-2: the queue is empty).  The
directory afterwards is the old one with the one entry `pageId -> new page`
added, the number of pages has grown by one, every object that was live
before is unchanged, and `maxNumPages_`, the global stamp counter and
`numHits_` are unchanged. -/
theorem C9_fetch_miss_under_capacity_creates_page
    (s : LRUState) (t : LRU2State) (pageId : Nat)
    (hs : find s.cachedPages pageId = none) (hsc : s.getNumPages < s.maxNumPages_)
    (ht : find t.cachedPages pageId = none) (htc : t.getNumPages < t.maxNumPages_) :
    (∃ s1 : LRUState,
        s.fetchPage pageId true = some (some s.heap.length, s1)
        ∧ deref s.heap s.heap.length = none
        ∧ deref s1.heap s.heap.length
            = some { pageId := pageId, pinned := true, sequenceNumber := UINT_MAX }
        ∧ s1.cachedPages = (pageId, s.heap.length) :: s.cachedPages
        ∧ (∀ k, find s1.cachedPages k
            = if k = pageId then some s.heap.length else find s.cachedPages k)
        ∧ s1.getNumPages = s.getNumPages + 1
        ∧ (∀ c r, deref s.heap c = some r → deref s1.heap c = some r)
        ∧ s1.maxNumPages_ = s.maxNumPages_ ∧ s1.usedOrder = s.usedOrder
        ∧ s1.numHits_ = s.numHits_ ∧ s1.numFetches_ = incr64 s.numFetches_)
    ∧ (∃ t1 : LRU2State,
        t.fetchPage pageId true = some (some t.heap.length, t1)
        ∧ deref t.heap t.heap.length = none
        ∧ deref t1.heap t.heap.length
            = some { pageId := pageId, pinned := true, sequenceNums := [] }
        ∧ t1.cachedPages = (pageId, t.heap.length) :: t.cachedPages
        ∧ (∀ k, find t1.cachedPages k
            = if k = pageId then some t.heap.length else find t.cachedPages k)
        ∧ t1.getNumPages = t.getNumPages + 1
        ∧ (∀ c r, deref t.heap c = some r → deref t1.heap c = some r)
        ∧ t1.maxNumPages_ = t.maxNumPages_ ∧ t1.sequenceNumber = t.sequenceNumber
        ∧ t1.numHits_ = t.numHits_ ∧ t1.numFetches_ = incr64 t.numFetches_) := by
  constructor
  · refine ⟨_, lru_fetchPage_create s pageId hs hsc, deref_length _,
      deref_append_length _ _, rfl, fun k => find_cons _ _ _ _, ?_,
      fun c r h => deref_append _ h, rfl, rfl, rfl, rfl⟩
    simp [LRUState.getNumPages]
  · refine ⟨_, lru2_fetchPage_create t pageId ht htc, deref_length _,
      deref_append_length _ _, rfl, fun k => find_cons _ _ _ _, ?_,
      fun c r h => deref_append _ h, rfl, rfl, rfl, rfl⟩
    simp [LRU2State.getNumPages]

/-- C9 at a concrete input: capacity 2, page 5 resident at address 0, and a
fetch of id 7 in both caches. -/
theorem C9_fetch_miss_under_capacity_creates_page_witness :
    (find lruSample.cachedPages 7 = none
      ∧ lruSample.getNumPages < lruSample.maxNumPages_
      ∧ find lru2Sample.cachedPages 7 = none
      ∧ lru2Sample.getNumPages < lru2Sample.maxNumPages_)
    ∧ (∃ s1 : LRUState,
        lruSample.fetchPage 7 true = some (some 1, s1)
        ∧ deref s1.heap 1 = some { pageId := 7, pinned := true, sequenceNumber := 4294967295 }
        ∧ s1.cachedPages = [(7, 1), (5, 0)])
    ∧ (∃ t1 : LRU2State,
        lru2Sample.fetchPage 7 true = some (some 1, t1)
        ∧ deref t1.heap 1 = some { pageId := 7, pinned := true, sequenceNums := [] }
        ∧ t1.cachedPages = [(7, 1), (5, 0)]) := by
  have h := C9_fetch_miss_under_capacity_creates_page lruSample lru2Sample 7
    (by decide) (by decide) (by decide) (by decide)
  obtain ⟨⟨s1, hs1, -, hn1, hd1, -⟩, ⟨t1, ht1, -, hn2, hd2, -⟩⟩ := h
  exact ⟨by decide, ⟨s1, hs1, hn1, hd1⟩, ⟨t1, ht1, hn2, hd2⟩⟩

/-! ## Discarding a reused page -/

/-- C10 (the code diverges). `unpinPage` erases the directory entry under the
`pageId` field of the page, which victim reuse leaves stale.  In both caches,
in the state reached with capacity 1 by `fetchPage(1, true)`,
`unpinPage(p, false)`, `fetchPage(2, true)`, the page `p` (address 0) is
resident under key 2 with `pageId` 1; `unpinPage(p, true)` erases key 1, which
is absent, and deletes `p`: the entry `2 -> p` stays in the directory and the
number of pages is still 1. -/
theorem C10_discard_of_reused_page_keeps_entry :
    (LRUState.unpinPage
        { maxNumPages_ := 1, pageSize_ := 4096, extraSize_ := 0,
          numFetches_ := 2, numHits_ := 0, usedOrder := 1,
          cachedPages := [(2, 0)],
          heap := [some { pageId := 1, pinned := true, sequenceNumber := 0 }] }
        0 true
      = some
        { maxNumPages_ := 1, pageSize_ := 4096, extraSize_ := 0,
          numFetches_ := 2, numHits_ := 0, usedOrder := 1,
          cachedPages := [(2, 0)], heap := [none] })
    ∧ (LRU2State.unpinPage
        { maxNumPages_ := 1, pageSize_ := 4096, extraSize_ := 0,
          numFetches_ := 2, numHits_ := 0, sequenceNumber := 1,
          cachedPages := [(2, 0)],
          heap := [some { pageId := 1, pinned := true, sequenceNums := [0] }] }
        0 true
      = some
        { maxNumPages_ := 1, pageSize_ := 4096, extraSize_ := 0,
          numFetches_ := 2, numHits_ := 0, sequenceNumber := 1,
          cachedPages := [(2, 0)], heap := [none] })
    ∧ LRUState.getNumPages
        { maxNumPages_ := 1, pageSize_ := 4096, extraSize_ := 0,
          numFetches_ := 2, numHits_ := 0, usedOrder := 1,
          cachedPages := [(2, 0)], heap := [none] } = 1
    ∧ find [(2, 0)] 2 = some 0 := by
  decide

/-! ## The scenarios of the specification -/

/-- Scenarios 1 and 2 of the specification on the LRU cache: with capacity 3,
after fetch and unpin of ids 1, 2, 3 (addresses 0, 1, 2), `fetchPage(4, true)`
returns the page at address 0, which held id 1; after a hit on id 2,
`fetchPage(5, true)` returns the page at address 2, which held id 3. -/
theorem lru_scenarios_1_2 :
    (((LRUState.init 4096 0 0).run
        [Op.setMaxNumPages 3, Op.fetchPage 1 true, Op.unpinPage 0 false,
         Op.fetchPage 2 true, Op.unpinPage 1 false,
         Op.fetchPage 3 true, Op.unpinPage 2 false]).bind
        fun s => (s.fetchPage 4 true).map Prod.fst) = some (some 0)
    ∧ (((LRUState.init 4096 0 0).run
        [Op.setMaxNumPages 3, Op.fetchPage 1 true, Op.unpinPage 0 false,
         Op.fetchPage 2 true, Op.unpinPage 1 false,
         Op.fetchPage 3 true, Op.unpinPage 2 false,
         Op.fetchPage 4 true, Op.fetchPage 2 true]).bind
        fun s => s.fetchPage 5 true)
      = some (some 2,
          { maxNumPages_ := 3, pageSize_ := 4096, extraSize_ := 0,
            numFetches_ := 6, numHits_ := 1, usedOrder := 3,
            cachedPages := [(5, 2), (4, 0), (2, 1)],
            heap := [some { pageId := 1, pinned := true, sequenceNumber := 0 },
                     some { pageId := 2, pinned := true, sequenceNumber := 1 },
                     some { pageId := 3, pinned := true, sequenceNumber := 2 }] }) := by
  decide

/-- Scenarios 4, 5 and 6 of the specification on the LRU-2 cache: with
capacity 3, page 1 (address 0) unpinned twice and pages 2 and 3 (addresses 1
and 2) unpinned once, `fetchPage(4, true)` returns address 1 and then
`fetchPage(5, true)` returns address 2; after the unpins and fetches of
scenario 6 every page has two stamps and `fetchPage(6, true)` returns
address 0. -/
theorem lru2_scenarios_4_5_6 :
    (((LRU2State.init 4096 0 0).run
        [Op.setMaxNumPages 3, Op.fetchPage 1 true, Op.unpinPage 0 false,
         Op.fetchPage 1 true, Op.unpinPage 0 false,
         Op.fetchPage 2 true, Op.unpinPage 1 false,
         Op.fetchPage 3 true, Op.unpinPage 2 false]).bind
        fun s => (s.fetchPage 4 true).map Prod.fst) = some (some 1)
    ∧ (((LRU2State.init 4096 0 0).run
        [Op.setMaxNumPages 3, Op.fetchPage 1 true, Op.unpinPage 0 false,
         Op.fetchPage 1 true, Op.unpinPage 0 false,
         Op.fetchPage 2 true, Op.unpinPage 1 false,
         Op.fetchPage 3 true, Op.unpinPage 2 false,
         Op.fetchPage 4 true]).bind
        fun s => (s.fetchPage 5 true).map Prod.fst) = some (some 2)
    ∧ (((LRU2State.init 4096 0 0).run
        [Op.setMaxNumPages 3, Op.fetchPage 1 true, Op.unpinPage 0 false,
         Op.fetchPage 1 true, Op.unpinPage 0 false,
         Op.fetchPage 2 true, Op.unpinPage 1 false,
         Op.fetchPage 3 true, Op.unpinPage 2 false,
         Op.fetchPage 4 true, Op.fetchPage 5 true,
         Op.unpinPage 1 false, Op.unpinPage 2 false,
         Op.fetchPage 4 true, Op.unpinPage 1 false,
         Op.fetchPage 5 true, Op.unpinPage 2 false]).bind
        fun s => s.fetchPage 6 true)
      = some (some 0,
          { maxNumPages_ := 3, pageSize_ := 4096, extraSize_ := 0,
            numFetches_ := 9, numHits_ := 3, sequenceNumber := 8,
            cachedPages := [(6, 0), (5, 2), (4, 1)],
            heap := [some { pageId := 1, pinned := true, sequenceNums := [0, 1] },
                     some { pageId := 2, pinned := false, sequenceNums := [4, 6] },
                     some { pageId := 3, pinned := false, sequenceNums := [5, 7] }] }) := by
  decide

/-! ## `discardPages` and the `pageId` field -/

/-- C12 (the code diverges). `discardPages` compares the `pageId` field of each
page, which victim reuse leaves stale, with the limit, not the key of the
entry.  In scenario 3 of the specification on the LRU cache the directory
before the call has the keys 5, 4, 2 and `discardPages(3)` leaves the keys 4
and 2: the page under key 4 has `pageId` 1 and stays.  In the other direction,
with capacity 1, a page created for id 5 and reused for id 1 is removed by
`discardPages(3)` although its key is 1. -/
theorem C12_discardPages_compares_stale_pageId :
    ((LRUState.init 4096 0 0).run
        [Op.setMaxNumPages 3, Op.fetchPage 1 true, Op.unpinPage 0 false,
         Op.fetchPage 2 true, Op.unpinPage 1 false,
         Op.fetchPage 3 true, Op.unpinPage 2 false,
         Op.fetchPage 4 true, Op.fetchPage 2 true, Op.fetchPage 5 true]
      = some
        { maxNumPages_ := 3, pageSize_ := 4096, extraSize_ := 0,
          numFetches_ := 6, numHits_ := 1, usedOrder := 3,
          cachedPages := [(5, 2), (4, 0), (2, 1)],
          heap := [some { pageId := 1, pinned := true, sequenceNumber := 0 },
                   some { pageId := 2, pinned := true, sequenceNumber := 1 },
                   some { pageId := 3, pinned := true, sequenceNumber := 2 }] }
      ∧ LRUState.discardPages
        { maxNumPages_ := 3, pageSize_ := 4096, extraSize_ := 0,
          numFetches_ := 6, numHits_ := 1, usedOrder := 3,
          cachedPages := [(5, 2), (4, 0), (2, 1)],
          heap := [some { pageId := 1, pinned := true, sequenceNumber := 0 },
                   some { pageId := 2, pinned := true, sequenceNumber := 1 },
                   some { pageId := 3, pinned := true, sequenceNumber := 2 }] }
        3
      = some
        { maxNumPages_ := 3, pageSize_ := 4096, extraSize_ := 0,
          numFetches_ := 6, numHits_ := 1, usedOrder := 3,
          cachedPages := [(4, 0), (2, 1)],
          heap := [some { pageId := 1, pinned := true, sequenceNumber := 0 },
                   some { pageId := 2, pinned := true, sequenceNumber := 1 },
                   none] })
    ∧ ((LRU2State.init 4096 0 0).run
        [Op.setMaxNumPages 1, Op.fetchPage 5 true, Op.unpinPage 0 false,
         Op.fetchPage 1 true]
      = some
        { maxNumPages_ := 1, pageSize_ := 4096, extraSize_ := 0,
          numFetches_ := 2, numHits_ := 0, sequenceNumber := 1,
          cachedPages := [(1, 0)],
          heap := [some { pageId := 5, pinned := true, sequenceNums := [0] }] }
      ∧ LRU2State.discardPages
        { maxNumPages_ := 1, pageSize_ := 4096, extraSize_ := 0,
          numFetches_ := 2, numHits_ := 0, sequenceNumber := 1,
          cachedPages := [(1, 0)],
          heap := [some { pageId := 5, pinned := true, sequenceNums := [0] }] }
        3
      = some
        { maxNumPages_ := 1, pageSize_ := 4096, extraSize_ := 0,
          numFetches_ := 2, numHits_ := 0, sequenceNumber := 1,
          cachedPages := [], heap := [none] }) := by
  decide

/-! ## `changePageId` onto a resident id -/

/-- C13 (the code diverges). When `newPageId` is in the directory,
`changePageId` erases that entry and then reads the page pointer through the
iterator it has just invalidated.  In both caches, with capacity 2, page 1
(address 0) pinned and page 2 (address 1) unpinned, each resident under its
own `pageId`, `changePageId(p, 2)` on the page at address 0 has no defined
result.  In the LRU cache the same holds for a page that victim reuse and an
earlier `changePageId` have left in the directory under the keys 7 and 2 with
`pageId` 7: in `changePageId(p, 2)` the page found under the new id is `p`
itself. -/
theorem C13_changePageId_collision_undefined :
    ((LRUState.init 4096 0 0).run
        [Op.setMaxNumPages 2, Op.fetchPage 1 true, Op.fetchPage 2 true,
         Op.unpinPage 1 false]
      = some
        { maxNumPages_ := 2, pageSize_ := 4096, extraSize_ := 0,
          numFetches_ := 2, numHits_ := 0, usedOrder := 1,
          cachedPages := [(2, 1), (1, 0)],
          heap := [some { pageId := 1, pinned := true, sequenceNumber := 4294967295 },
                   some { pageId := 2, pinned := false, sequenceNumber := 0 }] }
      ∧ LRUState.changePageId
        { maxNumPages_ := 2, pageSize_ := 4096, extraSize_ := 0,
          numFetches_ := 2, numHits_ := 0, usedOrder := 1,
          cachedPages := [(2, 1), (1, 0)],
          heap := [some { pageId := 1, pinned := true, sequenceNumber := 4294967295 },
                   some { pageId := 2, pinned := false, sequenceNumber := 0 }] }
        0 2 = none)
    ∧ ((LRU2State.init 4096 0 0).run
        [Op.setMaxNumPages 2, Op.fetchPage 1 true, Op.fetchPage 2 true,
         Op.unpinPage 1 false]
      = some
        { maxNumPages_ := 2, pageSize_ := 4096, extraSize_ := 0,
          numFetches_ := 2, numHits_ := 0, sequenceNumber := 1,
          cachedPages := [(2, 1), (1, 0)],
          heap := [some { pageId := 1, pinned := true, sequenceNums := [] },
                   some { pageId := 2, pinned := false, sequenceNums := [0] }] }
      ∧ LRU2State.changePageId
        { maxNumPages_ := 2, pageSize_ := 4096, extraSize_ := 0,
          numFetches_ := 2, numHits_ := 0, sequenceNumber := 1,
          cachedPages := [(2, 1), (1, 0)],
          heap := [some { pageId := 1, pinned := true, sequenceNums := [] },
                   some { pageId := 2, pinned := false, sequenceNums := [0] }] }
        0 2 = none)
    ∧ ((LRUState.init 4096 0 0).run
        [Op.setMaxNumPages 1, Op.fetchPage 1 true, Op.unpinPage 0 false,
         Op.fetchPage 2 true, Op.changePageId 0 7]
      = some
        { maxNumPages_ := 1, pageSize_ := 4096, extraSize_ := 0,
          numFetches_ := 2, numHits_ := 0, usedOrder := 1,
          cachedPages := [(7, 0), (2, 0)],
          heap := [some { pageId := 7, pinned := true, sequenceNumber := 0 }] }
      ∧ find [(7, 0), (2, 0)] 2 = some 0
      ∧ LRUState.changePageId
        { maxNumPages_ := 1, pageSize_ := 4096, extraSize_ := 0,
          numFetches_ := 2, numHits_ := 0, usedOrder := 1,
          cachedPages := [(7, 0), (2, 0)],
          heap := [some { pageId := 7, pinned := true, sequenceNumber := 0 }] }
        0 2 = none) := by
  decide

/-! ## `setMaxNumPages` after a discard of a reused page -/

/-- C14 (the code diverges). In both caches, with capacity 1, after
`fetchPage(1, true)`, `unpinPage(p, false)`, `fetchPage(2, true)` (reuse of
`p`) and `unpinPage(p, true)`, the page is deleted but its entry is still in
the directory; `setMaxNumPages(0)` then finds the size 1 above the limit and
reads `pinned` of the deleted page: the call has no defined result. -/
theorem C14_setMaxNumPages_reads_deleted_page :
    ((LRUState.init 4096 0 0).run
        [Op.setMaxNumPages 1, Op.fetchPage 1 true, Op.unpinPage 0 false,
         Op.fetchPage 2 true, Op.unpinPage 0 true]
      = some
        { maxNumPages_ := 1, pageSize_ := 4096, extraSize_ := 0,
          numFetches_ := 2, numHits_ := 0, usedOrder := 1,
          cachedPages := [(2, 0)], heap := [none] }
      ∧ LRUState.setMaxNumPages
        { maxNumPages_ := 1, pageSize_ := 4096, extraSize_ := 0,
          numFetches_ := 2, numHits_ := 0, usedOrder := 1,
          cachedPages := [(2, 0)], heap := [none] } 0 = none)
    ∧ ((LRU2State.init 4096 0 0).run
        [Op.setMaxNumPages 1, Op.fetchPage 1 true, Op.unpinPage 0 false,
         Op.fetchPage 2 true, Op.unpinPage 0 true]
      = some
        { maxNumPages_ := 1, pageSize_ := 4096, extraSize_ := 0,
          numFetches_ := 2, numHits_ := 0, sequenceNumber := 1,
          cachedPages := [(2, 0)], heap := [none] }
      ∧ LRU2State.setMaxNumPages
        { maxNumPages_ := 1, pageSize_ := 4096, extraSize_ := 0,
          numFetches_ := 2, numHits_ := 0, sequenceNumber := 1,
          cachedPages := [(2, 0)], heap := [none] } 0 = none) := by
  decide

/-! ## The page count and `maxNumPages_` -/

/-- C16 (the code diverges). `changePageId` erases the directory entry under
the `pageId` field of the page; for a reused page that key is stale, nothing
is erased, and the page gets a second entry.  In both caches, with capacity 2:
`fetchPage(1, true)`, `unpinPage(p, false)`, `fetchPage(2, true)` (page `q`),
`fetchPage(3, true)` (reuse of `p`), `unpinPage(q, false)`,
`changePageId(p, 7)`.  Afterwards the directory has three entries, above
`maxNumPages_` = 2, and `q` is resident and unpinned. -/
theorem C16_page_count_above_max_with_unpinned_page :
    ((LRUState.init 4096 0 0).run
        [Op.setMaxNumPages 2, Op.fetchPage 1 true, Op.unpinPage 0 false,
         Op.fetchPage 2 true, Op.fetchPage 3 true, Op.unpinPage 1 false,
         Op.changePageId 0 7]
      = some
        { maxNumPages_ := 2, pageSize_ := 4096, extraSize_ := 0,
          numFetches_ := 3, numHits_ := 0, usedOrder := 2,
          cachedPages := [(7, 0), (3, 0), (2, 1)],
          heap := [some { pageId := 7, pinned := true, sequenceNumber := 0 },
                   some { pageId := 2, pinned := false, sequenceNumber := 1 }] }
      ∧ LRUState.getNumPages
        { maxNumPages_ := 2, pageSize_ := 4096, extraSize_ := 0,
          numFetches_ := 3, numHits_ := 0, usedOrder := 2,
          cachedPages := [(7, 0), (3, 0), (2, 1)],
          heap := [some { pageId := 7, pinned := true, sequenceNumber := 0 },
                   some { pageId := 2, pinned := false, sequenceNumber := 1 }] } = 3)
    ∧ ((LRU2State.init 4096 0 0).run
        [Op.setMaxNumPages 2, Op.fetchPage 1 true, Op.unpinPage 0 false,
         Op.fetchPage 2 true, Op.fetchPage 3 true, Op.unpinPage 1 false,
         Op.changePageId 0 7]
      = some
        { maxNumPages_ := 2, pageSize_ := 4096, extraSize_ := 0,
          numFetches_ := 3, numHits_ := 0, sequenceNumber := 2,
          cachedPages := [(7, 0), (3, 0), (2, 1)],
          heap := [some { pageId := 7, pinned := true, sequenceNums := [0] },
                   some { pageId := 2, pinned := false, sequenceNums := [1] }] }
      ∧ LRU2State.getNumPages
        { maxNumPages_ := 2, pageSize_ := 4096, extraSize_ := 0,
          numFetches_ := 3, numHits_ := 0, sequenceNumber := 2,
          cachedPages := [(7, 0), (3, 0), (2, 1)],
          heap := [some { pageId := 7, pinned := true, sequenceNums := [0] },
                   some { pageId := 2, pinned := false, sequenceNums := [1] }] } = 3) := by
  decide

/-! ## Capacity zero -/

/-- C17 (the code diverges). In both caches: `setMaxNumPages(1)`,
`fetchPage(1, true)`, `unpinPage(p, false)`, `fetchPage(2, true)` (reuse of
`p`), `setMaxNumPages(0)` (the pinned `p` stays), `unpinPage(p, false)` (the
size 1 is above the limit 0, so `p` is discarded: key 1 is erased, which is
absent, and `p` is deleted).  The state has `maxNumPages_` = 0 and the
directory still holds the deleted page under key 2; `fetchPage(3, true)`
reads that page in its victim search: the call has no defined result. -/
theorem C17_fetch_at_capacity_zero_reads_deleted_page :
    ((LRUState.init 4096 0 0).run
        [Op.setMaxNumPages 1, Op.fetchPage 1 true, Op.unpinPage 0 false,
         Op.fetchPage 2 true, Op.setMaxNumPages 0, Op.unpinPage 0 false]
      = some
        { maxNumPages_ := 0, pageSize_ := 4096, extraSize_ := 0,
          numFetches_ := 2, numHits_ := 0, usedOrder := 1,
          cachedPages := [(2, 0)], heap := [none] }
      ∧ LRUState.fetchPage
        { maxNumPages_ := 0, pageSize_ := 4096, extraSize_ := 0,
          numFetches_ := 2, numHits_ := 0, usedOrder := 1,
          cachedPages := [(2, 0)], heap := [none] } 3 true = none)
    ∧ ((LRU2State.init 4096 0 0).run
        [Op.setMaxNumPages 1, Op.fetchPage 1 true, Op.unpinPage 0 false,
         Op.fetchPage 2 true, Op.setMaxNumPages 0, Op.unpinPage 0 false]
      = some
        { maxNumPages_ := 0, pageSize_ := 4096, extraSize_ := 0,
          numFetches_ := 2, numHits_ := 0, sequenceNumber := 1,
          cachedPages := [(2, 0)], heap := [none] }
      ∧ LRU2State.fetchPage
        { maxNumPages_ := 0, pageSize_ := 4096, extraSize_ := 0,
          numFetches_ := 2, numHits_ := 0, sequenceNumber := 1,
          cachedPages := [(2, 0)], heap := [none] } 3 true = none) := by
  decide

/-! ## Fetch followed by discard -/

/-- C18, counterexample.  On a hit the fetch leaves the number of pages
unchanged and the discard removes the page.  In both caches, with capacity 1
and page 1 resident (address 0), `fetchPage(1, true)` returns that page and
`unpinPage(p, true)` leaves no page, where there was one before the fetch. -/
theorem C18_hit_then_discard_loses_a_page :
    ((LRUState.init 4096 0 0).run [Op.setMaxNumPages 1, Op.fetchPage 1 true]
      = some
        { maxNumPages_ := 1, pageSize_ := 4096, extraSize_ := 0,
          numFetches_ := 1, numHits_ := 0, usedOrder := 0,
          cachedPages := [(1, 0)],
          heap := [some { pageId := 1, pinned := true, sequenceNumber := 4294967295 }] }
      ∧ LRUState.fetchPage
        { maxNumPages_ := 1, pageSize_ := 4096, extraSize_ := 0,
          numFetches_ := 1, numHits_ := 0, usedOrder := 0,
          cachedPages := [(1, 0)],
          heap := [some { pageId := 1, pinned := true, sequenceNumber := 4294967295 }] }
        1 true
      = some (some 0,
        { maxNumPages_ := 1, pageSize_ := 4096, extraSize_ := 0,
          numFetches_ := 2, numHits_ := 1, usedOrder := 0,
          cachedPages := [(1, 0)],
          heap := [some { pageId := 1, pinned := true, sequenceNumber := 4294967295 }] })
      ∧ LRUState.unpinPage
        { maxNumPages_ := 1, pageSize_ := 4096, extraSize_ := 0,
          numFetches_ := 2, numHits_ := 1, usedOrder := 0,
          cachedPages := [(1, 0)],
          heap := [some { pageId := 1, pinned := true, sequenceNumber := 4294967295 }] }
        0 true
      = some
        { maxNumPages_ := 1, pageSize_ := 4096, extraSize_ := 0,
          numFetches_ := 2, numHits_ := 1, usedOrder := 0,
          cachedPages := [], heap := [none] })
    ∧ ((LRU2State.init 4096 0 0).run [Op.setMaxNumPages 1, Op.fetchPage 1 true]
      = some
        { maxNumPages_ := 1, pageSize_ := 4096, extraSize_ := 0,
          numFetches_ := 1, numHits_ := 0, sequenceNumber := 0,
          cachedPages := [(1, 0)],
          heap := [some { pageId := 1, pinned := true, sequenceNums := [] }] }
      ∧ LRU2State.fetchPage
        { maxNumPages_ := 1, pageSize_ := 4096, extraSize_ := 0,
          numFetches_ := 1, numHits_ := 0, sequenceNumber := 0,
          cachedPages := [(1, 0)],
          heap := [some { pageId := 1, pinned := true, sequenceNums := [] }] }
        1 true
      = some (some 0,
        { maxNumPages_ := 1, pageSize_ := 4096, extraSize_ := 0,
          numFetches_ := 2, numHits_ := 1, sequenceNumber := 0,
          cachedPages := [(1, 0)],
          heap := [some { pageId := 1, pinned := true, sequenceNums := [] }] })
      ∧ LRU2State.unpinPage
        { maxNumPages_ := 1, pageSize_ := 4096, extraSize_ := 0,
          numFetches_ := 2, numHits_ := 1, sequenceNumber := 0,
          cachedPages := [(1, 0)],
          heap := [some { pageId := 1, pinned := true, sequenceNums := [] }] }
        0 true
      = some
        { maxNumPages_ := 1, pageSize_ := 4096, extraSize_ := 0,
          numFetches_ := 2, numHits_ := 1, sequenceNumber := 0,
          cachedPages := [], heap := [none] }) := by
  decide

/-- C18, as amended.  In both caches, when `find(pageId)` misses and the
number of pages is below `maxNumPages_`, `fetchPage(pageId, true)` creates a
page and `unpinPage` of that page with `discard` true immediately afterwards
restores the directory, and so the number of pages, to what it was before the
fetch; the new page is deleted. -/
theorem C18_create_then_discard_restores_page_count
    (s : LRUState) (t : LRU2State) (pageId : Nat)
    (hs : find s.cachedPages pageId = none) (hsc : s.getNumPages < s.maxNumPages_)
    (ht : find t.cachedPages pageId = none) (htc : t.getNumPages < t.maxNumPages_) :
    (∃ s1 s2 : LRUState,
        s.fetchPage pageId true = some (some s.heap.length, s1)
        ∧ s1.getNumPages = s.getNumPages + 1
        ∧ s1.unpinPage s.heap.length true = some s2
        ∧ s2.cachedPages = s.cachedPages
        ∧ s2.getNumPages = s.getNumPages
        ∧ deref s2.heap s.heap.length = none)
    ∧ (∃ t1 t2 : LRU2State,
        t.fetchPage pageId true = some (some t.heap.length, t1)
        ∧ t1.getNumPages = t.getNumPages + 1
        ∧ t1.unpinPage t.heap.length true = some t2
        ∧ t2.cachedPages = t.cachedPages
        ∧ t2.getNumPages = t.getNumPages
        ∧ deref t2.heap t.heap.length = none) := by
  constructor
  · refine ⟨_,
      { s with numFetches_ := incr64 s.numFetches_,
               heap := free (s.heap ++
                 [some { pageId := pageId, pinned := true, sequenceNumber := UINT_MAX }])
                 s.heap.length },
      lru_fetchPage_create s pageId hs hsc, ?_, ?_, ?_, ?_, ?_⟩
    · simp [LRUState.getNumPages]
    · simp [LRUState.unpinPage, deref_append_length, eraseKey]
    · rfl
    · rfl
    · simp [deref, free, List.getD_eq_getElem?_getD, List.getElem?_set]
  · refine ⟨_,
      { t with numFetches_ := incr64 t.numFetches_,
               heap := free (t.heap ++
                 [some { pageId := pageId, pinned := true, sequenceNums := [] }])
                 t.heap.length },
      lru2_fetchPage_create t pageId ht htc, ?_, ?_, ?_, ?_, ?_⟩
    · simp [LRU2State.getNumPages]
    · simp [LRU2State.unpinPage, deref_append_length, eraseKey]
    · rfl
    · rfl
    · simp [deref, free, List.getD_eq_getElem?_getD, List.getElem?_set]

/-- C18 as amended, at a concrete input: capacity 2, page 5 resident at address
0, and a fetch of id 7 followed by the discard of the new page at address 1,
in both caches. -/
theorem C18_create_then_discard_restores_page_count_witness :
    (find lruSample.cachedPages 7 = none
      ∧ lruSample.getNumPages < lruSample.maxNumPages_
      ∧ find lru2Sample.cachedPages 7 = none
      ∧ lru2Sample.getNumPages < lru2Sample.maxNumPages_)
    ∧ (∃ s1 s2 : LRUState,
        lruSample.fetchPage 7 true = some (some 1, s1)
        ∧ s1.unpinPage 1 true = some s2
        ∧ s2.getNumPages = 1)
    ∧ (∃ t1 t2 : LRU2State,
        lru2Sample.fetchPage 7 true = some (some 1, t1)
        ∧ t1.unpinPage 1 true = some t2
        ∧ t2.getNumPages = 1) := by
  have h := C18_create_then_discard_restores_page_count lruSample lru2Sample 7
    (by decide) (by decide) (by decide) (by decide)
  obtain ⟨⟨s1, s2, h1, -, h2, -, h3, -⟩, ⟨t1, t2, k1, -, k2, -, k3, -⟩⟩ := h
  exact ⟨by decide, ⟨s1, s2, h1, h2, h3⟩, ⟨t1, t2, k1, k2, k3⟩⟩

/-! ## The effect of each operation on the heap -/

theorem deref_free {α : Type} (heap : List (Option α)) (a b : Nat) (p : α)
    (h : deref (free heap a) b = some p) : deref heap b = some p ∧ b ≠ a := by
  by_cases hab : a = b
  · subst hab
    exfalso
    by_cases hl : a < heap.length
    · simp [deref, free, List.getD_eq_getElem?_getD, List.getElem?_set, hl] at h
    · simp [deref, free, List.getD_eq_getElem?_getD, List.getElem?_set, hl] at h
  · simp only [deref, free, List.getD_eq_getElem?_getD, List.getElem?_set, hab, if_false] at h
    exact ⟨by simpa [deref, List.getD_eq_getElem?_getD] using h, fun e => hab e.symm⟩

theorem deref_free_other {α : Type} (heap : List (Option α)) {a b : Nat} (h : a ≠ b) :
    deref (free heap a) b = deref heap b := by
  simp [deref, free, List.getD_eq_getElem?_getD, List.getElem?_set, h]

theorem deref_free_same {α : Type} (heap : List (Option α)) (a : Nat) :
    deref (free heap a) a = none := by
  by_cases hl : a < heap.length
  · simp [deref, free, List.getD_eq_getElem?_getD, List.getElem?_set, hl]
  · simp [deref, free, List.getD_eq_getElem?_getD, List.getElem?_set, hl]

theorem deref_store_cases {α : Type} (heap : List (Option α)) (a b : Nat) (x p : α)
    (h : deref (store heap a x) b = some p) : (b = a ∧ p = x) ∨ deref heap b = some p := by
  by_cases hab : a = b
  · subst hab
    by_cases hl : a < heap.length
    · rw [deref_store_same x hl] at h
      exact Or.inl ⟨rfl, (Option.some.inj h).symm⟩
    · exfalso
      simp [deref, store, List.getD_eq_getElem?_getD, List.getElem?_set, hl] at h
  · rw [deref_store_other heap x hab] at h
    exact Or.inr h

theorem deref_append_cases {α : Type} (heap : List (Option α)) (b : Nat) (x p : α)
    (h : deref (heap ++ [some x]) b = some p) :
    (b = heap.length ∧ p = x) ∨ deref heap b = some p := by
  rcases Nat.lt_trichotomy b heap.length with hlt | heq | hgt
  · right
    simp only [deref, List.getD_eq_getElem?_getD] at h ⊢
    rwa [List.getElem?_append_left hlt] at h
  · left
    subst heq
    rw [deref_append_length] at h
    exact ⟨rfl, (Option.some.inj h).symm⟩
  · exfalso
    have : (heap ++ [some x]).length ≤ b := by simp; omega
    simp [deref, List.getD_eq_getElem?_getD, List.getElem?_eq_none this] at h

theorem lru_setMaxLoop_heap (n : Int) (heap : List (Option LRUReplacementPage))
    (rest kept m : Directory) (heap1 : List (Option LRUReplacementPage))
    (h : LRUState.setMaxLoop n heap rest kept = some (m, heap1)) :
    ∀ a p, deref heap1 a = some p → deref heap a = some p := by
  induction rest generalizing heap kept with
  | nil =>
    simp only [LRUState.setMaxLoop, Option.some.injEq, Prod.mk.injEq] at h
    obtain ⟨-, rfl⟩ := h
    exact fun a p hp => hp
  | cons e rest ih =>
    unfold LRUState.setMaxLoop at h
    split at h
    · simp only [Option.some.injEq, Prod.mk.injEq] at h
      obtain ⟨-, rfl⟩ := h
      exact fun a p hp => hp
    · split at h
      · cases h
      · split at h
        · intro a p hp
          exact (deref_free _ _ _ _ (ih _ _ h a p hp)).1
        · exact ih _ _ h

theorem lru_discardLoop_heap (limit : Nat) (m m1 : Directory)
    (heap heap1 : List (Option LRUReplacementPage))
    (h : LRUState.discardLoop limit m heap = some (m1, heap1)) :
    ∀ a p, deref heap1 a = some p → deref heap a = some p := by
  induction m generalizing heap m1 with
  | nil =>
    simp only [LRUState.discardLoop, Option.some.injEq, Prod.mk.injEq] at h
    obtain ⟨-, rfl⟩ := h
    exact fun a p hp => hp
  | cons e rest ih =>
    unfold LRUState.discardLoop at h
    split at h
    · cases h
    · split at h
      · intro a p hp
        exact (deref_free _ _ _ _ (ih _ _ h a p hp)).1
      · split at h
        · cases h
        · rename_i heq
          simp only [Option.some.injEq, Prod.mk.injEq] at h
          obtain ⟨-, rfl⟩ := h
          exact ih _ _ heq

theorem lru2_setMaxLoop_heap (n : Int) (heap : List (Option LRU2ReplacementPage))
    (rest kept m : Directory) (heap1 : List (Option LRU2ReplacementPage))
    (h : LRU2State.setMaxLoop n heap rest kept = some (m, heap1)) :
    ∀ a p, deref heap1 a = some p → deref heap a = some p := by
  induction rest generalizing heap kept with
  | nil =>
    simp only [LRU2State.setMaxLoop, Option.some.injEq, Prod.mk.injEq] at h
    obtain ⟨-, rfl⟩ := h
    exact fun a p hp => hp
  | cons e rest ih =>
    unfold LRU2State.setMaxLoop at h
    split at h
    · simp only [Option.some.injEq, Prod.mk.injEq] at h
      obtain ⟨-, rfl⟩ := h
      exact fun a p hp => hp
    · split at h
      · cases h
      · split at h
        · intro a p hp
          exact (deref_free _ _ _ _ (ih _ _ h a p hp)).1
        · exact ih _ _ h

theorem lru2_discardLoop_heap (limit : Nat) (m m1 : Directory)
    (heap heap1 : List (Option LRU2ReplacementPage))
    (h : LRU2State.discardLoop limit m heap = some (m1, heap1)) :
    ∀ a p, deref heap1 a = some p → deref heap a = some p := by
  induction m generalizing heap m1 with
  | nil =>
    simp only [LRU2State.discardLoop, Option.some.injEq, Prod.mk.injEq] at h
    obtain ⟨-, rfl⟩ := h
    exact fun a p hp => hp
  | cons e rest ih =>
    unfold LRU2State.discardLoop at h
    split at h
    · cases h
    · split at h
      · intro a p hp
        exact (deref_free _ _ _ _ (ih _ _ h a p hp)).1
      · split at h
        · cases h
        · rename_i heq
          simp only [Option.some.injEq, Prod.mk.injEq] at h
          obtain ⟨-, rfl⟩ := h
          exact ih _ _ heq

/-! ## The shape of a defined result -/


/-- The shape of a defined result of `fetchPage` in the LRU cache: the
counters, the directory and the heap are the only fields that can differ; the
heap is unchanged, or has one live page pinned, or has one new pinned page
without a stamp appended. -/
theorem lru_fetchPage_shape (s s1 : LRUState) (pageId : Nat) (allocate : Bool)
    (r : Option Nat) (h : s.fetchPage pageId allocate = some (r, s1)) :
    s1 = { s with numFetches_ := incr64 s.numFetches_,
                  numHits_ := (if (find s.cachedPages pageId).isSome
                    then incr64 s.numHits_ else s.numHits_),
                  cachedPages := s1.cachedPages, heap := s1.heap }
      ∧ (s1.heap = s.heap
          ∨ (∃ a p, deref s.heap a = some p ∧ s1.heap = store s.heap a { p with pinned := true })
          ∨ s1.heap = s.heap ++
              [some { pageId := pageId, pinned := true, sequenceNumber := UINT_MAX }]) := by
  unfold LRUState.fetchPage at h
  simp only at h
  split at h
  · split at h
    · cases h
    · simp only [Option.some.injEq, Prod.mk.injEq] at h
      obtain ⟨-, rfl⟩ := h
      refine ⟨by simp [*], Or.inr (Or.inl ⟨_, _, by assumption, rfl⟩)⟩
  · split at h
    · split at h
      · simp only [Option.some.injEq, Prod.mk.injEq] at h
        obtain ⟨-, rfl⟩ := h
        refine ⟨by simp [*], Or.inr (Or.inr ?_)⟩
        simp [LRUReplacementPage.new, sentinel_eq]
      · split at h
        · cases h
        · split at h
          · split at h
            · cases h
            · split at h
              · cases h
              · split at h
                · cases h
                · simp only [Option.some.injEq, Prod.mk.injEq] at h
                  obtain ⟨-, rfl⟩ := h
                  refine ⟨by simp [*], Or.inr (Or.inl ⟨_, _, by assumption, rfl⟩)⟩
          · simp only [Option.some.injEq, Prod.mk.injEq] at h
            obtain ⟨-, rfl⟩ := h
            exact ⟨by simp [*], Or.inl rfl⟩
    · simp only [Option.some.injEq, Prod.mk.injEq] at h
      obtain ⟨-, rfl⟩ := h
      exact ⟨by simp [*], Or.inl rfl⟩

theorem lru2_reuse_shape (s0 s1 : LRU2State) (pageId : Nat) (x r : Option Nat)
    (h : LRU2State.reuse s0 pageId x = some (r, s1)) :
    s1 = { s0 with cachedPages := s1.cachedPages, heap := s1.heap }
      ∧ ∃ a p, deref s0.heap a = some p ∧ s1.heap = store s0.heap a { p with pinned := true } := by
  unfold LRU2State.reuse at h
  split at h
  · cases h
  · split at h
    · cases h
    · split at h
      · cases h
      · simp only [Option.some.injEq, Prod.mk.injEq] at h
        obtain ⟨-, rfl⟩ := h
        exact ⟨rfl, _, _, by assumption, rfl⟩

/-- The shape of a defined result of `fetchPage` in the LRU-2 cache. -/
theorem lru2_fetchPage_shape (s s1 : LRU2State) (pageId : Nat) (allocate : Bool)
    (r : Option Nat) (h : s.fetchPage pageId allocate = some (r, s1)) :
    s1 = { s with numFetches_ := incr64 s.numFetches_,
                  numHits_ := (if (find s.cachedPages pageId).isSome
                    then incr64 s.numHits_ else s.numHits_),
                  cachedPages := s1.cachedPages, heap := s1.heap }
      ∧ (s1.heap = s.heap
          ∨ (∃ a p, deref s.heap a = some p ∧ s1.heap = store s.heap a { p with pinned := true })
          ∨ s1.heap = s.heap ++
              [some { pageId := pageId, pinned := true, sequenceNums := [] }]) := by
  unfold LRU2State.fetchPage at h
  simp only at h
  split at h
  · split at h
    · cases h
    · simp only [Option.some.injEq, Prod.mk.injEq] at h
      obtain ⟨-, rfl⟩ := h
      refine ⟨by simp [*], Or.inr (Or.inl ⟨_, _, by assumption, rfl⟩)⟩
  · rename_i hf
    split at h
    · split at h
      · simp only [Option.some.injEq, Prod.mk.injEq] at h
        obtain ⟨-, rfl⟩ := h
        refine ⟨by simp [*], Or.inr (Or.inr ?_)⟩
        simp [LRU2ReplacementPage.new]
      · split at h
        · cases h
        · split at h
          · simp only [Option.some.injEq, Prod.mk.injEq] at h
            obtain ⟨-, rfl⟩ := h
            exact ⟨by simp [*], Or.inl rfl⟩
          · split at h
            · split at h
              · cases h
              · cases h
              · split at h
                · cases h
                · simp only [Option.some.injEq, Prod.mk.injEq] at h
                  obtain ⟨-, rfl⟩ := h
                  refine ⟨by simp [*], Or.inr (Or.inl ⟨_, _, by assumption, rfl⟩)⟩
            · split at h
              · split at h
                · cases h
                · obtain ⟨h1, a, p, h2, h3⟩ := lru2_reuse_shape _ _ _ _ _ h
                  refine ⟨?_, Or.inr (Or.inl ⟨a, p, h2, h3⟩)⟩
                  rw [h1]
                  simp [hf]
              · split at h
                · cases h
                · obtain ⟨h1, a, p, h2, h3⟩ := lru2_reuse_shape _ _ _ _ _ h
                  refine ⟨?_, Or.inr (Or.inl ⟨a, p, h2, h3⟩)⟩
                  rw [h1]
                  simp [hf]
    · simp only [Option.some.injEq, Prod.mk.injEq] at h
      obtain ⟨-, rfl⟩ := h
      exact ⟨by simp [*], Or.inl rfl⟩

theorem lru_unpinPage_shape (s s1 : LRUState) (a : Nat) (discard : Bool)
    (h : s.unpinPage a discard = some s1) :
    ∃ p, deref s.heap a = some p
      ∧ ((s1 = { s with cachedPages := eraseKey s.cachedPages p.pageId, heap := free s.heap a }
            ∧ (discard = true ∨ s.getNumPages > s.maxNumPages_))
          ∨ (discard = false ∧ s.getNumPages ≤ s.maxNumPages_ ∧ s.usedOrder ≠ INT_MAX
              ∧ s1 = { s with
                  heap := store s.heap a
                    { p with pinned := false, sequenceNumber := toUnsigned s.usedOrder },
                  usedOrder := s.usedOrder + 1 })) := by
  unfold LRUState.unpinPage at h
  split at h
  · cases h
  · rename_i p hp
    refine ⟨p, hp, ?_⟩
    split at h
    · rename_i hc
      simp only [Option.some.injEq] at h
      refine Or.inl ⟨h.symm, ?_⟩
      simpa using hc
    · rename_i hc
      split at h
      · cases h
      · rename_i ho
        simp only [Option.some.injEq] at h
        simp only [Bool.or_eq_true, decide_eq_true_eq, not_or, not_lt, Bool.not_eq_true] at hc
        exact Or.inr ⟨hc.1, hc.2, ho, h.symm⟩

theorem lru2_unpinPage_shape (s s1 : LRU2State) (a : Nat) (discard : Bool)
    (h : s.unpinPage a discard = some s1) :
    ∃ p, deref s.heap a = some p
      ∧ ((s1 = { s with cachedPages := eraseKey s.cachedPages p.pageId, heap := free s.heap a }
            ∧ (discard = true ∨ s.getNumPages > s.maxNumPages_))
          ∨ (discard = false ∧ s.getNumPages ≤ s.maxNumPages_ ∧ s.sequenceNumber ≠ INT_MAX
              ∧ s1 = { s with
                  heap := store s.heap a
                    { p with pinned := false,
                             sequenceNums :=
                               pushStamp p.sequenceNums (toUnsigned s.sequenceNumber) },
                  sequenceNumber := s.sequenceNumber + 1 })) := by
  unfold LRU2State.unpinPage at h
  split at h
  · cases h
  · rename_i p hp
    refine ⟨p, hp, ?_⟩
    split at h
    · rename_i hc
      simp only [Option.some.injEq] at h
      refine Or.inl ⟨h.symm, ?_⟩
      simpa using hc
    · rename_i hc
      split at h
      · cases h
      · rename_i ho
        simp only [Option.some.injEq] at h
        simp only [Bool.or_eq_true, decide_eq_true_eq, not_or, not_lt, Bool.not_eq_true] at hc
        exact Or.inr ⟨hc.1, hc.2, ho, h.symm⟩

theorem lru_changePageId_shape (s s1 : LRUState) (a newPageId : Nat)
    (h : s.changePageId a newPageId = some s1) :
    find s.cachedPages newPageId = none
      ∧ ∃ p, deref s.heap a = some p
        ∧ s1 = { s with
            cachedPages := emplace (eraseKey s.cachedPages p.pageId) newPageId a,
            heap := store s.heap a { p with pageId := newPageId } } := by
  unfold LRUState.changePageId at h
  split at h
  · cases h
  · rename_i hf
    split at h
    · cases h
    · rename_i p hp
      simp only [Option.some.injEq] at h
      exact ⟨hf, p, hp, h.symm⟩

theorem lru2_changePageId_shape (s s1 : LRU2State) (a newPageId : Nat)
    (h : s.changePageId a newPageId = some s1) :
    find s.cachedPages newPageId = none
      ∧ ∃ p, deref s.heap a = some p
        ∧ s1 = { s with
            cachedPages := emplace (eraseKey s.cachedPages p.pageId) newPageId a,
            heap := store s.heap a { p with pageId := newPageId } } := by
  unfold LRU2State.changePageId at h
  split at h
  · cases h
  · rename_i hf
    split at h
    · cases h
    · rename_i p hp
      simp only [Option.some.injEq] at h
      exact ⟨hf, p, hp, h.symm⟩

theorem lru_setMaxNumPages_shape (s s1 : LRUState) (n : Int)
    (h : s.setMaxNumPages n = some s1) :
    s1 = { s with maxNumPages_ := n, cachedPages := s1.cachedPages, heap := s1.heap }
      ∧ LRUState.setMaxLoop n s.heap s.cachedPages [] = some (s1.cachedPages, s1.heap) := by
  unfold LRUState.setMaxNumPages at h
  split at h
  · cases h
  · rename_i m heap1 hl
    simp only [Option.some.injEq] at h
    subst h
    exact ⟨rfl, hl⟩

theorem lru2_setMaxNumPages_shape (s s1 : LRU2State) (n : Int)
    (h : s.setMaxNumPages n = some s1) :
    s1 = { s with maxNumPages_ := n, cachedPages := s1.cachedPages, heap := s1.heap }
      ∧ LRU2State.setMaxLoop n s.heap s.cachedPages [] = some (s1.cachedPages, s1.heap) := by
  unfold LRU2State.setMaxNumPages at h
  split at h
  · cases h
  · rename_i m heap1 hl
    simp only [Option.some.injEq] at h
    subst h
    exact ⟨rfl, hl⟩

theorem lru_discardPages_shape (s s1 : LRUState) (limit : Nat)
    (h : s.discardPages limit = some s1) :
    s1 = { s with cachedPages := s1.cachedPages, heap := s1.heap }
      ∧ LRUState.discardLoop limit s.cachedPages s.heap = some (s1.cachedPages, s1.heap) := by
  unfold LRUState.discardPages at h
  split at h
  · cases h
  · rename_i m heap1 hl
    simp only [Option.some.injEq] at h
    subst h
    exact ⟨rfl, hl⟩

theorem lru2_discardPages_shape (s s1 : LRU2State) (limit : Nat)
    (h : s.discardPages limit = some s1) :
    s1 = { s with cachedPages := s1.cachedPages, heap := s1.heap }
      ∧ LRU2State.discardLoop limit s.cachedPages s.heap = some (s1.cachedPages, s1.heap) := by
  unfold LRU2State.discardPages at h
  split at h
  · cases h
  · rename_i m heap1 hl
    simp only [Option.some.injEq] at h
    subst h
    exact ⟨rfl, hl⟩

/-! ## The counters -/

theorem incr64_iterate (k n : Nat) (hn : n < 18446744073709551616) :
    incr64^[k] n = (n + k) % 18446744073709551616 := by
  induction k with
  | zero => simp [Nat.mod_eq_of_lt hn]
  | succ k ih =>
    rw [Function.iterate_succ_apply', ih]
    simp only [incr64]
    rw [Nat.mod_add_mod, Nat.add_assoc]

theorem lru_step_counters (s s1 : LRUState) (op : Op) (h : s.step op = some s1) :
    s1.numFetches_ = (if op.isFetch then incr64 s.numFetches_ else s.numFetches_)
      ∧ s1.numHits_ = (if op.hits s.cachedPages then incr64 s.numHits_ else s.numHits_) := by
  cases op with
  | setMaxNumPages n =>
    have h1 := (lru_setMaxNumPages_shape s s1 n h).1
    rw [h1]
    simp [Op.isFetch, Op.hits]
  | fetchPage pageId allocate =>
    simp only [LRUState.step, Option.map_eq_some'] at h
    obtain ⟨⟨r, s2⟩, h2, rfl⟩ := h
    have h1 := (lru_fetchPage_shape s s2 pageId allocate r h2).1
    rw [h1]
    simp [Op.isFetch, Op.hits]
  | unpinPage a discard =>
    obtain ⟨p, -, ⟨h1, -⟩ | ⟨-, -, -, h1⟩⟩ := lru_unpinPage_shape s s1 a discard h
    · rw [h1]
      simp [Op.isFetch, Op.hits]
    · rw [h1]
      simp [Op.isFetch, Op.hits]
  | changePageId a newPageId =>
    obtain ⟨-, p, -, h1⟩ := lru_changePageId_shape s s1 a newPageId h
    rw [h1]
    simp [Op.isFetch, Op.hits]
  | discardPages limit =>
    have h1 := (lru_discardPages_shape s s1 limit h).1
    rw [h1]
    simp [Op.isFetch, Op.hits]

theorem lru2_step_counters (s s1 : LRU2State) (op : Op) (h : s.step op = some s1) :
    s1.numFetches_ = (if op.isFetch then incr64 s.numFetches_ else s.numFetches_)
      ∧ s1.numHits_ = (if op.hits s.cachedPages then incr64 s.numHits_ else s.numHits_) := by
  cases op with
  | setMaxNumPages n =>
    have h1 := (lru2_setMaxNumPages_shape s s1 n h).1
    rw [h1]
    simp [Op.isFetch, Op.hits]
  | fetchPage pageId allocate =>
    simp only [LRU2State.step, Option.map_eq_some'] at h
    obtain ⟨⟨r, s2⟩, h2, rfl⟩ := h
    have h1 := (lru2_fetchPage_shape s s2 pageId allocate r h2).1
    rw [h1]
    simp [Op.isFetch, Op.hits]
  | unpinPage a discard =>
    obtain ⟨p, -, ⟨h1, -⟩ | ⟨-, -, -, h1⟩⟩ := lru2_unpinPage_shape s s1 a discard h
    · rw [h1]
      simp [Op.isFetch, Op.hits]
    · rw [h1]
      simp [Op.isFetch, Op.hits]
  | changePageId a newPageId =>
    obtain ⟨-, p, -, h1⟩ := lru2_changePageId_shape s s1 a newPageId h
    rw [h1]
    simp [Op.isFetch, Op.hits]
  | discardPages limit =>
    have h1 := (lru2_discardPages_shape s s1 limit h).1
    rw [h1]
    simp [Op.isFetch, Op.hits]

theorem hits_le_isFetch (m : Directory) (op : Op) : op.hits m = true → op.isFetch = true := by
  cases op <;> simp [Op.hits, Op.isFetch]

theorem lru_run_counters (s s1 : LRUState) (ops : List Op) (h : s.run ops = some s1) :
    ∃ k, k ≤ ops.countP Op.isFetch
      ∧ s1.numFetches_ = incr64^[ops.countP Op.isFetch] s.numFetches_
      ∧ s1.numHits_ = incr64^[k] s.numHits_ := by
  induction ops generalizing s with
  | nil =>
    simp only [LRUState.run, Option.some.injEq] at h
    subst h
    exact ⟨0, le_refl _, rfl, rfl⟩
  | cons op ops ih =>
    unfold LRUState.run at h
    split at h
    · cases h
    · rename_i s2 hstep
      obtain ⟨k, hk, hf, hh⟩ := ih s2 h
      obtain ⟨c1, c2⟩ := lru_step_counters s s2 op hstep
      cases hfe : op.isFetch with
      | false =>
        have hhit : op.hits s.cachedPages = false := by
          cases hx : op.hits s.cachedPages with
          | false => rfl
          | true => rw [hits_le_isFetch _ _ hx] at hfe; cases hfe
        simp only [hfe, hhit, if_false, Bool.false_eq_true] at c1 c2
        refine ⟨k, ?_, ?_, ?_⟩
        · simpa [List.countP_cons, hfe] using hk
        · simp [List.countP_cons, hfe, hf, c1]
        · rw [hh, c2]
      | true =>
        simp only [hfe, if_true] at c1
        cases hx : op.hits s.cachedPages with
        | false =>
          simp only [hx, if_false, Bool.false_eq_true] at c2
          refine ⟨k, ?_, ?_, ?_⟩
          · simp only [List.countP_cons, hfe, if_true]
            omega
          · simp only [List.countP_cons, hfe, if_true, Function.iterate_succ_apply]
            rw [hf, c1]
          · rw [hh, c2]
        | true =>
          simp only [hx, if_true] at c2
          refine ⟨k + 1, ?_, ?_, ?_⟩
          · simp only [List.countP_cons, hfe, if_true]
            omega
          · simp only [List.countP_cons, hfe, if_true, Function.iterate_succ_apply]
            rw [hf, c1]
          · rw [hh, c2, Function.iterate_succ_apply]

theorem lru2_run_counters (s s1 : LRU2State) (ops : List Op) (h : s.run ops = some s1) :
    ∃ k, k ≤ ops.countP Op.isFetch
      ∧ s1.numFetches_ = incr64^[ops.countP Op.isFetch] s.numFetches_
      ∧ s1.numHits_ = incr64^[k] s.numHits_ := by
  induction ops generalizing s with
  | nil =>
    simp only [LRU2State.run, Option.some.injEq] at h
    subst h
    exact ⟨0, le_refl _, rfl, rfl⟩
  | cons op ops ih =>
    unfold LRU2State.run at h
    split at h
    · cases h
    · rename_i s2 hstep
      obtain ⟨k, hk, hf, hh⟩ := ih s2 h
      obtain ⟨c1, c2⟩ := lru2_step_counters s s2 op hstep
      cases hfe : op.isFetch with
      | false =>
        have hhit : op.hits s.cachedPages = false := by
          cases hx : op.hits s.cachedPages with
          | false => rfl
          | true => rw [hits_le_isFetch _ _ hx] at hfe; cases hfe
        simp only [hfe, hhit, if_false, Bool.false_eq_true] at c1 c2
        refine ⟨k, ?_, ?_, ?_⟩
        · simpa [List.countP_cons, hfe] using hk
        · simp [List.countP_cons, hfe, hf, c1]
        · rw [hh, c2]
      | true =>
        simp only [hfe, if_true] at c1
        cases hx : op.hits s.cachedPages with
        | false =>
          simp only [hx, if_false, Bool.false_eq_true] at c2
          refine ⟨k, ?_, ?_, ?_⟩
          · simp only [List.countP_cons, hfe, if_true]
            omega
          · simp only [List.countP_cons, hfe, if_true, Function.iterate_succ_apply]
            rw [hf, c1]
          · rw [hh, c2]
        | true =>
          simp only [hx, if_true] at c2
          refine ⟨k + 1, ?_, ?_, ?_⟩
          · simp only [List.countP_cons, hfe, if_true]
            omega
          · simp only [List.countP_cons, hfe, if_true, Function.iterate_succ_apply]
            rw [hf, c1]
          · rw [hh, c2, Function.iterate_succ_apply]

theorem lru_counters_of_trace (pageSize extraSize order : Int) (ops : List Op) (op : Op)
    (s s1 : LRUState)
    (hbound : ops.countP Op.isFetch + 1 < 18446744073709551616)
    (hs : (LRUState.init pageSize extraSize order).run ops = some s)
    (hs1 : s.step op = some s1) :
    s.numFetches_ = ops.countP Op.isFetch ∧ s.numHits_ ≤ s.numFetches_
      ∧ s1.numFetches_ = s.numFetches_ + (if op.isFetch then 1 else 0)
      ∧ s1.numHits_ = s.numHits_ + (if op.hits s.cachedPages then 1 else 0)
      ∧ s.numFetches_ ≤ s1.numFetches_ ∧ s.numHits_ ≤ s1.numHits_
      ∧ s1.numHits_ ≤ s1.numFetches_ := by
  obtain ⟨k, hk, hf, hh⟩ := lru_run_counters _ _ _ hs
  rw [incr64_iterate _ _ (by simp [LRUState.init])] at hf hh
  simp only [LRUState.init, Nat.zero_add] at hf hh
  rw [Nat.mod_eq_of_lt (by omega)] at hf hh
  obtain ⟨c1, c2⟩ := lru_step_counters s s1 op hs1
  have i1 : incr64 s.numFetches_ = s.numFetches_ + 1 := by
    simp only [incr64]
    exact Nat.mod_eq_of_lt (by omega)
  have i2 : incr64 s.numHits_ = s.numHits_ + 1 := by
    simp only [incr64]
    exact Nat.mod_eq_of_lt (by omega)
  rw [i1] at c1
  rw [i2] at c2
  have himp := hits_le_isFetch s.cachedPages op
  cases hx : op.hits s.cachedPages with
  | true =>
    have hfe := himp hx
    simp only [hfe, hx, if_true] at c1 c2 ⊢
    refine ⟨hf, ?_, c1, c2, ?_, ?_, ?_⟩ <;> omega
  | false =>
    cases hfe : op.isFetch with
    | true =>
      simp only [hfe, hx, if_true, if_false, Bool.false_eq_true] at c1 c2 ⊢
      refine ⟨hf, ?_, c1, c2, ?_, ?_, ?_⟩ <;> omega
    | false =>
      simp only [hfe, hx, if_false, Bool.false_eq_true] at c1 c2 ⊢
      refine ⟨hf, ?_, c1, c2, ?_, ?_, ?_⟩ <;> omega

theorem lru2_counters_of_trace (pageSize extraSize order : Int) (ops : List Op) (op : Op)
    (s s1 : LRU2State)
    (hbound : ops.countP Op.isFetch + 1 < 18446744073709551616)
    (hs : (LRU2State.init pageSize extraSize order).run ops = some s)
    (hs1 : s.step op = some s1) :
    s.numFetches_ = ops.countP Op.isFetch ∧ s.numHits_ ≤ s.numFetches_
      ∧ s1.numFetches_ = s.numFetches_ + (if op.isFetch then 1 else 0)
      ∧ s1.numHits_ = s.numHits_ + (if op.hits s.cachedPages then 1 else 0)
      ∧ s.numFetches_ ≤ s1.numFetches_ ∧ s.numHits_ ≤ s1.numHits_
      ∧ s1.numHits_ ≤ s1.numFetches_ := by
  obtain ⟨k, hk, hf, hh⟩ := lru2_run_counters _ _ _ hs
  rw [incr64_iterate _ _ (by simp [LRU2State.init])] at hf hh
  simp only [LRU2State.init, Nat.zero_add] at hf hh
  rw [Nat.mod_eq_of_lt (by omega)] at hf hh
  obtain ⟨c1, c2⟩ := lru2_step_counters s s1 op hs1
  have i1 : incr64 s.numFetches_ = s.numFetches_ + 1 := by
    simp only [incr64]
    exact Nat.mod_eq_of_lt (by omega)
  have i2 : incr64 s.numHits_ = s.numHits_ + 1 := by
    simp only [incr64]
    exact Nat.mod_eq_of_lt (by omega)
  rw [i1] at c1
  rw [i2] at c2
  have himp := hits_le_isFetch s.cachedPages op
  cases hx : op.hits s.cachedPages with
  | true =>
    have hfe := himp hx
    simp only [hfe, hx, if_true] at c1 c2 ⊢
    refine ⟨hf, ?_, c1, c2, ?_, ?_, ?_⟩ <;> omega
  | false =>
    cases hfe : op.isFetch with
    | true =>
      simp only [hfe, hx, if_true, if_false, Bool.false_eq_true] at c1 c2 ⊢
      refine ⟨hf, ?_, c1, c2, ?_, ?_, ?_⟩ <;> omega
    | false =>
      simp only [hfe, hx, if_false, Bool.false_eq_true] at c1 c2 ⊢
      refine ⟨hf, ?_, c1, c2, ?_, ?_, ?_⟩ <;> omega

/-- C19. In both caches, along every trace from a freshly constructed cache
with fewer than `2 ^ 64 - 1` fetches: `numFetches_` is the number of
`fetchPage` calls made so far and `numHits_` is at most `numFetches_`; one
more call, whatever it is and whatever it returns, adds one to `numFetches_`
exactly when it is a `fetchPage`, adds one to `numHits_` exactly when it is a
`fetchPage` of an id that `find` locates in the directory, and changes
neither counter otherwise; so neither counter ever decreases. -/
theorem C19_counters_count_fetches_and_hits
    (pageSize extraSize order : Int) (ops ops2 : List Op) (op op2 : Op)
    (s s1 : LRUState) (t t1 : LRU2State)
    (hbound : ops.countP Op.isFetch + 1 < 18446744073709551616)
    (hs : (LRUState.init pageSize extraSize order).run ops = some s)
    (hs1 : s.step op = some s1)
    (hbound2 : ops2.countP Op.isFetch + 1 < 18446744073709551616)
    (ht : (LRU2State.init pageSize extraSize order).run ops2 = some t)
    (ht1 : t.step op2 = some t1) :
    (s.numFetches_ = ops.countP Op.isFetch ∧ s.numHits_ ≤ s.numFetches_
      ∧ s1.numFetches_ = s.numFetches_ + (if op.isFetch then 1 else 0)
      ∧ s1.numHits_ = s.numHits_ + (if op.hits s.cachedPages then 1 else 0)
      ∧ s.numFetches_ ≤ s1.numFetches_ ∧ s.numHits_ ≤ s1.numHits_
      ∧ s1.numHits_ ≤ s1.numFetches_)
    ∧ (t.numFetches_ = ops2.countP Op.isFetch ∧ t.numHits_ ≤ t.numFetches_
      ∧ t1.numFetches_ = t.numFetches_ + (if op2.isFetch then 1 else 0)
      ∧ t1.numHits_ = t.numHits_ + (if op2.hits t.cachedPages then 1 else 0)
      ∧ t.numFetches_ ≤ t1.numFetches_ ∧ t.numHits_ ≤ t1.numHits_
      ∧ t1.numHits_ ≤ t1.numFetches_) :=
  ⟨lru_counters_of_trace pageSize extraSize order ops op s s1 hbound hs hs1,
    lru2_counters_of_trace pageSize extraSize order ops2 op2 t t1 hbound2 ht ht1⟩

/-- C19 at a concrete input, in both caches: after `setMaxNumPages(1)`,
`fetchPage(1, true)` and the miss `fetchPage(9, false)` the counters are 2
and 0; the hit `fetchPage(1, false)` makes them 3 and 1. -/
theorem C19_counters_count_fetches_and_hits_witness :
    ([Op.setMaxNumPages 1, Op.fetchPage 1 true, Op.fetchPage 9 false].countP Op.isFetch + 1
        < 18446744073709551616
      ∧ (LRUState.init 4096 0 0).run
          [Op.setMaxNumPages 1, Op.fetchPage 1 true, Op.fetchPage 9 false] = some lruCounted
      ∧ lruCounted.step (Op.fetchPage 1 false) = some lruCountedNext
      ∧ (LRU2State.init 4096 0 0).run
          [Op.setMaxNumPages 1, Op.fetchPage 1 true, Op.fetchPage 9 false] = some lru2Counted
      ∧ lru2Counted.step (Op.fetchPage 1 false) = some lru2CountedNext)
    ∧ (lruCounted.numFetches_ = 2 ∧ lruCounted.numHits_ ≤ lruCounted.numFetches_
      ∧ lruCountedNext.numFetches_ = lruCounted.numFetches_ + 1
      ∧ lruCountedNext.numHits_ = lruCounted.numHits_ + 1)
    ∧ (lru2Counted.numFetches_ = 2 ∧ lru2Counted.numHits_ ≤ lru2Counted.numFetches_
      ∧ lru2CountedNext.numFetches_ = lru2Counted.numFetches_ + 1
      ∧ lru2CountedNext.numHits_ = lru2Counted.numHits_ + 1) := by
  have h := C19_counters_count_fetches_and_hits 4096 0 0
    [Op.setMaxNumPages 1, Op.fetchPage 1 true, Op.fetchPage 9 false]
    [Op.setMaxNumPages 1, Op.fetchPage 1 true, Op.fetchPage 9 false]
    (Op.fetchPage 1 false) (Op.fetchPage 1 false)
    lruCounted lruCountedNext lru2Counted lru2CountedNext
    (by decide) (by decide) (by decide) (by decide) (by decide) (by decide)
  exact ⟨by decide, ⟨h.1.1, h.1.2.1, h.1.2.2.1, h.1.2.2.2.1⟩,
    ⟨h.2.1, h.2.2.1, h.2.2.2.1, h.2.2.2.2.1⟩⟩

/-! ## The stamps stay below the global counter -/

theorem toUnsigned_of_int (u : Int) (h0 : 0 ≤ u) (h1 : u ≤ INT_MAX) :
    toUnsigned u = u.toNat := by
  have h2 : u < 4294967296 := by
    simp only [INT_MAX] at h1
    omega
  simp [toUnsigned, Int.emod_eq_of_lt h0 h2]

theorem toUnsigned_lt_succ (u : Int) (h0 : 0 ≤ u) (h1 : u ≤ INT_MAX) (h2 : u ≠ INT_MAX) :
    toUnsigned u < toUnsigned (u + 1) := by
  have h3 : u + 1 ≤ INT_MAX := by
    simp only [INT_MAX] at h1 h2 ⊢
    omega
  rw [toUnsigned_of_int u h0 h1, toUnsigned_of_int (u + 1) (by omega) h3]
  omega

theorem toUnsigned_ne_sentinel (u : Int) (h0 : 0 ≤ u) (h1 : u ≤ INT_MAX) :
    toUnsigned u ≠ UINT_MAX := by
  rw [toUnsigned_of_int u h0 h1]
  simp only [INT_MAX] at h1
  simp only [UINT_MAX]
  omega

theorem lru_step_stamped (s s1 : LRUState) (op : Op) (h : s.step op = some s1)
    (hs : s.Stamped) : s1.Stamped := by
  obtain ⟨h0, h1, hst⟩ := hs
  cases op with
  | setMaxNumPages n =>
    obtain ⟨e, hl⟩ := lru_setMaxNumPages_shape s s1 n h
    refine ⟨by rw [e]; exact h0, by rw [e]; exact h1, ?_⟩
    intro a p hp
    have hu : s1.usedOrder = s.usedOrder := by rw [e]
    rw [hu]
    exact hst a p (lru_setMaxLoop_heap _ _ _ _ _ _ hl a p hp)
  | fetchPage pageId allocate =>
    simp only [LRUState.step, Option.map_eq_some'] at h
    obtain ⟨⟨r, s2⟩, h2, rfl⟩ := h
    obtain ⟨e, hh⟩ := lru_fetchPage_shape s s2 pageId allocate r h2
    have hu : s2.usedOrder = s.usedOrder := by rw [e]
    refine ⟨by rw [hu]; exact h0, by rw [hu]; exact h1, ?_⟩
    intro a p hp
    rw [hu]
    rcases hh with hh | ⟨b, q, hq, hh⟩ | hh
    · rw [hh] at hp
      exact hst a p hp
    · rw [hh] at hp
      rcases deref_store_cases _ _ _ _ _ hp with ⟨-, rfl⟩ | hp1
      · exact hst b q hq
      · exact hst a p hp1
    · rw [hh] at hp
      rcases deref_append_cases _ _ _ _ hp with ⟨-, rfl⟩ | hp1
      · exact Or.inl rfl
      · exact hst a p hp1
  | unpinPage b discard =>
    obtain ⟨q, hq, ⟨e, -⟩ | ⟨-, -, ho, e⟩⟩ := lru_unpinPage_shape s s1 b discard h
    · have hu : s1.usedOrder = s.usedOrder := by rw [e]
      refine ⟨by rw [hu]; exact h0, by rw [hu]; exact h1, ?_⟩
      intro a p hp
      rw [hu]
      rw [e] at hp
      exact hst a p (deref_free _ _ _ _ hp).1
    · have hu : s1.usedOrder = s.usedOrder + 1 := by rw [e]
      have h3 : s.usedOrder + 1 ≤ INT_MAX := by
        simp only [INT_MAX] at h1 ho ⊢
        omega
      refine ⟨by rw [hu]; omega, by rw [hu]; exact h3, ?_⟩
      intro a p hp
      rw [hu]
      have hlt := toUnsigned_lt_succ s.usedOrder h0 h1 ho
      rw [e] at hp
      rcases deref_store_cases _ _ _ _ _ hp with ⟨-, rfl⟩ | hp1
      · exact Or.inr hlt
      · rcases hst a p hp1 with h4 | h4
        · exact Or.inl h4
        · exact Or.inr (lt_trans h4 hlt)
  | changePageId b newPageId =>
    obtain ⟨-, q, hq, e⟩ := lru_changePageId_shape s s1 b newPageId h
    have hu : s1.usedOrder = s.usedOrder := by rw [e]
    refine ⟨by rw [hu]; exact h0, by rw [hu]; exact h1, ?_⟩
    intro a p hp
    rw [hu]
    rw [e] at hp
    rcases deref_store_cases _ _ _ _ _ hp with ⟨-, rfl⟩ | hp1
    · exact hst b q hq
    · exact hst a p hp1
  | discardPages limit =>
    obtain ⟨e, hl⟩ := lru_discardPages_shape s s1 limit h
    have hu : s1.usedOrder = s.usedOrder := by rw [e]
    refine ⟨by rw [hu]; exact h0, by rw [hu]; exact h1, ?_⟩
    intro a p hp
    rw [hu]
    exact hst a p (lru_discardLoop_heap _ _ _ _ _ hl a p hp)

theorem lru_run_stamped (s s1 : LRUState) (ops : List Op) (h : s.run ops = some s1)
    (hs : s.Stamped) : s1.Stamped := by
  induction ops generalizing s with
  | nil =>
    simp only [LRUState.run, Option.some.injEq] at h
    subst h
    exact hs
  | cons op ops ih =>
    unfold LRUState.run at h
    split at h
    · cases h
    · rename_i s2 hstep
      exact ih s2 h (lru_step_stamped s s2 op hstep hs)

theorem lru_reachable_stamped (s : LRUState) (h : s.Reachable) : s.Stamped := by
  obtain ⟨pageSize, extraSize, order, ops, h0, h1, hrun⟩ := h
  refine lru_run_stamped _ s ops hrun ⟨h0, h1, ?_⟩
  intro a p hp
  simp [LRUState.init, deref] at hp

theorem pushStamp_spec (l : List Nat) (x : Nat) (hl : l.length ≤ 2) :
    pushStamp l x = (l ++ [x]).drop ((l ++ [x]).length - 2)
      ∧ (pushStamp l x).length ≤ 2 ∧ ∀ y ∈ pushStamp l x, y = x ∨ y ∈ l := by
  match l, hl with
  | [], _ => simp [pushStamp]
  | [a], _ => simp [pushStamp]
  | [a, b], _ =>
    simp only [pushStamp]
    refine ⟨by simp, by simp, ?_⟩
    intro y hy
    simp at hy
    rcases hy with rfl | rfl
    · exact Or.inr (by simp)
    · exact Or.inl rfl
  | _ :: _ :: _ :: _, h => simp at h

theorem lru2_step_stamped (s s1 : LRU2State) (op : Op) (h : s.step op = some s1)
    (hs : s.Stamped) : s1.Stamped := by
  obtain ⟨h0, h1, hst⟩ := hs
  cases op with
  | setMaxNumPages n =>
    obtain ⟨e, hl⟩ := lru2_setMaxNumPages_shape s s1 n h
    refine ⟨by rw [e]; exact h0, by rw [e]; exact h1, ?_⟩
    intro a p hp
    have hu : s1.sequenceNumber = s.sequenceNumber := by rw [e]
    rw [hu]
    exact hst a p (lru2_setMaxLoop_heap _ _ _ _ _ _ hl a p hp)
  | fetchPage pageId allocate =>
    simp only [LRU2State.step, Option.map_eq_some'] at h
    obtain ⟨⟨r, s2⟩, h2, rfl⟩ := h
    obtain ⟨e, hh⟩ := lru2_fetchPage_shape s s2 pageId allocate r h2
    have hu : s2.sequenceNumber = s.sequenceNumber := by rw [e]
    refine ⟨by rw [hu]; exact h0, by rw [hu]; exact h1, ?_⟩
    intro a p hp
    rw [hu]
    rcases hh with hh | ⟨b, q, hq, hh⟩ | hh
    · rw [hh] at hp
      exact hst a p hp
    · rw [hh] at hp
      rcases deref_store_cases _ _ _ _ _ hp with ⟨-, rfl⟩ | hp1
      · exact hst b q hq
      · exact hst a p hp1
    · rw [hh] at hp
      rcases deref_append_cases _ _ _ _ hp with ⟨-, rfl⟩ | hp1
      · simp
      · exact hst a p hp1
  | unpinPage b discard =>
    obtain ⟨q, hq, ⟨e, -⟩ | ⟨-, -, ho, e⟩⟩ := lru2_unpinPage_shape s s1 b discard h
    · have hu : s1.sequenceNumber = s.sequenceNumber := by rw [e]
      refine ⟨by rw [hu]; exact h0, by rw [hu]; exact h1, ?_⟩
      intro a p hp
      rw [hu]
      rw [e] at hp
      exact hst a p (deref_free _ _ _ _ hp).1
    · have hu : s1.sequenceNumber = s.sequenceNumber + 1 := by rw [e]
      have h3 : s.sequenceNumber + 1 ≤ INT_MAX := by
        simp only [INT_MAX] at h1 ho ⊢
        omega
      refine ⟨by rw [hu]; omega, by rw [hu]; exact h3, ?_⟩
      intro a p hp
      rw [hu]
      have hlt := toUnsigned_lt_succ s.sequenceNumber h0 h1 ho
      rw [e] at hp
      rcases deref_store_cases _ _ _ _ _ hp with ⟨-, rfl⟩ | hp1
      · obtain ⟨hq1, hq2⟩ := hst b q hq
        obtain ⟨-, p2, p3⟩ := pushStamp_spec q.sequenceNums (toUnsigned s.sequenceNumber) hq1
        refine ⟨p2, ?_⟩
        intro x hx
        rcases p3 x hx with rfl | hx1
        · exact hlt
        · exact lt_trans (hq2 x hx1) hlt
      · obtain ⟨hq1, hq2⟩ := hst a p hp1
        exact ⟨hq1, fun x hx => lt_trans (hq2 x hx) hlt⟩
  | changePageId b newPageId =>
    obtain ⟨-, q, hq, e⟩ := lru2_changePageId_shape s s1 b newPageId h
    have hu : s1.sequenceNumber = s.sequenceNumber := by rw [e]
    refine ⟨by rw [hu]; exact h0, by rw [hu]; exact h1, ?_⟩
    intro a p hp
    rw [hu]
    rw [e] at hp
    rcases deref_store_cases _ _ _ _ _ hp with ⟨-, rfl⟩ | hp1
    · exact hst b q hq
    · exact hst a p hp1
  | discardPages limit =>
    obtain ⟨e, hl⟩ := lru2_discardPages_shape s s1 limit h
    have hu : s1.sequenceNumber = s.sequenceNumber := by rw [e]
    refine ⟨by rw [hu]; exact h0, by rw [hu]; exact h1, ?_⟩
    intro a p hp
    rw [hu]
    exact hst a p (lru2_discardLoop_heap _ _ _ _ _ hl a p hp)

theorem lru2_run_stamped (s s1 : LRU2State) (ops : List Op) (h : s.run ops = some s1)
    (hs : s.Stamped) : s1.Stamped := by
  induction ops generalizing s with
  | nil =>
    simp only [LRU2State.run, Option.some.injEq] at h
    subst h
    exact hs
  | cons op ops ih =>
    unfold LRU2State.run at h
    split at h
    · cases h
    · rename_i s2 hstep
      exact ih s2 h (lru2_step_stamped s s2 op hstep hs)

theorem lru2_reachable_stamped (s : LRU2State) (h : s.Reachable) : s.Stamped := by
  obtain ⟨pageSize, extraSize, order, ops, h0, h1, hrun⟩ := h
  refine lru2_run_stamped _ s ops hrun ⟨h0, h1, ?_⟩
  intro a p hp
  simp [LRU2State.init, deref] at hp

/-! ## Unpinning without discard -/

theorem lru_unpinPage_keep (s : LRUState) (a : Nat) (p : LRUReplacementPage)
    (hp : deref s.heap a = some p) (hcap : s.getNumPages ≤ s.maxNumPages_)
    (hord : s.usedOrder ≠ INT_MAX) :
    s.unpinPage a false
      = some { s with
          heap := store s.heap a
            { p with pinned := false, sequenceNumber := toUnsigned s.usedOrder },
          usedOrder := s.usedOrder + 1 } := by
  have hcap1 : ¬ s.getNumPages > s.maxNumPages_ := not_lt.mpr hcap
  simp [LRUState.unpinPage, hp, hcap1, hord]

theorem lru2_unpinPage_keep (s : LRU2State) (a : Nat) (p : LRU2ReplacementPage)
    (hp : deref s.heap a = some p) (hcap : s.getNumPages ≤ s.maxNumPages_)
    (hord : s.sequenceNumber ≠ INT_MAX) :
    s.unpinPage a false
      = some { s with
          heap := store s.heap a
            { p with pinned := false,
                     sequenceNums := pushStamp p.sequenceNums (toUnsigned s.sequenceNumber) },
          sequenceNumber := s.sequenceNumber + 1 } := by
  have hcap1 : ¬ s.getNumPages > s.maxNumPages_ := not_lt.mpr hcap
  simp [LRU2State.unpinPage, hp, hcap1, hord, pushStamp]

/-- C11. In both caches, in a reachable state, `unpinPage(p, false)` on a live
page `p` that the directory holds under `pageId`, with the number of pages at
most `maxNumPages_` and the global counter below `INT_MAX`, leaves the
directory as it is, so `p` is still resident under `pageId`, and clears
`pinned`.  The stamp it assigns is the value of the global counter, which is
strictly greater than every stamp of every live page (in the LRU cache: every
`sequenceNumber` other than the creation value `UINT_MAX`, which the stamp
itself never is).  LRU: `sequenceNumber` becomes the stamp.  LRU-2: the stamp
is pushed onto the queue, which then holds the last two entries of the old
queue followed by the stamp.  The counter grows by one; the number of pages,
`maxNumPages_`, the two counters and every other page are unchanged. -/
theorem C11_unpin_without_discard_restamps
    (s : LRUState) (t : LRU2State) (pageId a pageId2 b : Nat)
    (p : LRUReplacementPage) (q : LRU2ReplacementPage)
    (hsr : s.Reachable) (hs : find s.cachedPages pageId = some a)
    (hp : deref s.heap a = some p) (hsc : s.getNumPages ≤ s.maxNumPages_)
    (hso : s.usedOrder ≠ INT_MAX)
    (htr : t.Reachable) (ht : find t.cachedPages pageId2 = some b)
    (hq : deref t.heap b = some q) (htc : t.getNumPages ≤ t.maxNumPages_)
    (hto : t.sequenceNumber ≠ INT_MAX) :
    (∃ s1 : LRUState,
        s.unpinPage a false = some s1
        ∧ s1.cachedPages = s.cachedPages ∧ find s1.cachedPages pageId = some a
        ∧ deref s1.heap a
            = some { p with pinned := false, sequenceNumber := toUnsigned s.usedOrder }
        ∧ (∀ c r, deref s.heap c = some r → r.sequenceNumber ≠ UINT_MAX →
            r.sequenceNumber < toUnsigned s.usedOrder)
        ∧ toUnsigned s.usedOrder ≠ UINT_MAX
        ∧ (∀ c, c ≠ a → deref s1.heap c = deref s.heap c)
        ∧ s1.getNumPages = s.getNumPages ∧ s1.maxNumPages_ = s.maxNumPages_
        ∧ s1.numFetches_ = s.numFetches_ ∧ s1.numHits_ = s.numHits_
        ∧ s1.usedOrder = s.usedOrder + 1)
    ∧ (∃ t1 : LRU2State,
        t.unpinPage b false = some t1
        ∧ t1.cachedPages = t.cachedPages ∧ find t1.cachedPages pageId2 = some b
        ∧ deref t1.heap b
            = some { q with pinned := false,
                            sequenceNums :=
                              pushStamp q.sequenceNums (toUnsigned t.sequenceNumber) }
        ∧ pushStamp q.sequenceNums (toUnsigned t.sequenceNumber)
            = (q.sequenceNums ++ [toUnsigned t.sequenceNumber]).drop
                ((q.sequenceNums ++ [toUnsigned t.sequenceNumber]).length - 2)
        ∧ (∀ c r, deref t.heap c = some r →
            ∀ x ∈ r.sequenceNums, x < toUnsigned t.sequenceNumber)
        ∧ (∀ c, c ≠ b → deref t1.heap c = deref t.heap c)
        ∧ t1.getNumPages = t.getNumPages ∧ t1.maxNumPages_ = t.maxNumPages_
        ∧ t1.numFetches_ = t.numFetches_ ∧ t1.numHits_ = t.numHits_
        ∧ t1.sequenceNumber = t.sequenceNumber + 1) := by
  obtain ⟨s0, s1, sst⟩ := lru_reachable_stamped s hsr
  obtain ⟨t0, t1, tst⟩ := lru2_reachable_stamped t htr
  constructor
  · refine ⟨_, lru_unpinPage_keep s a p hp hsc hso, rfl, hs,
      deref_store_same _ (deref_lt hp), ?_, toUnsigned_ne_sentinel _ s0 s1, ?_,
      rfl, rfl, rfl, rfl, rfl⟩
    · intro c r hr hne
      rcases sst c r hr with h | h
      · exact absurd h hne
      · exact h
    · intro c hc
      exact deref_store_other s.heap _ (fun e => hc e.symm)
  · refine ⟨_, lru2_unpinPage_keep t b q hq htc hto, rfl, ht,
      deref_store_same _ (deref_lt hq), ?_, ?_, ?_, rfl, rfl, rfl, rfl, rfl⟩
    · exact (pushStamp_spec _ _ (tst b q hq).1).1
    · intro c r hr
      exact (tst c r hr).2
    · intro c hc
      exact deref_store_other t.heap _ (fun e => hc e.symm)

/-- C11 at a concrete input: the caches of scenarios 1 and 4 of the
specification with page 3, resident at address 2, fetched again and then
unpinned. -/
theorem C11_unpin_without_discard_restamps_witness :
    (lruFetched.Reachable ∧ find lruFetched.cachedPages 3 = some 2
      ∧ deref lruFetched.heap 2 = some { pageId := 3, pinned := true, sequenceNumber := 2 }
      ∧ lruFetched.getNumPages ≤ lruFetched.maxNumPages_
      ∧ lruFetched.usedOrder ≠ INT_MAX
      ∧ lru2Fetched.Reachable ∧ find lru2Fetched.cachedPages 3 = some 2
      ∧ deref lru2Fetched.heap 2 = some { pageId := 3, pinned := true, sequenceNums := [3] }
      ∧ lru2Fetched.getNumPages ≤ lru2Fetched.maxNumPages_
      ∧ lru2Fetched.sequenceNumber ≠ INT_MAX)
    ∧ (∃ s1 : LRUState,
        lruFetched.unpinPage 2 false = some s1
        ∧ find s1.cachedPages 3 = some 2
        ∧ deref s1.heap 2 = some { pageId := 3, pinned := false, sequenceNumber := 3 })
    ∧ (∃ t1 : LRU2State,
        lru2Fetched.unpinPage 2 false = some t1
        ∧ find t1.cachedPages 3 = some 2
        ∧ deref t1.heap 2 = some { pageId := 3, pinned := false, sequenceNums := [3, 4] }) := by
  have r1 : lruFetched.Reachable :=
    ⟨4096, 0, 0,
      [Op.setMaxNumPages 3, Op.fetchPage 1 true, Op.unpinPage 0 false,
       Op.fetchPage 2 true, Op.unpinPage 1 false,
       Op.fetchPage 3 true, Op.unpinPage 2 false, Op.fetchPage 3 false],
      by decide, by decide, by decide⟩
  have r2 : lru2Fetched.Reachable :=
    ⟨4096, 0, 0,
      [Op.setMaxNumPages 3, Op.fetchPage 1 true, Op.unpinPage 0 false,
       Op.fetchPage 1 true, Op.unpinPage 0 false,
       Op.fetchPage 2 true, Op.unpinPage 1 false,
       Op.fetchPage 3 true, Op.unpinPage 2 false, Op.fetchPage 3 false],
      by decide, by decide, by decide⟩
  have h := C11_unpin_without_discard_restamps lruFetched lru2Fetched 3 2 3 2
    { pageId := 3, pinned := true, sequenceNumber := 2 }
    { pageId := 3, pinned := true, sequenceNums := [3] }
    r1 (by decide) (by decide) (by decide) (by decide)
    r2 (by decide) (by decide) (by decide) (by decide)
  obtain ⟨⟨s1, h1, -, h2, h3, -⟩, ⟨t1, k1, -, k2, k3, -⟩⟩ := h
  exact ⟨⟨r1, by decide, by decide, by decide, by decide,
      r2, by decide, by decide, by decide, by decide⟩,
    ⟨s1, h1, h2, h3⟩, ⟨t1, k1, k2, k3⟩⟩

/-! ## `setMaxNumPages` evicts in iteration order -/

theorem evictInOrder_zero (u : Nat × Nat → Bool) (m : Directory) : evictInOrder u 0 m = m := by
  cases m <;> rfl

theorem evictInOrder_congr (u v : Nat × Nat → Bool) (k : Nat) (m : Directory)
    (h : ∀ e ∈ m, u e = v e) : evictInOrder u k m = evictInOrder v k m := by
  induction m generalizing k with
  | nil => cases k <;> rfl
  | cons e rest ih =>
    cases k with
    | zero => rfl
    | succ k =>
      have he := h e (List.mem_cons_self _ _)
      have hr : ∀ x ∈ rest, u x = v x := fun x hx => h x (List.mem_cons_of_mem _ hx)
      simp only [evictInOrder, he, ih _ hr]

theorem evictInOrder_length (u : Nat × Nat → Bool) (k : Nat) (m : Directory) :
    (evictInOrder u k m).length = m.length - min k (m.countP u) := by
  induction m generalizing k with
  | nil => cases k <;> simp [evictInOrder]
  | cons e rest ih =>
    cases k with
    | zero => simp [evictInOrder]
    | succ k =>
      have hc := List.countP_le_length u (l := rest)
      cases hu : u e with
      | true =>
        have h1 : evictInOrder u (k + 1) (e :: rest) = evictInOrder u k rest := by
          simp [evictInOrder, hu]
        have h2 : (e :: rest).countP u = rest.countP u + 1 := by
          simp [List.countP_cons, hu]
        rw [h1, h2, ih, List.length_cons]
        rcases Nat.le_total k (rest.countP u) with h | h
        · rw [Nat.min_eq_left h, Nat.min_eq_left (by omega)]
          omega
        · rw [Nat.min_eq_right h, Nat.min_eq_right (by omega)]
          omega
      | false =>
        have h1 : evictInOrder u (k + 1) (e :: rest) = e :: evictInOrder u (k + 1) rest := by
          simp [evictInOrder, hu]
        have h2 : (e :: rest).countP u = rest.countP u := by
          simp [List.countP_cons, hu]
        rw [h1, h2, List.length_cons, ih, List.length_cons]
        rcases Nat.le_total (k + 1) (rest.countP u) with h | h
        · rw [Nat.min_eq_left h]
          omega
        · rw [Nat.min_eq_right h]
          omega

theorem evictInOrder_mem (u : Nat × Nat → Bool) (k : Nat) (m : Directory) (e : Nat × Nat)
    (h : e ∈ evictInOrder u k m) : e ∈ m := by
  induction m generalizing k with
  | nil => cases k <;> simp [evictInOrder] at h
  | cons x rest ih =>
    cases k with
    | zero => simpa [evictInOrder] using h
    | succ k =>
      cases hu : u x with
      | true =>
        simp only [evictInOrder, hu, if_true] at h
        exact List.mem_cons_of_mem _ (ih _ h)
      | false =>
        simp only [evictInOrder, hu] at h
        simp at h
        rcases h with h | h
        · exact h ▸ List.mem_cons_self _ _
        · exact List.mem_cons_of_mem _ (ih _ h)

theorem evictInOrder_keeps (u : Nat × Nat → Bool) (k : Nat) (m : Directory) (e : Nat × Nat)
    (h : e ∈ m) (hu : u e = false) : e ∈ evictInOrder u k m := by
  induction m generalizing k with
  | nil => cases h
  | cons x rest ih =>
    cases k with
    | zero => simpa [evictInOrder] using h
    | succ k =>
      rcases List.mem_cons.mp h with h1 | h1
      · subst h1
        simp [evictInOrder, hu]
      · cases hx : u x with
        | true =>
          simp only [evictInOrder, hx, if_true]
          exact ih _ h1
        | false =>
          simp only [evictInOrder, hx]
          exact List.mem_cons_of_mem _ (ih _ h1)

theorem lruIsUnpinned_free (heap : List (Option LRUReplacementPage)) (a : Nat) (e : Nat × Nat)
    (h : e.2 ≠ a) : lruIsUnpinned (free heap a) e = lruIsUnpinned heap e := by
  simp [lruIsUnpinned, deref_free_other heap (fun x => h x.symm)]

/-- The loop of `setMaxNumPages` on entries that hold live, pairwise distinct
pages: it removes the first unpinned entries in iteration order, as many as
the size exceeds the limit, deletes their pages and touches nothing else. -/
theorem lru_setMaxLoop_spec (n : Int) (heap : List (Option LRUReplacementPage))
    (rest kept : Directory)
    (hlive : ∀ e ∈ rest, ∃ p, deref heap e.2 = some p)
    (hnd : (rest.map Prod.snd).Nodup) :
    ∃ heap1,
      LRUState.setMaxLoop n heap rest kept
        = some (kept.reverse ++
            evictInOrder (lruIsUnpinned heap)
              (((kept.length + rest.length : Nat) : Int) - n).toNat rest, heap1)
      ∧ (∀ a, (∀ e ∈ rest, e.2 = a →
            e ∈ evictInOrder (lruIsUnpinned heap)
              (((kept.length + rest.length : Nat) : Int) - n).toNat rest) →
          deref heap1 a = deref heap a)
      ∧ (∀ e ∈ rest,
          e ∉ evictInOrder (lruIsUnpinned heap)
            (((kept.length + rest.length : Nat) : Int) - n).toNat rest →
          deref heap1 e.2 = none ∧ lruIsUnpinned heap e = true) := by
  induction rest generalizing heap kept with
  | nil =>
    refine ⟨heap, ?_, fun a _ => rfl, fun e he => absurd he (List.not_mem_nil _)⟩
    simp [LRUState.setMaxLoop, evictInOrder_zero]
    cases (((kept.length : Nat) : Int) - n).toNat <;> rfl
  | cons x rest ih =>
    obtain ⟨p, hp⟩ := hlive x (List.mem_cons_self _ _)
    have hrest : ∀ e ∈ rest, ∃ p, deref heap e.2 = some p :=
      fun e he => hlive e (List.mem_cons_of_mem _ he)
    simp only [List.map_cons, List.nodup_cons] at hnd
    obtain ⟨hx, hnd1⟩ := hnd
    have hne : ∀ e ∈ rest, e.2 ≠ x.2 := by
      intro e he heq
      exact hx (heq ▸ List.mem_map_of_mem Prod.snd he)
    by_cases hle : ((kept.length + (rest.length + 1) : Nat) : Int) ≤ n
    · have hk : (((kept.length + (x :: rest).length : Nat) : Int) - n).toNat = 0 := by
        simp only [List.length_cons]
        omega
      rw [hk]
      refine ⟨heap, ?_, fun a _ => rfl, ?_⟩
      · simp only [LRUState.setMaxLoop, hle, if_true, evictInOrder_zero]
      · intro e he hn
        rw [evictInOrder_zero] at hn
        exact absurd he hn
    · have hk : (((kept.length + (x :: rest).length : Nat) : Int) - n).toNat
          = (((kept.length + rest.length : Nat) : Int) - n).toNat + 1 := by
        simp only [List.length_cons]
        omega
      rw [hk]
      cases hpin : p.pinned with
      | false =>
        have hux : lruIsUnpinned heap x = true := by simp [lruIsUnpinned, hp, hpin]
        have hrest1 : ∀ e ∈ rest, ∃ p, deref (free heap x.2) e.2 = some p := by
          intro e he
          obtain ⟨q, hq⟩ := hrest e he
          exact ⟨q, by rw [deref_free_other heap (fun h => hne e he h.symm)]; exact hq⟩
        obtain ⟨heap1, h1, h2, h3⟩ := ih (free heap x.2) kept hrest1 hnd1
        have hc : evictInOrder (lruIsUnpinned (free heap x.2))
              (((kept.length + rest.length : Nat) : Int) - n).toNat rest
            = evictInOrder (lruIsUnpinned heap)
              (((kept.length + rest.length : Nat) : Int) - n).toNat rest :=
          evictInOrder_congr _ _ _ _ (fun e he => lruIsUnpinned_free heap x.2 e (hne e he))
        rw [hc] at h1 h2 h3
        refine ⟨heap1, ?_, ?_, ?_⟩
        · simp only [LRUState.setMaxLoop, hle, if_false, hp, hpin, Bool.not_false, if_true, h1,
            evictInOrder, hux]
        · intro a ha
          simp only [evictInOrder, hux, if_true] at ha
          have hax : a ≠ x.2 := by
            intro heq
            have := ha x (List.mem_cons_self _ _) heq.symm
            exact hx (List.mem_map_of_mem Prod.snd (evictInOrder_mem _ _ _ _ this))
          rw [h2 a (fun e he hea => ha e (List.mem_cons_of_mem _ he) hea)]
          exact deref_free_other heap (fun h => hax h.symm)
        · intro e he hn
          simp only [evictInOrder, hux, if_true] at hn
          rcases List.mem_cons.mp he with h4 | h4
          · subst h4
            refine ⟨?_, hux⟩
            rw [h2 e.2 (fun y hy hye => absurd hye (hne y hy))]
            exact deref_free_same heap e.2
          · obtain ⟨h5, h6⟩ := h3 e h4 hn
            exact ⟨h5, by rw [← lruIsUnpinned_free heap x.2 e (hne e h4)]; exact h6⟩
      | true =>
        have hux : lruIsUnpinned heap x = false := by simp [lruIsUnpinned, hp, hpin]
        obtain ⟨heap1, h1, h2, h3⟩ := ih heap (x :: kept) hrest hnd1
        have hk2 : ((((x :: kept).length + rest.length : Nat) : Int) - n).toNat
            = (((kept.length + rest.length : Nat) : Int) - n).toNat + 1 := by
          simp only [List.length_cons]
          omega
        rw [hk2] at h1 h2 h3
        refine ⟨heap1, ?_, ?_, ?_⟩
        · simp only [LRUState.setMaxLoop, hle, if_false, hp, hpin, Bool.not_true, h1,
            evictInOrder, hux, Bool.false_eq_true, List.reverse_cons, List.append_assoc,
            List.singleton_append]
        · intro a ha
          simp only [evictInOrder, hux, Bool.false_eq_true, if_false] at ha
          exact h2 a (fun e he hea => by
            have := ha e (List.mem_cons_of_mem _ he) hea
            rcases List.mem_cons.mp this with h4 | h4
            · exact absurd (h4 ▸ rfl) (hne e he)
            · exact h4)
        · intro e he hn
          simp only [evictInOrder, hux, Bool.false_eq_true, if_false] at hn
          rcases List.mem_cons.mp he with h4 | h4
          · subst h4
            exact absurd (List.mem_cons_self _ _) hn
          · exact h3 e h4 (fun h5 => hn (List.mem_cons_of_mem _ h5))

/-- On a state of the LRU cache whose directory entries hold live, pairwise
distinct pages, `setMaxNumPages(n)` is defined, sets `maxNumPages_`, removes
the first unpinned entries in iteration order, as many as the size exceeds
`n`, deletes their pages and leaves every other entry and page as it was; the
number of pages afterwards is the smaller of the old number and the larger of
`n` and the number of entries with a pinned page. -/
theorem lru_setMaxNumPages_of_live (s : LRUState) (n : Int)
    (hlive : ∀ e ∈ s.cachedPages, ∃ p, deref s.heap e.2 = some p)
    (hnd : (s.cachedPages.map Prod.snd).Nodup) :
    ∃ s1 : LRUState,
      s.setMaxNumPages n = some s1
      ∧ s1 = { s with maxNumPages_ := n, cachedPages := s1.cachedPages, heap := s1.heap }
      ∧ s1.cachedPages
          = evictInOrder (lruIsUnpinned s.heap) (s.getNumPages - n).toNat s.cachedPages
      ∧ (∀ e ∈ s1.cachedPages, e ∈ s.cachedPages ∧ deref s1.heap e.2 = deref s.heap e.2)
      ∧ (∀ e ∈ s.cachedPages, e ∉ s1.cachedPages →
          deref s1.heap e.2 = none ∧ lruIsUnpinned s.heap e = true)
      ∧ s1.getNumPages
          = min s.getNumPages
              (max n ((s.cachedPages.length - s.cachedPages.countP (lruIsUnpinned s.heap) : Nat) :
                Int)) := by
  obtain ⟨heap1, h1, h2, h3⟩ := lru_setMaxLoop_spec n s.heap s.cachedPages [] hlive hnd
  simp only [List.length_nil, Nat.zero_add, List.reverse_nil, List.nil_append] at h1 h2 h3
  refine ⟨{ s with maxNumPages_ := n,
                   cachedPages := evictInOrder (lruIsUnpinned s.heap)
                     (s.getNumPages - n).toNat s.cachedPages,
                   heap := heap1 }, ?_, rfl, rfl, ?_, ?_, ?_⟩
  · simp only [LRUState.setMaxNumPages, h1, LRUState.getNumPages]
  · intro e he
    have hm := evictInOrder_mem _ _ _ _ he
    refine ⟨hm, ?_⟩
    apply h2
    intro y hy hye
    have hyx : y = e := by
      have hinj := List.inj_on_of_nodup_map hnd
      exact hinj hy hm hye
    rw [hyx]
    exact he
  · intro e he hn
    exact h3 e he hn
  · simp only [LRUState.getNumPages, evictInOrder_length]
    have hc := List.countP_le_length (lruIsUnpinned s.heap) (l := s.cachedPages)
    rcases Nat.le_total ((s.cachedPages.length : Int) - n).toNat
        (s.cachedPages.countP (lruIsUnpinned s.heap)) with h | h
    · rw [Nat.min_eq_left h]
      omega
    · rw [Nat.min_eq_right h]
      omega

/-- C15, counterexample.  In the LRU cache `setMaxNumPages` removes the entry
that comes first in the iteration, whatever its stamp.  With capacity 2 and
pages 1 and 2 (addresses 0 and 1) fetched in that order, so that the
directory lists page 2 first, unpinning page 1 and then page 2 gives them the
stamps 0 and 1; `setMaxNumPages(1)` removes page 2, with the larger stamp, and
keeps page 1.  Unpinning in the other order exchanges the stamps and
`setMaxNumPages(1)` still removes page 2. -/
theorem C15_setMaxNumPages_removes_newer_page :
    ((LRUState.init 4096 0 0).run
        [Op.setMaxNumPages 2, Op.fetchPage 1 true, Op.fetchPage 2 true,
         Op.unpinPage 0 false, Op.unpinPage 1 false]
      = some
        { maxNumPages_ := 2, pageSize_ := 4096, extraSize_ := 0,
          numFetches_ := 2, numHits_ := 0, usedOrder := 2,
          cachedPages := [(2, 1), (1, 0)],
          heap := [some { pageId := 1, pinned := false, sequenceNumber := 0 },
                   some { pageId := 2, pinned := false, sequenceNumber := 1 }] }
      ∧ LRUState.setMaxNumPages
        { maxNumPages_ := 2, pageSize_ := 4096, extraSize_ := 0,
          numFetches_ := 2, numHits_ := 0, usedOrder := 2,
          cachedPages := [(2, 1), (1, 0)],
          heap := [some { pageId := 1, pinned := false, sequenceNumber := 0 },
                   some { pageId := 2, pinned := false, sequenceNumber := 1 }] }
        1
      = some
        { maxNumPages_ := 1, pageSize_ := 4096, extraSize_ := 0,
          numFetches_ := 2, numHits_ := 0, usedOrder := 2,
          cachedPages := [(1, 0)],
          heap := [some { pageId := 1, pinned := false, sequenceNumber := 0 }, none] })
    ∧ ((LRUState.init 4096 0 0).run
        [Op.setMaxNumPages 2, Op.fetchPage 1 true, Op.fetchPage 2 true,
         Op.unpinPage 1 false, Op.unpinPage 0 false]
      = some
        { maxNumPages_ := 2, pageSize_ := 4096, extraSize_ := 0,
          numFetches_ := 2, numHits_ := 0, usedOrder := 2,
          cachedPages := [(2, 1), (1, 0)],
          heap := [some { pageId := 1, pinned := false, sequenceNumber := 1 },
                   some { pageId := 2, pinned := false, sequenceNumber := 0 }] }
      ∧ LRUState.setMaxNumPages
        { maxNumPages_ := 2, pageSize_ := 4096, extraSize_ := 0,
          numFetches_ := 2, numHits_ := 0, usedOrder := 2,
          cachedPages := [(2, 1), (1, 0)],
          heap := [some { pageId := 1, pinned := false, sequenceNumber := 1 },
                   some { pageId := 2, pinned := false, sequenceNumber := 0 }] }
        1
      = some
        { maxNumPages_ := 1, pageSize_ := 4096, extraSize_ := 0,
          numFetches_ := 2, numHits_ := 0, usedOrder := 2,
          cachedPages := [(1, 0)],
          heap := [some { pageId := 1, pinned := false, sequenceNumber := 1 }, none] }) := by
  decide

/-- C15, as amended.  In the LRU cache, on a directory whose entries hold
live, pairwise distinct pages, `setMaxNumPages(n)` evicts unpinned pages in
the iteration order of the directory: the entries it removes are the first
unpinned entries in that order, as many as the number of pages exceeds `n`
(all unpinned entries when there are fewer), whatever their
`sequenceNumber`; the removed pages are deleted and were unpinned, and every
other entry stays with its page unchanged. -/
theorem C15_setMaxNumPages_evicts_in_iteration_order (s : LRUState) (n : Int)
    (hlive : ∀ e ∈ s.cachedPages, ∃ p, deref s.heap e.2 = some p)
    (hnd : (s.cachedPages.map Prod.snd).Nodup) :
    ∃ s1 : LRUState,
      s.setMaxNumPages n = some s1
      ∧ s1.maxNumPages_ = n
      ∧ s1.cachedPages
          = evictInOrder (lruIsUnpinned s.heap) (s.getNumPages - n).toNat s.cachedPages
      ∧ (∀ e ∈ s1.cachedPages, e ∈ s.cachedPages ∧ deref s1.heap e.2 = deref s.heap e.2)
      ∧ (∀ e ∈ s.cachedPages, e ∉ s1.cachedPages →
          deref s1.heap e.2 = none ∧ lruIsUnpinned s.heap e = true) := by
  obtain ⟨s1, h1, h2, h3, h4, h5, -⟩ := lru_setMaxNumPages_of_live s n hlive hnd
  refine ⟨s1, h1, ?_, h3, h4, h5⟩
  rw [h2]

/-- C15 as amended, at a concrete input: the LRU cache of scenario 1 of the
specification, with pages 1, 2, 3 unpinned in that order and the directory
listing page 3 first; `setMaxNumPages(2)` removes page 3, the most recently
unpinned page. -/
theorem C15_setMaxNumPages_evicts_in_iteration_order_witness :
    ((∀ e ∈ lruFull.cachedPages, ∃ p, deref lruFull.heap e.2 = some p)
      ∧ (lruFull.cachedPages.map Prod.snd).Nodup)
    ∧ ∃ s1 : LRUState,
      lruFull.setMaxNumPages 2 = some s1
      ∧ s1.maxNumPages_ = 2
      ∧ s1.cachedPages = [(2, 1), (1, 0)] := by
  have hl : ∀ e ∈ lruFull.cachedPages, ∃ p, deref lruFull.heap e.2 = some p := by
    intro e he
    obtain ⟨p, hp, -⟩ := lruFull_healthy e he
    exact ⟨p, hp⟩
  have hn : (lruFull.cachedPages.map Prod.snd).Nodup := by decide
  obtain ⟨s1, h1, h2, h3, -⟩ :=
    C15_setMaxNumPages_evicts_in_iteration_order lruFull 2 hl hn
  refine ⟨⟨hl, hn⟩, s1, h1, h2, ?_⟩
  rw [h3]
  decide

theorem isUnpinned_free (heap : List (Option LRU2ReplacementPage)) (a : Nat) (e : Nat × Nat)
    (h : e.2 ≠ a) : isUnpinned (free heap a) e = isUnpinned heap e := by
  simp [isUnpinned, deref_free_other heap (fun x => h x.symm)]

/-- The loop of `setMaxNumPages` on entries that hold live, pairwise distinct
pages: it removes the first unpinned entries in iteration order, as many as
the size exceeds the limit, deletes their pages and touches nothing else. -/
theorem lru2_setMaxLoop_spec (n : Int) (heap : List (Option LRU2ReplacementPage))
    (rest kept : Directory)
    (hlive : ∀ e ∈ rest, ∃ p, deref heap e.2 = some p)
    (hnd : (rest.map Prod.snd).Nodup) :
    ∃ heap1,
      LRU2State.setMaxLoop n heap rest kept
        = some (kept.reverse ++
            evictInOrder (isUnpinned heap)
              (((kept.length + rest.length : Nat) : Int) - n).toNat rest, heap1)
      ∧ (∀ a, (∀ e ∈ rest, e.2 = a →
            e ∈ evictInOrder (isUnpinned heap)
              (((kept.length + rest.length : Nat) : Int) - n).toNat rest) →
          deref heap1 a = deref heap a)
      ∧ (∀ e ∈ rest,
          e ∉ evictInOrder (isUnpinned heap)
            (((kept.length + rest.length : Nat) : Int) - n).toNat rest →
          deref heap1 e.2 = none ∧ isUnpinned heap e = true) := by
  induction rest generalizing heap kept with
  | nil =>
    refine ⟨heap, ?_, fun a _ => rfl, fun e he => absurd he (List.not_mem_nil _)⟩
    simp [LRU2State.setMaxLoop, evictInOrder_zero]
    cases (((kept.length : Nat) : Int) - n).toNat <;> rfl
  | cons x rest ih =>
    obtain ⟨p, hp⟩ := hlive x (List.mem_cons_self _ _)
    have hrest : ∀ e ∈ rest, ∃ p, deref heap e.2 = some p :=
      fun e he => hlive e (List.mem_cons_of_mem _ he)
    simp only [List.map_cons, List.nodup_cons] at hnd
    obtain ⟨hx, hnd1⟩ := hnd
    have hne : ∀ e ∈ rest, e.2 ≠ x.2 := by
      intro e he heq
      exact hx (heq ▸ List.mem_map_of_mem Prod.snd he)
    by_cases hle : ((kept.length + (rest.length + 1) : Nat) : Int) ≤ n
    · have hk : (((kept.length + (x :: rest).length : Nat) : Int) - n).toNat = 0 := by
        simp only [List.length_cons]
        omega
      rw [hk]
      refine ⟨heap, ?_, fun a _ => rfl, ?_⟩
      · simp only [LRU2State.setMaxLoop, hle, if_true, evictInOrder_zero]
      · intro e he hn
        rw [evictInOrder_zero] at hn
        exact absurd he hn
    · have hk : (((kept.length + (x :: rest).length : Nat) : Int) - n).toNat
          = (((kept.length + rest.length : Nat) : Int) - n).toNat + 1 := by
        simp only [List.length_cons]
        omega
      rw [hk]
      cases hpin : p.pinned with
      | false =>
        have hux : isUnpinned heap x = true := by simp [isUnpinned, hp, hpin]
        have hrest1 : ∀ e ∈ rest, ∃ p, deref (free heap x.2) e.2 = some p := by
          intro e he
          obtain ⟨q, hq⟩ := hrest e he
          exact ⟨q, by rw [deref_free_other heap (fun h => hne e he h.symm)]; exact hq⟩
        obtain ⟨heap1, h1, h2, h3⟩ := ih (free heap x.2) kept hrest1 hnd1
        have hc : evictInOrder (isUnpinned (free heap x.2))
              (((kept.length + rest.length : Nat) : Int) - n).toNat rest
            = evictInOrder (isUnpinned heap)
              (((kept.length + rest.length : Nat) : Int) - n).toNat rest :=
          evictInOrder_congr _ _ _ _ (fun e he => isUnpinned_free heap x.2 e (hne e he))
        rw [hc] at h1 h2 h3
        refine ⟨heap1, ?_, ?_, ?_⟩
        · simp only [LRU2State.setMaxLoop, hle, if_false, hp, hpin, Bool.not_false, if_true, h1,
            evictInOrder, hux]
        · intro a ha
          simp only [evictInOrder, hux, if_true] at ha
          have hax : a ≠ x.2 := by
            intro heq
            have := ha x (List.mem_cons_self _ _) heq.symm
            exact hx (List.mem_map_of_mem Prod.snd (evictInOrder_mem _ _ _ _ this))
          rw [h2 a (fun e he hea => ha e (List.mem_cons_of_mem _ he) hea)]
          exact deref_free_other heap (fun h => hax h.symm)
        · intro e he hn
          simp only [evictInOrder, hux, if_true] at hn
          rcases List.mem_cons.mp he with h4 | h4
          · subst h4
            refine ⟨?_, hux⟩
            rw [h2 e.2 (fun y hy hye => absurd hye (hne y hy))]
            exact deref_free_same heap e.2
          · obtain ⟨h5, h6⟩ := h3 e h4 hn
            exact ⟨h5, by rw [← isUnpinned_free heap x.2 e (hne e h4)]; exact h6⟩
      | true =>
        have hux : isUnpinned heap x = false := by simp [isUnpinned, hp, hpin]
        obtain ⟨heap1, h1, h2, h3⟩ := ih heap (x :: kept) hrest hnd1
        have hk2 : ((((x :: kept).length + rest.length : Nat) : Int) - n).toNat
            = (((kept.length + rest.length : Nat) : Int) - n).toNat + 1 := by
          simp only [List.length_cons]
          omega
        rw [hk2] at h1 h2 h3
        refine ⟨heap1, ?_, ?_, ?_⟩
        · simp only [LRU2State.setMaxLoop, hle, if_false, hp, hpin, Bool.not_true, h1,
            evictInOrder, hux, Bool.false_eq_true, List.reverse_cons, List.append_assoc,
            List.singleton_append]
        · intro a ha
          simp only [evictInOrder, hux, Bool.false_eq_true, if_false] at ha
          exact h2 a (fun e he hea => by
            have := ha e (List.mem_cons_of_mem _ he) hea
            rcases List.mem_cons.mp this with h4 | h4
            · exact absurd (h4 ▸ rfl) (hne e he)
            · exact h4)
        · intro e he hn
          simp only [evictInOrder, hux, Bool.false_eq_true, if_false] at hn
          rcases List.mem_cons.mp he with h4 | h4
          · subst h4
            exact absurd (List.mem_cons_self _ _) hn
          · exact h3 e h4 (fun h5 => hn (List.mem_cons_of_mem _ h5))


/-- On a state of the LRU-2 cache whose directory entries hold live, pairwise
distinct pages, `setMaxNumPages(n)` is defined, sets `maxNumPages_`, removes
the first unpinned entries in iteration order, as many as the size exceeds
`n`, deletes their pages and leaves every other entry and page as it was; the
number of pages afterwards is the smaller of the old number and the larger of
`n` and the number of entries with a pinned page. -/
theorem lru2_setMaxNumPages_of_live (s : LRU2State) (n : Int)
    (hlive : ∀ e ∈ s.cachedPages, ∃ p, deref s.heap e.2 = some p)
    (hnd : (s.cachedPages.map Prod.snd).Nodup) :
    ∃ s1 : LRU2State,
      s.setMaxNumPages n = some s1
      ∧ s1 = { s with maxNumPages_ := n, cachedPages := s1.cachedPages, heap := s1.heap }
      ∧ s1.cachedPages
          = evictInOrder (isUnpinned s.heap) (s.getNumPages - n).toNat s.cachedPages
      ∧ (∀ e ∈ s1.cachedPages, e ∈ s.cachedPages ∧ deref s1.heap e.2 = deref s.heap e.2)
      ∧ (∀ e ∈ s.cachedPages, e ∉ s1.cachedPages →
          deref s1.heap e.2 = none ∧ isUnpinned s.heap e = true)
      ∧ s1.getNumPages
          = min s.getNumPages
              (max n ((s.cachedPages.length - s.cachedPages.countP (isUnpinned s.heap) : Nat) :
                Int)) := by
  obtain ⟨heap1, h1, h2, h3⟩ := lru2_setMaxLoop_spec n s.heap s.cachedPages [] hlive hnd
  simp only [List.length_nil, Nat.zero_add, List.reverse_nil, List.nil_append] at h1 h2 h3
  refine ⟨{ s with maxNumPages_ := n,
                   cachedPages := evictInOrder (isUnpinned s.heap)
                     (s.getNumPages - n).toNat s.cachedPages,
                   heap := heap1 }, ?_, rfl, rfl, ?_, ?_, ?_⟩
  · simp only [LRU2State.setMaxNumPages, h1, LRU2State.getNumPages]
  · intro e he
    have hm := evictInOrder_mem _ _ _ _ he
    refine ⟨hm, ?_⟩
    apply h2
    intro y hy hye
    have hyx : y = e := by
      have hinj := List.inj_on_of_nodup_map hnd
      exact hinj hy hm hye
    rw [hyx]
    exact he
  · intro e he hn
    exact h3 e he hn
  · simp only [LRU2State.getNumPages, evictInOrder_length]
    have hc := List.countP_le_length (isUnpinned s.heap) (l := s.cachedPages)
    rcases Nat.le_total ((s.cachedPages.length : Int) - n).toNat
        (s.cachedPages.countP (isUnpinned s.heap)) with h | h
    · rw [Nat.min_eq_left h]
      omega
    · rw [Nat.min_eq_right h]
      omega

/-! ## The alignment of the page buffer -/

theorem land_alignMask (x : Nat) (hx : x < 18446744073709551616) :
    x &&& alignMask = 4 * (x / 4) := by
  apply Nat.eq_of_testBit_eq
  intro j
  have hm : alignMask = 2 ^ 64 - (3 + 1) := by decide
  have hd : x = 2 ^ 2 * (x / 4) + x % 4 := by omega
  have hr : x % 4 < 2 ^ 2 := by omega
  have h0 : 4 * (x / 4) = 2 ^ 2 * (x / 4) + 0 := by omega
  rw [Nat.testBit_and, hm, Nat.testBit_two_pow_sub_succ (by decide), h0,
    Nat.testBit_mul_pow_two_add (x / 4) (by decide : 0 < 2 ^ 2) j]
  conv_lhs => rw [hd, Nat.testBit_mul_pow_two_add (x / 4) hr j]
  by_cases hj : j < 2
  · have h3 : Nat.testBit 3 j = true := by
      rcases Nat.lt_succ_iff.mp hj with h
      interval_cases j <;> decide
    simp [hj, h3]
  · have h3 : Nat.testBit 3 j = false := by
      apply Nat.testBit_lt_two_pow
      have : 2 ^ 2 ≤ 2 ^ j := Nat.pow_le_pow_right (by decide) (by omega)
      omega
    simp only [hj, if_false, h3, Bool.not_false, Bool.and_true]
    by_cases h64 : j < 64
    · simp [h64]
    · have hq : (x / 4).testBit (j - 2) = false := by
        apply Nat.testBit_lt_two_pow
        have h1 : 2 ^ 62 ≤ 2 ^ (j - 2) := Nat.pow_le_pow_right (by decide) (by omega)
        have h2 : x / 4 < 2 ^ 62 := by
          have : (2 : Nat) ^ 62 = 4611686018427387904 := by decide
          omega
        omega
      simp [h64, hq]

/-- The pointer that the constructor of `Page` exposes is the sum rounded down
to a multiple of 4; for a block address that is a multiple of 8 it is that
address plus 4. -/
theorem pBuf_of_aligned (a : Nat) (ha : a % 8 = 0) (hlt : a + 7 < 18446744073709551616) :
    Page.pBuf a = a + 4 ∧ Page.pBuf a % 8 = 4 := by
  have h : Page.pBuf a = 4 * ((a + 7) / 4) := by
    simp only [Page.pBuf, Nat.mod_eq_of_lt hlt]
    exact land_alignMask _ hlt
  rw [h]
  omega

/-- C20 (the code diverges). The constructor of `Page` masks with `~0x3`,
which clears two bits and rounds down to a multiple of 4, where a multiple of
8 needs `~0x7`.  For the block addresses 16, 4096 and 140737488355328, all
multiples of 16 as `calloc` returns them, the exposed pointer is the address
plus 4 and leaves the remainder 4 modulo 8. -/
theorem C20_pBuf_is_not_8_byte_aligned :
    Page.pBuf 16 = 20 ∧ Page.pBuf 16 % 8 = 4
    ∧ Page.pBuf 4096 = 4100 ∧ Page.pBuf 4096 % 8 = 4
    ∧ Page.pBuf 140737488355328 = 140737488355332
    ∧ Page.pBuf 140737488355328 % 8 = 4 := by
  decide

/-! ## `changePageId` and `discardPages` when every `pageId` is the key -/

theorem find_eq_none_iff (m : Directory) (k : Nat) :
    find m k = none ↔ k ∉ m.map Prod.fst := by
  induction m with
  | nil => simp [find]
  | cons e rest ih =>
    by_cases h : e.1 = k
    · simp [find, h]
    · have h2 : ¬ k = e.1 := fun x => h x.symm
      simp [find, h, h2, ih]

theorem find_eraseKey_ne (m : Directory) (k j : Nat) (h : j ≠ k) :
    find (eraseKey m k) j = find m j := by
  induction m with
  | nil => rfl
  | cons e rest ih =>
    by_cases hk : e.1 = k
    · have hj : ¬ e.1 = j := fun x => h (x.symm.trans hk)
      rw [eraseKey, if_pos hk, find, if_neg hj]
    · by_cases hj : e.1 = j
      · rw [eraseKey, if_neg hk, find, if_pos hj, find, if_pos hj]
      · rw [eraseKey, if_neg hk, find, if_neg hj, find, if_neg hj, ih]

theorem find_eraseKey_self (m : Directory) (k : Nat) (hnd : (m.map Prod.fst).Nodup) :
    find (eraseKey m k) k = none := by
  induction m with
  | nil => rfl
  | cons e rest ih =>
    simp only [List.map_cons, List.nodup_cons] at hnd
    by_cases hk : e.1 = k
    · simp only [eraseKey, hk, if_true]
      rw [find_eq_none_iff]
      rw [← hk]
      exact hnd.1
    · simp [eraseKey, find, hk, ih hnd.2]

theorem length_eraseKey (m : Directory) (k a : Nat) (h : find m k = some a) :
    (eraseKey m k).length + 1 = m.length := by
  induction m with
  | nil => simp [find] at h
  | cons e rest ih =>
    by_cases hk : e.1 = k
    · simp [eraseKey, hk]
    · simp only [find, hk, if_false] at h
      simp [eraseKey, hk, ih h]

theorem find_filter_lt (m : Directory) (limit k : Nat) :
    find (m.filter fun e => decide (e.1 < limit)) k
      = if k < limit then find m k else none := by
  induction m with
  | nil => simp [find]
  | cons e rest ih =>
    by_cases he : e.1 < limit
    · by_cases hk : e.1 = k
      · have : k < limit := hk ▸ he
        simp [List.filter_cons, he, find, hk, this]
      · simp [List.filter_cons, he, find, hk, ih]
    · by_cases hk : e.1 = k
      · have : ¬ k < limit := hk ▸ he
        simp [List.filter_cons, he, find, hk, ih, this]
      · simp [List.filter_cons, he, find, hk, ih]

/-- In the LRU cache, `changePageId` to an id that is not in the directory, on
a live page that the directory holds under its own `pageId`, in a directory
without duplicate keys: afterwards the directory maps the new id to the page
and nothing to the old id, the `pageId` field is the new id, `pinned` and the
stamp are unchanged, and so are the number of pages, every other key and every
other page. -/
theorem lru_changePageId_of_absent (s : LRUState) (a newPageId : Nat)
    (p : LRUReplacementPage) (hp : deref s.heap a = some p)
    (hown : find s.cachedPages p.pageId = some a)
    (hnew : find s.cachedPages newPageId = none)
    (hkeys : (s.cachedPages.map Prod.fst).Nodup) :
    ∃ s1 : LRUState,
      s.changePageId a newPageId = some s1
      ∧ s1 = { s with cachedPages := s1.cachedPages, heap := s1.heap }
      ∧ find s1.cachedPages newPageId = some a
      ∧ find s1.cachedPages p.pageId = none
      ∧ deref s1.heap a = some { p with pageId := newPageId }
      ∧ (∀ k, k ≠ newPageId → k ≠ p.pageId → find s1.cachedPages k = find s.cachedPages k)
      ∧ (∀ b, b ≠ a → deref s1.heap b = deref s.heap b)
      ∧ s1.getNumPages = s.getNumPages := by
  have hne : newPageId ≠ p.pageId := by
    intro h
    rw [h, hown] at hnew
    cases hnew
  have hf : find (eraseKey s.cachedPages p.pageId) newPageId = none := by
    rw [find_eraseKey_ne _ _ _ hne]
    exact hnew
  refine ⟨{ s with
      cachedPages := (newPageId, a) :: eraseKey s.cachedPages p.pageId,
      heap := store s.heap a { p with pageId := newPageId } }, ?_, rfl, ?_, ?_, ?_, ?_, ?_, ?_⟩
  · simp [LRUState.changePageId, hnew, hp, emplace, hf]
  · simp [find]
  · have h2 : ¬ newPageId = p.pageId := hne
    simp only [find, h2, if_false]
    exact find_eraseKey_self _ _ hkeys
  · exact deref_store_same _ (deref_lt hp)
  · intro k h1 h2
    have h3 : ¬ newPageId = k := fun x => h1 x.symm
    simp only [find, h3, if_false]
    exact find_eraseKey_ne _ _ _ h2
  · intro b hb
    exact deref_store_other s.heap _ (fun e => hb e.symm)
  · have := length_eraseKey _ _ _ hown
    simp only [LRUState.getNumPages, List.length_cons]
    omega

theorem lru_discardLoop_spec (limit : Nat) (m : Directory)
    (heap : List (Option LRUReplacementPage))
    (hkey : ∀ e ∈ m, ∃ p, deref heap e.2 = some p ∧ p.pageId = e.1)
    (hnd : (m.map Prod.snd).Nodup) :
    ∃ heap1,
      LRUState.discardLoop limit m heap
        = some (m.filter (fun e => decide (e.1 < limit)), heap1)
      ∧ (∀ a, (∀ e ∈ m, e.2 = a → e.1 < limit) → deref heap1 a = deref heap a)
      ∧ (∀ e ∈ m, ¬ e.1 < limit → deref heap1 e.2 = none) := by
  induction m generalizing heap with
  | nil => exact ⟨heap, rfl, fun a _ => rfl, fun e he => absurd he (List.not_mem_nil _)⟩
  | cons x rest ih =>
    obtain ⟨p, hp, hpk⟩ := hkey x (List.mem_cons_self _ _)
    simp only [List.map_cons, List.nodup_cons] at hnd
    obtain ⟨hx, hnd1⟩ := hnd
    have hne : ∀ e ∈ rest, e.2 ≠ x.2 := by
      intro e he heq
      exact hx (heq ▸ List.mem_map_of_mem Prod.snd he)
    by_cases hge : p.pageId ≥ limit
    · have hxl : ¬ x.1 < limit := by omega
      have hkey1 : ∀ e ∈ rest, ∃ q, deref (free heap x.2) e.2 = some q ∧ q.pageId = e.1 := by
        intro e he
        obtain ⟨q, hq, hqk⟩ := hkey e (List.mem_cons_of_mem _ he)
        exact ⟨q, by rw [deref_free_other heap (fun h => hne e he h.symm)]; exact hq, hqk⟩
      obtain ⟨heap1, h1, h2, h3⟩ := ih (free heap x.2) hkey1 hnd1
      refine ⟨heap1, ?_, ?_, ?_⟩
      · simp only [LRUState.discardLoop, hp, hge, if_true, h1, List.filter_cons, hxl,
          decide_False, Bool.false_eq_true, if_false]
      · intro a ha
        have hax : a ≠ x.2 := by
          intro heq
          exact hxl (ha x (List.mem_cons_self _ _) heq.symm)
        rw [h2 a (fun e he hea => ha e (List.mem_cons_of_mem _ he) hea)]
        exact deref_free_other heap (fun h => hax h.symm)
      · intro e he hel
        rcases List.mem_cons.mp he with h4 | h4
        · subst h4
          rw [h2 e.2 (fun y hy hye => absurd hye (hne y hy))]
          exact deref_free_same heap e.2
        · exact h3 e h4 hel
    · have hxl : x.1 < limit := by omega
      have hkey1 : ∀ e ∈ rest, ∃ q, deref heap e.2 = some q ∧ q.pageId = e.1 :=
        fun e he => hkey e (List.mem_cons_of_mem _ he)
      obtain ⟨heap1, h1, h2, h3⟩ := ih heap hkey1 hnd1
      refine ⟨heap1, ?_, ?_, ?_⟩
      · simp only [LRUState.discardLoop, hp, hge, if_false, h1, List.filter_cons, hxl,
          decide_True, if_true]
      · intro a ha
        exact h2 a (fun e he hea => ha e (List.mem_cons_of_mem _ he) hea)
      · intro e he hel
        rcases List.mem_cons.mp he with h4 | h4
        · subst h4
          exact absurd hxl hel
        · exact h3 e h4 hel

/-- In the LRU cache, on a directory whose entries hold live, pairwise distinct
pages with `pageId` equal to the key, `discardPages(limit)` keeps exactly the
entries with a key below the limit, with their pages unchanged, and deletes
the pages of the others, pinned or not. -/
theorem lru_discardPages_of_keyed (s : LRUState) (limit : Nat)
    (hkey : ∀ e ∈ s.cachedPages, ∃ p, deref s.heap e.2 = some p ∧ p.pageId = e.1)
    (hnd : (s.cachedPages.map Prod.snd).Nodup) :
    ∃ s1 : LRUState,
      s.discardPages limit = some s1
      ∧ s1 = { s with cachedPages := s1.cachedPages, heap := s1.heap }
      ∧ s1.cachedPages = s.cachedPages.filter (fun e => decide (e.1 < limit))
      ∧ (∀ k, find s1.cachedPages k = if k < limit then find s.cachedPages k else none)
      ∧ (∀ e ∈ s1.cachedPages, deref s1.heap e.2 = deref s.heap e.2)
      ∧ (∀ e ∈ s.cachedPages, ¬ e.1 < limit → deref s1.heap e.2 = none) := by
  obtain ⟨heap1, h1, h2, h3⟩ := lru_discardLoop_spec limit s.cachedPages s.heap hkey hnd
  refine ⟨{ s with cachedPages := s.cachedPages.filter (fun e => decide (e.1 < limit)),
                   heap := heap1 }, ?_, rfl, rfl, fun k => find_filter_lt _ _ _, ?_, h3⟩
  · simp only [LRUState.discardPages, h1]
  · intro e he
    simp only [List.mem_filter, decide_eq_true_eq] at he
    apply h2
    intro y hy hye
    have hyx : y = e := List.inj_on_of_nodup_map hnd hy he.1 hye
    rw [hyx]
    exact he.2

/-- In the LRU-2 cache, `changePageId` to an id that is not in the directory, on
a live page that the directory holds under its own `pageId`, in a directory
without duplicate keys: afterwards the directory maps the new id to the page
and nothing to the old id, the `pageId` field is the new id, `pinned` and the
queue of stamps are unchanged, and so are the number of pages, every other key and every
other page. -/
theorem lru2_changePageId_of_absent (s : LRU2State) (a newPageId : Nat)
    (p : LRU2ReplacementPage) (hp : deref s.heap a = some p)
    (hown : find s.cachedPages p.pageId = some a)
    (hnew : find s.cachedPages newPageId = none)
    (hkeys : (s.cachedPages.map Prod.fst).Nodup) :
    ∃ s1 : LRU2State,
      s.changePageId a newPageId = some s1
      ∧ s1 = { s with cachedPages := s1.cachedPages, heap := s1.heap }
      ∧ find s1.cachedPages newPageId = some a
      ∧ find s1.cachedPages p.pageId = none
      ∧ deref s1.heap a = some { p with pageId := newPageId }
      ∧ (∀ k, k ≠ newPageId → k ≠ p.pageId → find s1.cachedPages k = find s.cachedPages k)
      ∧ (∀ b, b ≠ a → deref s1.heap b = deref s.heap b)
      ∧ s1.getNumPages = s.getNumPages := by
  have hne : newPageId ≠ p.pageId := by
    intro h
    rw [h, hown] at hnew
    cases hnew
  have hf : find (eraseKey s.cachedPages p.pageId) newPageId = none := by
    rw [find_eraseKey_ne _ _ _ hne]
    exact hnew
  refine ⟨{ s with
      cachedPages := (newPageId, a) :: eraseKey s.cachedPages p.pageId,
      heap := store s.heap a { p with pageId := newPageId } }, ?_, rfl, ?_, ?_, ?_, ?_, ?_, ?_⟩
  · simp [LRU2State.changePageId, hnew, hp, emplace, hf]
  · simp [find]
  · have h2 : ¬ newPageId = p.pageId := hne
    simp only [find, h2, if_false]
    exact find_eraseKey_self _ _ hkeys
  · exact deref_store_same _ (deref_lt hp)
  · intro k h1 h2
    have h3 : ¬ newPageId = k := fun x => h1 x.symm
    simp only [find, h3, if_false]
    exact find_eraseKey_ne _ _ _ h2
  · intro b hb
    exact deref_store_other s.heap _ (fun e => hb e.symm)
  · have := length_eraseKey _ _ _ hown
    simp only [LRU2State.getNumPages, List.length_cons]
    omega

theorem lru2_discardLoop_spec (limit : Nat) (m : Directory)
    (heap : List (Option LRU2ReplacementPage))
    (hkey : ∀ e ∈ m, ∃ p, deref heap e.2 = some p ∧ p.pageId = e.1)
    (hnd : (m.map Prod.snd).Nodup) :
    ∃ heap1,
      LRU2State.discardLoop limit m heap
        = some (m.filter (fun e => decide (e.1 < limit)), heap1)
      ∧ (∀ a, (∀ e ∈ m, e.2 = a → e.1 < limit) → deref heap1 a = deref heap a)
      ∧ (∀ e ∈ m, ¬ e.1 < limit → deref heap1 e.2 = none) := by
  induction m generalizing heap with
  | nil => exact ⟨heap, rfl, fun a _ => rfl, fun e he => absurd he (List.not_mem_nil _)⟩
  | cons x rest ih =>
    obtain ⟨p, hp, hpk⟩ := hkey x (List.mem_cons_self _ _)
    simp only [List.map_cons, List.nodup_cons] at hnd
    obtain ⟨hx, hnd1⟩ := hnd
    have hne : ∀ e ∈ rest, e.2 ≠ x.2 := by
      intro e he heq
      exact hx (heq ▸ List.mem_map_of_mem Prod.snd he)
    by_cases hge : p.pageId ≥ limit
    · have hxl : ¬ x.1 < limit := by omega
      have hkey1 : ∀ e ∈ rest, ∃ q, deref (free heap x.2) e.2 = some q ∧ q.pageId = e.1 := by
        intro e he
        obtain ⟨q, hq, hqk⟩ := hkey e (List.mem_cons_of_mem _ he)
        exact ⟨q, by rw [deref_free_other heap (fun h => hne e he h.symm)]; exact hq, hqk⟩
      obtain ⟨heap1, h1, h2, h3⟩ := ih (free heap x.2) hkey1 hnd1
      refine ⟨heap1, ?_, ?_, ?_⟩
      · simp only [LRU2State.discardLoop, hp, hge, if_true, h1, List.filter_cons, hxl,
          decide_False, Bool.false_eq_true, if_false]
      · intro a ha
        have hax : a ≠ x.2 := by
          intro heq
          exact hxl (ha x (List.mem_cons_self _ _) heq.symm)
        rw [h2 a (fun e he hea => ha e (List.mem_cons_of_mem _ he) hea)]
        exact deref_free_other heap (fun h => hax h.symm)
      · intro e he hel
        rcases List.mem_cons.mp he with h4 | h4
        · subst h4
          rw [h2 e.2 (fun y hy hye => absurd hye (hne y hy))]
          exact deref_free_same heap e.2
        · exact h3 e h4 hel
    · have hxl : x.1 < limit := by omega
      have hkey1 : ∀ e ∈ rest, ∃ q, deref heap e.2 = some q ∧ q.pageId = e.1 :=
        fun e he => hkey e (List.mem_cons_of_mem _ he)
      obtain ⟨heap1, h1, h2, h3⟩ := ih heap hkey1 hnd1
      refine ⟨heap1, ?_, ?_, ?_⟩
      · simp only [LRU2State.discardLoop, hp, hge, if_false, h1, List.filter_cons, hxl,
          decide_True, if_true]
      · intro a ha
        exact h2 a (fun e he hea => ha e (List.mem_cons_of_mem _ he) hea)
      · intro e he hel
        rcases List.mem_cons.mp he with h4 | h4
        · subst h4
          exact absurd hxl hel
        · exact h3 e h4 hel

/-- In the LRU-2 cache, on a directory whose entries hold live, pairwise distinct
pages with `pageId` equal to the key, `discardPages(limit)` keeps exactly the
entries with a key below the limit, with their pages unchanged, and deletes
the pages of the others, pinned or not. -/
theorem lru2_discardPages_of_keyed (s : LRU2State) (limit : Nat)
    (hkey : ∀ e ∈ s.cachedPages, ∃ p, deref s.heap e.2 = some p ∧ p.pageId = e.1)
    (hnd : (s.cachedPages.map Prod.snd).Nodup) :
    ∃ s1 : LRU2State,
      s.discardPages limit = some s1
      ∧ s1 = { s with cachedPages := s1.cachedPages, heap := s1.heap }
      ∧ s1.cachedPages = s.cachedPages.filter (fun e => decide (e.1 < limit))
      ∧ (∀ k, find s1.cachedPages k = if k < limit then find s.cachedPages k else none)
      ∧ (∀ e ∈ s1.cachedPages, deref s1.heap e.2 = deref s.heap e.2)
      ∧ (∀ e ∈ s.cachedPages, ¬ e.1 < limit → deref s1.heap e.2 = none) := by
  obtain ⟨heap1, h1, h2, h3⟩ := lru2_discardLoop_spec limit s.cachedPages s.heap hkey hnd
  refine ⟨{ s with cachedPages := s.cachedPages.filter (fun e => decide (e.1 < limit)),
                   heap := heap1 }, ?_, rfl, rfl, fun k => find_filter_lt _ _ _, ?_, h3⟩
  · simp only [LRU2State.discardPages, h1]
  · intro e he
    simp only [List.mem_filter, decide_eq_true_eq] at he
    apply h2
    intro y hy hye
    have hyx : y = e := List.inj_on_of_nodup_map hnd hy he.1 hye
    rw [hyx]
    exact he.2

/-! ## Unpinned pages of the LRU cache have been stamped -/

theorem lru_step_unpinnedStamped (s s1 : LRUState) (op : Op) (h : s.step op = some s1)
    (hs : s.Stamped) (hu : s.UnpinnedStamped) : s1.UnpinnedStamped := by
  obtain ⟨h0, h1, -⟩ := hs
  cases op with
  | setMaxNumPages n =>
    obtain ⟨e, hl⟩ := lru_setMaxNumPages_shape s s1 n h
    intro a p hp hpin
    have hc : s1.usedOrder = s.usedOrder := by rw [e]
    rw [hc]
    exact hu a p (lru_setMaxLoop_heap _ _ _ _ _ _ hl a p hp) hpin
  | fetchPage pageId allocate =>
    simp only [LRUState.step, Option.map_eq_some'] at h
    obtain ⟨⟨r, s2⟩, h2, rfl⟩ := h
    obtain ⟨e, hh⟩ := lru_fetchPage_shape s s2 pageId allocate r h2
    have hc : s2.usedOrder = s.usedOrder := by rw [e]
    intro a p hp hpin
    rw [hc]
    rcases hh with hh | ⟨b, q, hq, hh⟩ | hh
    · rw [hh] at hp
      exact hu a p hp hpin
    · rw [hh] at hp
      rcases deref_store_cases _ _ _ _ _ hp with ⟨-, rfl⟩ | hp1
      · simp at hpin
      · exact hu a p hp1 hpin
    · rw [hh] at hp
      rcases deref_append_cases _ _ _ _ hp with ⟨-, rfl⟩ | hp1
      · simp at hpin
      · exact hu a p hp1 hpin
  | unpinPage b discard =>
    obtain ⟨q, hq, ⟨e, -⟩ | ⟨-, -, ho, e⟩⟩ := lru_unpinPage_shape s s1 b discard h
    · have hc : s1.usedOrder = s.usedOrder := by rw [e]
      intro a p hp hpin
      rw [hc]
      rw [e] at hp
      exact hu a p (deref_free _ _ _ _ hp).1 hpin
    · have hc : s1.usedOrder = s.usedOrder + 1 := by rw [e]
      intro a p hp hpin
      rw [hc]
      have hlt := toUnsigned_lt_succ s.usedOrder h0 h1 ho
      rw [e] at hp
      rcases deref_store_cases _ _ _ _ _ hp with ⟨-, rfl⟩ | hp1
      · exact hlt
      · exact lt_trans (hu a p hp1 hpin) hlt
  | changePageId b newPageId =>
    obtain ⟨-, q, hq, e⟩ := lru_changePageId_shape s s1 b newPageId h
    have hc : s1.usedOrder = s.usedOrder := by rw [e]
    intro a p hp hpin
    rw [hc]
    rw [e] at hp
    rcases deref_store_cases _ _ _ _ _ hp with ⟨-, rfl⟩ | hp1
    · exact hu b q hq hpin
    · exact hu a p hp1 hpin
  | discardPages limit =>
    obtain ⟨e, hl⟩ := lru_discardPages_shape s s1 limit h
    have hc : s1.usedOrder = s.usedOrder := by rw [e]
    intro a p hp hpin
    rw [hc]
    exact hu a p (lru_discardLoop_heap _ _ _ _ _ hl a p hp) hpin

theorem lru_run_unpinnedStamped (s s1 : LRUState) (ops : List Op)
    (h : s.run ops = some s1) (hs : s.Stamped) (hu : s.UnpinnedStamped) :
    s1.UnpinnedStamped := by
  induction ops generalizing s with
  | nil =>
    simp only [LRUState.run, Option.some.injEq] at h
    subst h
    exact hu
  | cons op ops ih =>
    unfold LRUState.run at h
    split at h
    · cases h
    · rename_i s2 hstep
      exact ih s2 h (lru_step_stamped s s2 op hstep hs)
        (lru_step_unpinnedStamped s s2 op hstep hs hu)

theorem lru_reachable_unpinnedStamped (s : LRUState) (h : s.Reachable) :
    s.UnpinnedStamped := by
  obtain ⟨pageSize, extraSize, order, ops, h0, h1, hrun⟩ := h
  refine lru_run_unpinnedStamped _ s ops hrun ⟨h0, h1, ?_⟩ ?_
  · intro a p hp
    simp [LRUState.init, deref] at hp
  · intro a p hp
    simp [LRUState.init, deref] at hp

/-- The victim search of the LRU cache on a heap whose live unpinned pages all
have a stamp below `bound`, started with `min` at least `bound` while
`replacement` is unassigned: at the end `replacement` is unassigned only if
`unpinnedFound` is false, and an assigned `replacement` is a live unpinned
page whose stamp is the final `min`. -/
theorem lru_scan_assigned (heap : List (Option LRUReplacementPage)) (bound : Nat)
    (hb : ∀ a p, deref heap a = some p → p.pinned = false → p.sequenceNumber < bound)
    (m : Directory) :
    ∀ (min : Nat) (uf : Bool) (r : Option Nat) (min1 : Nat) (uf1 : Bool) (r1 : Option Nat),
      LRUState.scan heap m min uf r = some (min1, uf1, r1) →
      (r = none → uf = false ∧ bound ≤ min) →
      (∀ a, r = some a →
        ∃ p, deref heap a = some p ∧ p.pinned = false ∧ p.sequenceNumber = min) →
      (r1 = none → uf1 = false)
        ∧ ∀ a, r1 = some a →
            ∃ p, deref heap a = some p ∧ p.pinned = false ∧ p.sequenceNumber = min1 := by
  induction m with
  | nil =>
    intro min uf r min1 uf1 r1 h h1 h2
    simp only [LRUState.scan, Option.some.injEq, Prod.mk.injEq] at h
    obtain ⟨rfl, rfl, rfl⟩ := h
    exact ⟨fun hr => (h1 hr).1, h2⟩
  | cons e rest ih =>
    intro min uf r min1 uf1 r1 h h1 h2
    unfold LRUState.scan at h
    split at h
    · cases h
    · rename_i p hp
      split at h
      · rename_i hpin
        have hpin1 : p.pinned = false := by simpa using hpin
        split at h
        · refine ih _ _ _ _ _ _ h (fun hr => by cases hr) ?_
          intro a ha
          simp only [Option.some.injEq] at ha
          subst ha
          exact ⟨p, hp, hpin1, rfl⟩
        · rename_i hle
          refine ih _ _ _ _ _ _ h ?_ h2
          intro hr
          have := (h1 hr).2
          have := hb e.2 p hp hpin1
          omega
      · exact ih _ _ _ _ _ _ h h1 h2

/-- C22. In every reachable state of the LRU cache the global counter
`usedOrder` is within `int`, and every live unpinned page (so every unpinned
resident page) has a `sequenceNumber` strictly smaller than `usedOrder`; it is
never the value `UINT_MAX` given at creation.  Hence the victim scan of
`fetchPage`, which starts from `min = usedOrder` with `unpinnedFound` false
and `replacement` unassigned, ends with `replacement` assigned whenever it
ends with `unpinnedFound` true: `replacement` is then a live unpinned page
whose stamp is the final `min`. -/
theorem C22_unpinned_pages_are_stamped_below_usedOrder
    (s : LRUState) (hs : s.Reachable) :
    (0 ≤ s.usedOrder ∧ s.usedOrder ≤ INT_MAX)
    ∧ (∀ a p, deref s.heap a = some p → p.pinned = false →
        (p.sequenceNumber : Int) < s.usedOrder
          ∧ p.sequenceNumber < toUnsigned s.usedOrder
          ∧ p.sequenceNumber ≠ UINT_MAX)
    ∧ (∀ e ∈ s.cachedPages, ∀ p, deref s.heap e.2 = some p → p.pinned = false →
        (p.sequenceNumber : Int) < s.usedOrder ∧ p.sequenceNumber ≠ UINT_MAX)
    ∧ (∀ min1 unpinnedFound replacement,
        LRUState.scan s.heap s.cachedPages (toUnsigned s.usedOrder) false none
            = some (min1, unpinnedFound, replacement) →
        unpinnedFound = true →
        ∃ r p, replacement = some r ∧ deref s.heap r = some p ∧ p.pinned = false
          ∧ p.sequenceNumber = min1) := by
  obtain ⟨h0, h1, -⟩ := lru_reachable_stamped s hs
  have hu := lru_reachable_unpinnedStamped s hs
  have hall : ∀ a p, deref s.heap a = some p → p.pinned = false →
      (p.sequenceNumber : Int) < s.usedOrder
        ∧ p.sequenceNumber < toUnsigned s.usedOrder
        ∧ p.sequenceNumber ≠ UINT_MAX := by
    intro a p hp hpin
    have h2 := hu a p hp hpin
    have h3 := h2
    rw [toUnsigned_of_int s.usedOrder h0 h1] at h3
    refine ⟨by omega, h2, ?_⟩
    simp only [INT_MAX] at h1
    simp only [UINT_MAX]
    omega
  refine ⟨⟨h0, h1⟩, hall, ?_, ?_⟩
  · intro e _ p hp hpin
    exact ⟨(hall e.2 p hp hpin).1, (hall e.2 p hp hpin).2.2⟩
  · intro min1 uf1 r1 hscan huf
    obtain ⟨k1, k2⟩ := lru_scan_assigned s.heap (toUnsigned s.usedOrder) hu s.cachedPages
      _ _ _ _ _ _ hscan (fun _ => ⟨rfl, le_refl _⟩) (fun a ha => by cases ha)
    cases r1 with
    | none =>
      have := k1 rfl
      rw [huf] at this
      cases this
    | some r =>
      obtain ⟨p, hp, hpin, hseq⟩ := k2 r rfl
      exact ⟨r, p, rfl, hp, hpin, hseq⟩

/-- C22 at a concrete input: the state of scenario 1 of the specification
before `fetchPage(4, true)` is reachable; its three unpinned pages have the
stamps 0, 1, 2 below `usedOrder = 3`, and the victim scan ends with
`replacement` assigned. -/
theorem C22_unpinned_pages_are_stamped_below_usedOrder_witness :
    lruFull.Reachable
    ∧ (∀ a p, deref lruFull.heap a = some p → p.pinned = false →
        (p.sequenceNumber : Int) < lruFull.usedOrder
          ∧ p.sequenceNumber < toUnsigned lruFull.usedOrder
          ∧ p.sequenceNumber ≠ UINT_MAX)
    ∧ LRUState.scan lruFull.heap lruFull.cachedPages (toUnsigned lruFull.usedOrder) false none
        = some (0, true, some 0)
    ∧ ∃ r p, some 0 = some r ∧ deref lruFull.heap r = some p ∧ p.pinned = false
        ∧ p.sequenceNumber = 0 := by
  have hr : lruFull.Reachable := ⟨4096, 0, 0, lruFullTrace, by decide, by decide, by decide⟩
  have h := C22_unpinned_pages_are_stamped_below_usedOrder lruFull hr
  exact ⟨hr, h.2.1, by decide, h.2.2.2 0 true (some 0) (by decide) rfl⟩

/-! ## Unpinned pages of the LRU-2 cache have a stamp -/

theorem pushStamp_ne_nil (l : List Nat) (x : Nat) (hl : l.length ≤ 2) :
    pushStamp l x ≠ [] := by
  match l, hl with
  | [], _ => simp [pushStamp]
  | [a], _ => simp [pushStamp]
  | [a, b], _ => simp [pushStamp]
  | _ :: _ :: _ :: _, h => simp at h

theorem pushStamp_length (l : List Nat) (x : Nat) (hl : l.length ≤ 2) (hn : l ≠ []) :
    (pushStamp l x).length = 2 := by
  match l, hl, hn with
  | [], _, h => exact absurd rfl h
  | [a], _, _ => simp [pushStamp]
  | [a, b], _, _ => simp [pushStamp]
  | _ :: _ :: _ :: _, h, _ => simp at h

theorem pushStamp_last (l : List Nat) (x : Nat) (hl : l.length ≤ 2) (hn : l ≠ []) :
    pushStamp l x = l.drop (l.length - 1) ++ [x] := by
  match l, hl, hn with
  | [], _, h => exact absurd rfl h
  | [a], _, _ => simp [pushStamp]
  | [a, b], _, _ => simp [pushStamp]
  | _ :: _ :: _ :: _, h, _ => simp at h

theorem lru2_step_unpinnedSeen (s s1 : LRU2State) (op : Op) (h : s.step op = some s1)
    (hs : s.Stamped) (hu : s.UnpinnedSeen) : s1.UnpinnedSeen := by
  obtain ⟨-, -, hst⟩ := hs
  cases op with
  | setMaxNumPages n =>
    obtain ⟨-, hl⟩ := lru2_setMaxNumPages_shape s s1 n h
    intro a p hp hpin
    exact hu a p (lru2_setMaxLoop_heap _ _ _ _ _ _ hl a p hp) hpin
  | fetchPage pageId allocate =>
    simp only [LRU2State.step, Option.map_eq_some'] at h
    obtain ⟨⟨r, s2⟩, h2, rfl⟩ := h
    obtain ⟨-, hh⟩ := lru2_fetchPage_shape s s2 pageId allocate r h2
    intro a p hp hpin
    rcases hh with hh | ⟨b, q, hq, hh⟩ | hh
    · rw [hh] at hp
      exact hu a p hp hpin
    · rw [hh] at hp
      rcases deref_store_cases _ _ _ _ _ hp with ⟨-, rfl⟩ | hp1
      · simp at hpin
      · exact hu a p hp1 hpin
    · rw [hh] at hp
      rcases deref_append_cases _ _ _ _ hp with ⟨-, rfl⟩ | hp1
      · simp at hpin
      · exact hu a p hp1 hpin
  | unpinPage b discard =>
    obtain ⟨q, hq, ⟨e, -⟩ | ⟨-, -, ho, e⟩⟩ := lru2_unpinPage_shape s s1 b discard h
    · intro a p hp hpin
      rw [e] at hp
      exact hu a p (deref_free _ _ _ _ hp).1 hpin
    · intro a p hp hpin
      rw [e] at hp
      rcases deref_store_cases _ _ _ _ _ hp with ⟨-, rfl⟩ | hp1
      · exact pushStamp_ne_nil _ _ (hst b q hq).1
      · exact hu a p hp1 hpin
  | changePageId b newPageId =>
    obtain ⟨-, q, hq, e⟩ := lru2_changePageId_shape s s1 b newPageId h
    intro a p hp hpin
    rw [e] at hp
    rcases deref_store_cases _ _ _ _ _ hp with ⟨-, rfl⟩ | hp1
    · exact hu b q hq hpin
    · exact hu a p hp1 hpin
  | discardPages limit =>
    obtain ⟨-, hl⟩ := lru2_discardPages_shape s s1 limit h
    intro a p hp hpin
    exact hu a p (lru2_discardLoop_heap _ _ _ _ _ hl a p hp) hpin

theorem lru2_run_unpinnedSeen (s s1 : LRU2State) (ops : List Op)
    (h : s.run ops = some s1) (hs : s.Stamped) (hu : s.UnpinnedSeen) :
    s1.UnpinnedSeen := by
  induction ops generalizing s with
  | nil =>
    simp only [LRU2State.run, Option.some.injEq] at h
    subst h
    exact hu
  | cons op ops ih =>
    unfold LRU2State.run at h
    split at h
    · cases h
    · rename_i s2 hstep
      exact ih s2 h (lru2_step_stamped s s2 op hstep hs)
        (lru2_step_unpinnedSeen s s2 op hstep hs hu)

theorem lru2_reachable_unpinnedSeen (s : LRU2State) (h : s.Reachable) :
    s.UnpinnedSeen := by
  obtain ⟨pageSize, extraSize, order, ops, h0, h1, hrun⟩ := h
  refine lru2_run_unpinnedSeen _ s ops hrun ⟨h0, h1, ?_⟩ ?_
  · intro a p hp
    simp [LRU2State.init, deref] at hp
  · intro a p hp
    simp [LRU2State.init, deref] at hp

/-! ## The victim of LRU-2 keeps its history -/

theorem lru2_takeOneAccess_unpinned (heap : List (Option LRU2ReplacementPage))
    (m : Directory) :
    ∀ (a : Nat) (m1 : Directory), LRU2State.takeOneAccess heap m = some (some (a, m1)) →
      ∃ p, deref heap a = some p ∧ p.pinned = false ∧ p.sequenceNums.length < 2 := by
  induction m with
  | nil =>
    intro a m1 h
    simp [LRU2State.takeOneAccess] at h
  | cons e rest ih =>
    intro a m1 h
    unfold LRU2State.takeOneAccess at h
    split at h
    · cases h
    · rename_i p hp
      split at h
      · rename_i hc
        simp only [Option.some.injEq, Prod.mk.injEq] at h
        obtain ⟨rfl, -⟩ := h
        simp only [Bool.and_eq_true, Bool.not_eq_true', decide_eq_true_eq] at hc
        exact ⟨p, hp, hc.1, hc.2⟩
      · split at h
        · cases h
        · cases h
        · rename_i b m2 hrec
          simp only [Option.some.injEq, Prod.mk.injEq] at h
          obtain ⟨rfl, -⟩ := h
          exact ih b m2 hrec

/-- The page that the loop of the branch `numOneAccess >= 1` assigns to
`replacement` is a live unpinned page with exactly the one stamp that is the
final `min`. -/
theorem lru2_scanOneAccess_assigned (heap : List (Option LRU2ReplacementPage))
    (m : Directory) :
    ∀ (min : Nat) (r : Option Nat) (min1 : Nat) (r1 : Option Nat),
      LRU2State.scanOneAccess heap m min r = some (min1, r1) →
      (∀ a, r = some a →
        ∃ p, deref heap a = some p ∧ p.pinned = false ∧ p.sequenceNums = [min]) →
      ∀ a, r1 = some a →
        ∃ p, deref heap a = some p ∧ p.pinned = false ∧ p.sequenceNums = [min1] := by
  induction m with
  | nil =>
    intro min r min1 r1 h h2
    simp only [LRU2State.scanOneAccess, Option.some.injEq, Prod.mk.injEq] at h
    obtain ⟨rfl, rfl⟩ := h
    exact h2
  | cons e rest ih =>
    intro min r min1 r1 h h2
    unfold LRU2State.scanOneAccess at h
    split at h
    · cases h
    · rename_i p hp
      split at h
      · rename_i hc
        simp only [Bool.and_eq_true, Bool.not_eq_true', decide_eq_true_eq] at hc
        split at h
        · cases h
        · rename_i front hfront
          have hq : p.sequenceNums = [front] := by
            match hs : p.sequenceNums with
            | [] => rw [hs] at hfront; simp at hfront
            | [x] =>
              rw [hs] at hfront
              simp only [List.head?_cons, Option.some.injEq] at hfront
              rw [hfront]
            | _ :: _ :: _ =>
              have := hc.2
              rw [hs] at this
              simp only [List.length_cons] at this
              omega
          split at h
          · refine ih _ _ _ _ h ?_
            intro a ha
            simp only [Option.some.injEq] at ha
            subst ha
            exact ⟨p, hp, hc.1, hq⟩
          · exact ih _ _ _ _ h h2
      · exact ih _ _ _ _ h h2

/-- The page that the loop of the last branch assigns to `replacement` is a
live page, pinned or not, whose front stamp is the final `min`. -/
theorem lru2_scanAll_assigned (heap : List (Option LRU2ReplacementPage))
    (m : Directory) :
    ∀ (min : Nat) (r : Option Nat) (min1 : Nat) (r1 : Option Nat),
      LRU2State.scanAll heap m min r = some (min1, r1) →
      (∀ a, r = some a →
        ∃ p, deref heap a = some p ∧ p.sequenceNums.head? = some min) →
      ∀ a, r1 = some a →
        ∃ p, deref heap a = some p ∧ p.sequenceNums.head? = some min1 := by
  induction m with
  | nil =>
    intro min r min1 r1 h h2
    simp only [LRU2State.scanAll, Option.some.injEq, Prod.mk.injEq] at h
    obtain ⟨rfl, rfl⟩ := h
    exact h2
  | cons e rest ih =>
    intro min r min1 r1 h h2
    unfold LRU2State.scanAll at h
    split at h
    · cases h
    · rename_i p hp
      split at h
      · cases h
      · rename_i front hfront
        split at h
        · refine ih _ _ _ _ h ?_
          intro a ha
          simp only [Option.some.injEq] at ha
          subst ha
          exact ⟨p, hp, hfront⟩
        · exact ih _ _ _ _ h h2

theorem lru2_reuse_frame (s0 s1 : LRU2State) (pageId : Nat) (x r : Option Nat)
    (h : LRU2State.reuse s0 pageId x = some (r, s1)) :
    ∃ a p, x = some a ∧ r = some a ∧ deref s0.heap a = some p
      ∧ (find s0.cachedPages p.pageId).isSome = true
      ∧ s1 = { s0 with heap := store s0.heap a { p with pinned := true },
                       cachedPages := emplace (eraseKey s0.cachedPages p.pageId) pageId a } := by
  unfold LRU2State.reuse at h
  split at h
  · cases h
  · split at h
    · cases h
    · split at h
      · cases h
      · simp only [Option.some.injEq, Prod.mk.injEq] at h
        obtain ⟨rfl, rfl⟩ := h
        rename_i hfind
        exact ⟨_, _, rfl, rfl, by assumption, by rw [hfind]; rfl, rfl⟩

theorem lru2_takeOneAccess_length (heap : List (Option LRU2ReplacementPage))
    (k : Nat) (m : Directory) :
    ∀ (a : Nat) (m1 : Directory), LRU2State.takeOneAccess heap m = some (some (a, m1)) →
      m1.length + 1 = m.length ∧ (find m k = none → find m1 k = none) := by
  induction m with
  | nil =>
    intro a m1 h
    simp [LRU2State.takeOneAccess] at h
  | cons e rest ih =>
    intro a m1 h
    unfold LRU2State.takeOneAccess at h
    split at h
    · cases h
    · split at h
      · simp only [Option.some.injEq, Prod.mk.injEq] at h
        obtain ⟨-, rfl⟩ := h
        refine ⟨rfl, ?_⟩
        intro hk
        by_cases he : e.1 = k
        · simp [find, he] at hk
        · simpa [find, he] using hk
      · split at h
        · cases h
        · cases h
        · rename_i b m2 hrec
          simp only [Option.some.injEq, Prod.mk.injEq] at h
          obtain ⟨-, rfl⟩ := h
          obtain ⟨h1, h2⟩ := ih b m2 hrec
          refine ⟨by simp [h1], ?_⟩
          intro hk
          by_cases he : e.1 = k
          · simp [find, he] at hk
          · simp only [find, he, if_false] at hk ⊢
            exact h2 hk

theorem length_emplace (m : Directory) (k v : Nat) (h : find m k = none) :
    (emplace m k v).length = m.length + 1 := by
  simp [emplace, h]

theorem length_emplace_eraseKey (m : Directory) (k j v a : Nat)
    (hk : find m k = some a) (hj : find m j = none) :
    (emplace (eraseKey m k) j v).length = m.length := by
  have hne : j ≠ k := by
    intro e
    rw [e, hk] at hj
    cases hj
  rw [length_emplace _ _ _ (by rw [find_eraseKey_ne m k j hne]; exact hj)]
  exact length_eraseKey m k a hk

/-- Victim reuse in the LRU-2 cache: when `fetchPage(pageId, true)` misses at
capacity and returns a page, that page was live before the call, and the call
changes nothing in it but `pinned`; it was unpinned or had a front stamp. -/
theorem lru2_fetchPage_reuse_frame (s s1 : LRU2State) (pageId r : Nat)
    (hmiss : find s.cachedPages pageId = none)
    (hfull : ¬ s.getNumPages < s.maxNumPages_)
    (h : s.fetchPage pageId true = some (some r, s1)) :
    ∃ p, deref s.heap r = some p
      ∧ s1.heap = store s.heap r { p with pinned := true }
      ∧ (p.pinned = false ∨ p.sequenceNums ≠ [])
      ∧ s1.sequenceNumber = s.sequenceNumber ∧ s1.maxNumPages_ = s.maxNumPages_
      ∧ s1.getNumPages = s.getNumPages := by
  have hfull1 : ¬ ({ s with numFetches_ := incr64 s.numFetches_ } : LRU2State).getNumPages
      < s.maxNumPages_ := hfull
  unfold LRU2State.fetchPage at h
  simp only [hmiss, if_true, hfull1, if_false] at h
  split at h
  · cases h
  · split at h
    · cases h
    · split at h
      · split at h
        · cases h
        · cases h
        · rename_i a m htake
          split at h
          · cases h
          · rename_i p hp
            simp only [Option.some.injEq, Prod.mk.injEq] at h
            obtain ⟨rfl, rfl⟩ := h
            obtain ⟨q, hq, hpin, -⟩ := lru2_takeOneAccess_unpinned _ _ _ _ htake
            have hpq : p = q := by
              rw [hp] at hq
              simpa using hq
            subst hpq
            obtain ⟨hlen, hnone⟩ := lru2_takeOneAccess_length _ pageId _ _ _ htake
            refine ⟨p, hp, rfl, Or.inl hpin, rfl, rfl, ?_⟩
            simp only [LRU2State.getNumPages]
            rw [length_emplace _ _ _ (hnone hmiss), hlen]
      · split at h
        · split at h
          · cases h
          · rename_i min1 r1 hscan
            obtain ⟨a, p, hx, hr, hp, hfind, e⟩ := lru2_reuse_frame _ _ _ _ _ h
            obtain ⟨b, hb⟩ := Option.isSome_iff_exists.mp hfind
            have hnum : s1.getNumPages = s.getNumPages := by
              rw [e]
              simp only [LRU2State.getNumPages]
              rw [length_emplace_eraseKey _ _ _ _ b hb hmiss]
            simp only [Option.some.injEq] at hr
            subst hr
            obtain ⟨q, hq, hpin, -⟩ :=
              lru2_scanOneAccess_assigned _ _ _ _ _ _ hscan (fun a ha => by cases ha) _ hx
            have hpq : p = q := by
              rw [hp] at hq
              simpa using hq
            subst hpq
            refine ⟨p, hp, ?_, Or.inl hpin, ?_, ?_, hnum⟩ <;> rw [e]
        · split at h
          · cases h
          · rename_i min1 r1 hscan
            obtain ⟨a, p, hx, hr, hp, hfind, e⟩ := lru2_reuse_frame _ _ _ _ _ h
            obtain ⟨b, hb⟩ := Option.isSome_iff_exists.mp hfind
            have hnum : s1.getNumPages = s.getNumPages := by
              rw [e]
              simp only [LRU2State.getNumPages]
              rw [length_emplace_eraseKey _ _ _ _ b hb hmiss]
            simp only [Option.some.injEq] at hr
            subst hr
            obtain ⟨q, hq, hfront⟩ :=
              lru2_scanAll_assigned _ _ _ _ _ _ hscan (fun a ha => by cases ha) _ hx
            have hpq : p = q := by
              rw [hp] at hq
              simpa using hq
            subst hpq
            refine ⟨p, hp, ?_, Or.inr ?_, ?_, ?_, hnum⟩
            · rw [e]
            · intro hnil
              rw [hnil] at hfront
              simp at hfront
            · rw [e]
            · rw [e]

/-- In a reachable state of the LRU-2 cache, when `fetchPage(pageId, true)`
misses with the number of pages not below `maxNumPages_` and returns a page,
the call has changed nothing in that page but `pinned`, in each of the three
reuse branches: the queue of stamps is the one the page had before the call,
and it is not empty.  When the number of pages is at most `maxNumPages_` and
the global counter is below `INT_MAX`, the next `unpinPage` of the page
leaves it with two stamps: the last of the old ones followed by the new
one. -/
theorem lru2_victim_reuse_keeps_stamps
    (s s1 : LRU2State) (pageId r : Nat)
    (hs : s.Reachable) (hmiss : find s.cachedPages pageId = none)
    (hfull : ¬ s.getNumPages < s.maxNumPages_)
    (h : s.fetchPage pageId true = some (some r, s1))
    (hcap : s.getNumPages ≤ s.maxNumPages_) (hord : s.sequenceNumber ≠ INT_MAX) :
    ∃ p, deref s.heap r = some p
      ∧ deref s1.heap r = some { p with pinned := true }
      ∧ p.sequenceNums ≠ [] ∧ p.sequenceNums.length ≤ 2
      ∧ ∃ s2, s1.unpinPage r false = some s2
          ∧ deref s2.heap r
              = some { p with pinned := false,
                              sequenceNums :=
                                pushStamp p.sequenceNums (toUnsigned s.sequenceNumber) }
          ∧ pushStamp p.sequenceNums (toUnsigned s.sequenceNumber)
              = p.sequenceNums.drop (p.sequenceNums.length - 1) ++ [toUnsigned s.sequenceNumber]
          ∧ (pushStamp p.sequenceNums (toUnsigned s.sequenceNumber)).length = 2 := by
  obtain ⟨p, hp, hheap, hor, hseq, hmax, hnum⟩ :=
    lru2_fetchPage_reuse_frame s s1 pageId r hmiss hfull h
  have hlen : p.sequenceNums.length ≤ 2 := ((lru2_reachable_stamped s hs).2.2 r p hp).1
  have hne : p.sequenceNums ≠ [] := by
    rcases hor with hpin | hne
    · exact lru2_reachable_unpinnedSeen s hs r p hp hpin
    · exact hne
  have hp1 : deref s1.heap r = some { p with pinned := true } := by
    rw [hheap]
    exact deref_store_same _ (deref_lt hp)
  have hcap1 : s1.getNumPages ≤ s1.maxNumPages_ := by
    rw [hnum, hmax]
    exact hcap
  have hord1 : s1.sequenceNumber ≠ INT_MAX := by
    rw [hseq]
    exact hord
  have hun := lru2_unpinPage_keep s1 r { p with pinned := true } hp1 hcap1 hord1
  refine ⟨p, hp, hp1, hne, hlen, _, hun, ?_, pushStamp_last _ _ hlen hne,
    pushStamp_length _ _ hlen hne⟩
  simp only [hseq]
  exact deref_store_same _ (deref_lt hp1)

/-- C21 (the code diverges). A page that `fetchPage` creates for a new id
starts with an empty queue of stamps.  A page that `fetchPage` reuses for a
new id does not: in the LRU-2 cache of capacity 1 that holds page 1, unpinned
once with stamp 0, `fetchPage(2, true)` returns that page with the queue
`[0]`, and the next `unpinPage` leaves it with the two stamps `[0, 1]`, not
with one.  The kept stamps change a later eviction: with capacity 2, after
`fetchPage(1, true)`, its `unpinPage`, `fetchPage(2, true)`,
`fetchPage(3, true)` (which reuses the page of id 1) and the `unpinPage` of
the page of id 3 and then of the page of id 2, the page of id 3 holds
`[0, 1]` and counts as a page with two accesses, so `fetchPage(4, true)`
finds one unpinned page with fewer than two stamps and reuses the page of
id 2, at address 1.  On the same state with the one stamp `[1]` in the page
of id 3, the victim search counts two such pages and selects the page of
id 3, at address 0, in either iteration order. -/
theorem C21_reuse_returns_page_with_old_history :
    ((LRU2State.init 4096 0 0).run [Op.setMaxNumPages 1, Op.fetchPage 2 true]
        = some { maxNumPages_ := 1, pageSize_ := 4096, extraSize_ := 0, numFetches_ := 1,
                 numHits_ := 0, sequenceNumber := 0, cachedPages := [(2, 0)],
                 heap := [some { pageId := 2, pinned := true, sequenceNums := [] }] })
    ∧ ((LRU2State.init 4096 0 0).run
          [Op.setMaxNumPages 1, Op.fetchPage 1 true, Op.unpinPage 0 false] = some lru2Single
      ∧ lru2Single.fetchPage 2 true = some (some 0, lru2SingleReused)
      ∧ deref lru2SingleReused.heap 0
          = some { pageId := 1, pinned := true, sequenceNums := [0] }
      ∧ lru2SingleReused.unpinPage 0 false
          = some { maxNumPages_ := 1, pageSize_ := 4096, extraSize_ := 0, numFetches_ := 2,
                   numHits_ := 0, sequenceNumber := 2, cachedPages := [(2, 0)],
                   heap := [some { pageId := 1, pinned := false, sequenceNums := [0, 1] }] })
    ∧ ((LRU2State.init 4096 0 0).run
          [Op.setMaxNumPages 2, Op.fetchPage 1 true, Op.unpinPage 0 false, Op.fetchPage 2 true,
           Op.fetchPage 3 true, Op.unpinPage 0 false, Op.unpinPage 1 false] = some lru2Retained
      ∧ LRU2State.count lru2Retained.heap lru2Retained.cachedPages 0 0 = some (2, 1)
      ∧ lru2Retained.fetchPage 4 true
          = some (some 1,
              { maxNumPages_ := 2, pageSize_ := 4096, extraSize_ := 0, numFetches_ := 4,
                numHits_ := 0, sequenceNumber := 3, cachedPages := [(4, 1), (3, 0)],
                heap := [some { pageId := 1, pinned := false, sequenceNums := [0, 1] },
                         some { pageId := 2, pinned := true, sequenceNums := [2] }] })
      ∧ { lru2Retained with cachedPages := [(2, 1), (3, 0)] }.fetchPage 4 true
          = some (some 1,
              { maxNumPages_ := 2, pageSize_ := 4096, extraSize_ := 0, numFetches_ := 4,
                numHits_ := 0, sequenceNumber := 3, cachedPages := [(4, 1), (3, 0)],
                heap := [some { pageId := 1, pinned := false, sequenceNums := [0, 1] },
                         some { pageId := 2, pinned := true, sequenceNums := [2] }] }))
    ∧ (LRU2State.count lru2RetainedWithOneStamp.heap lru2RetainedWithOneStamp.cachedPages 0 0
          = some (2, 2)
      ∧ LRU2State.scanOneAccess lru2RetainedWithOneStamp.heap [(3, 0), (2, 1)]
          (toUnsigned lru2RetainedWithOneStamp.sequenceNumber) none = some (1, some 0)
      ∧ LRU2State.scanOneAccess lru2RetainedWithOneStamp.heap [(2, 1), (3, 0)]
          (toUnsigned lru2RetainedWithOneStamp.sequenceNumber) none = some (1, some 0)) := by
  decide

/-! ## `front()` in the victim search of LRU-2 -/

/-- In a reachable state of the LRU-2 cache, a live unpinned page has a front
stamp: the branch `numOneAccess >= 1`, which evaluates `front()` on unpinned
pages only, evaluates it on a queue that is not empty. -/
theorem lru2_unpinned_front_defined (s : LRU2State) (hs : s.Reachable) (a : Nat)
    (p : LRU2ReplacementPage) (hp : deref s.heap a = some p) (hpin : p.pinned = false) :
    ∃ front, p.sequenceNums.head? = some front := by
  have hne := lru2_reachable_unpinnedSeen s hs a p hp hpin
  cases hq : p.sequenceNums with
  | nil => exact absurd hq hne
  | cons x rest => exact ⟨x, rfl⟩

/-- C23 (the code diverges). After `setMaxNumPages(2)`, `fetchPage(1, true)`,
and `fetchPage(2, true)` followed by `unpinPage`, twice, page 1 is pinned with
an empty queue and page 2 is unpinned with the stamps 0 and 1.
`fetchPage(3, true)` counts one unpinned page and no page with fewer than two
stamps, so it runs the last branch of the victim search, whose loop evaluates
`sequenceNums.front()` on every page of the directory: also on page 1, whose
queue is empty.  The result is undefined, in either iteration order of the
two entries. -/
theorem C23_last_branch_reads_front_of_empty_queue :
    (LRU2State.init 4096 0 0).run
        [Op.setMaxNumPages 2, Op.fetchPage 1 true, Op.fetchPage 2 true, Op.unpinPage 1 false,
         Op.fetchPage 2 true, Op.unpinPage 1 false] = some lru2Unseen
    ∧ LRU2State.count lru2Unseen.heap lru2Unseen.cachedPages 0 0 = some (1, 0)
    ∧ deref lru2Unseen.heap 0 = some { pageId := 1, pinned := true, sequenceNums := [] }
    ∧ LRU2State.scanAll lru2Unseen.heap [(2, 1), (1, 0)]
        (toUnsigned lru2Unseen.sequenceNumber) none = none
    ∧ LRU2State.scanAll lru2Unseen.heap [(1, 0), (2, 1)]
        (toUnsigned lru2Unseen.sequenceNumber) none = none
    ∧ lru2Unseen.fetchPage 3 true = none
    ∧ { lru2Unseen with cachedPages := [(1, 0), (2, 1)] }.fetchPage 3 true = none := by
  decide

end PageCache
